import Mathlib

/-!
# Simulation engine of onlyfans-event-publisher

A shallow embedding of `internal/simulator/platform_simulator.go` and of the
model types of `internal/model`, followed by theorems about it.

Conventions of the embedding

* `float64` is the type `F64`: a finite value carried as the rational number
  it denotes, or one of `+Inf`, `-Inf`, `NaN`.  Every arithmetic operation is
  the exact rational operation followed by IEEE-754 binary64 rounding to
  nearest, ties to even (`round64`), evaluated one operation at a time (no
  fused multiply-add, as on amd64).  The sign of zero is not tracked.
* A decimal constant of the Go source such as `0.99` is the `float64` nearest
  to it, `lit (99/100)`.
* Go `int` and `time.Duration` are `Int`.  A conversion of a floating-point
  value that the integer type cannot hold yields `-2^63`, the amd64 result.
* `math/rand` is an oracle: a stream of natural numbers, one consumed by each
  call of `Float64` and of `Intn`.  `Intn n` panics for `n ≤ 0`, as in Go.
* The clock is an oracle too: a stream of instants (nanoseconds), one
  consumed by each call of `time.Now` or `time.Since`.
* A Go panic is the result `none`.
-/

namespace Simulator

/-! ## binary64 arithmetic -/

/-- Floor of the binary logarithm of a natural number, by halving. -/
def log2Fuel : Nat → Nat → Nat
  | 0, _ => 0
  | fuel + 1, n => if n < 2 then 0 else log2Fuel fuel (n / 2) + 1

/-- Floor of the binary logarithm of a natural number (0 for 0). -/
def nlog2 (n : Nat) : Nat := log2Fuel n n

/-- The rational number `2 ^ e`. -/
def pow2 (e : Int) : ℚ :=
  if 0 ≤ e then ((2 ^ e.toNat : Nat) : ℚ) else 1 / ((2 ^ (-e).toNat : Nat) : ℚ)

/-- Floor of the binary logarithm of a positive rational. -/
def ilog2 (x : ℚ) : Int :=
  let e0 : Int := (nlog2 x.num.natAbs : Int) - (nlog2 x.den : Int)
  if x < pow2 e0 then e0 - 1 else e0

/-- Nearest integer, ties to the even one. -/
def roundEven (y : ℚ) : Int :=
  let n := ⌊y⌋
  let d := y - n
  if d < 1 / 2 then n else if 1 / 2 < d then n + 1 else if n % 2 = 0 then n else n + 1

/-- Rounding of a rational to 53 significant bits with exponent at least
`-1022` (so subnormal numbers are multiples of `2 ^ (-1074)`), the exponent
being unbounded above. -/
def rndQ (x : ℚ) : ℚ :=
  if x = 0 then 0 else
  let a := |x|
  let e := max (ilog2 a) (-1022)
  let q := pow2 (e - 52)
  let m := roundEven (a / q)
  if 0 < x then m * q else -(m * q)

/-- A `float64` value. -/
inductive F64 where
  | fin (q : ℚ)
  | pinf
  | ninf
  | nan
  deriving DecidableEq

/-- Largest finite `float64`, `(2^53 - 1) * 2^971`. -/
def maxFinite : ℚ := (2 ^ 53 - 1) * pow2 971

/-- IEEE rounding of an exact result to `float64`, overflowing to infinity. -/
def round64 (x : ℚ) : F64 :=
  let r := rndQ x
  if maxFinite < r then F64.pinf else if r < -maxFinite then F64.ninf else F64.fin r

/-- A decimal constant of the source, converted to `float64`. -/
def lit (q : ℚ) : F64 := round64 q

/-- Conversion `float64(n)` of an integer. -/
def i2f (n : Int) : F64 := round64 n

namespace F64

/-- Negation. -/
def neg : F64 → F64
  | fin q => fin (-q)
  | pinf => ninf
  | ninf => pinf
  | nan => nan

/-- Addition `a + b`. -/
def add : F64 → F64 → F64
  | fin a, fin b => round64 (a + b)
  | nan, _ => nan
  | _, nan => nan
  | pinf, ninf => nan
  | ninf, pinf => nan
  | pinf, _ => pinf
  | _, pinf => pinf
  | ninf, _ => ninf
  | _, ninf => ninf

/-- Subtraction `a - b`. -/
def sub (a b : F64) : F64 := add a (neg b)

/-- Infinity with the sign of the product of two signs (`true` is positive). -/
def infOfSign (s : Bool) : F64 := if s then pinf else ninf

/-- Multiplication `a * b`. -/
def mul : F64 → F64 → F64
  | fin a, fin b => round64 (a * b)
  | nan, _ => nan
  | _, nan => nan
  | pinf, fin b => if b = 0 then nan else infOfSign (decide (0 < b))
  | ninf, fin b => if b = 0 then nan else infOfSign (decide (b < 0))
  | fin a, pinf => if a = 0 then nan else infOfSign (decide (0 < a))
  | fin a, ninf => if a = 0 then nan else infOfSign (decide (a < 0))
  | pinf, pinf => pinf
  | ninf, ninf => pinf
  | pinf, ninf => ninf
  | ninf, pinf => ninf

/-- Division `a / b` (a zero divisor counts as `+0`). -/
def div : F64 → F64 → F64
  | fin a, fin b =>
    if b = 0 then (if a = 0 then nan else infOfSign (decide (0 < a))) else round64 (a / b)
  | nan, _ => nan
  | _, nan => nan
  | fin _, pinf => fin 0
  | fin _, ninf => fin 0
  | pinf, fin b => infOfSign (decide (0 ≤ b))
  | ninf, fin b => infOfSign (decide (b < 0))
  | pinf, pinf => nan
  | pinf, ninf => nan
  | ninf, pinf => nan
  | ninf, ninf => nan

/-- Comparison `a < b`; false when either side is `NaN`. -/
def lt : F64 → F64 → Bool
  | fin a, fin b => decide (a < b)
  | nan, _ => false
  | _, nan => false
  | ninf, ninf => false
  | ninf, _ => true
  | _, ninf => false
  | pinf, _ => false
  | _, pinf => true

/-- Comparison `a > b`. -/
def gt (a b : F64) : Bool := lt b a

/-- Comparison `a <= b`; false when either side is `NaN`. -/
def le : F64 → F64 → Bool
  | fin a, fin b => decide (a ≤ b)
  | nan, _ => false
  | _, nan => false
  | ninf, _ => true
  | _, pinf => true
  | pinf, _ => false
  | _, ninf => false

end F64

/-- Truncation of a rational toward zero. -/
def truncQ (q : ℚ) : Int := if 0 ≤ q then ⌊q⌋ else -⌊-q⌋

/-- Conversion `int(x)` of a `float64` to a 64-bit integer: truncation toward
zero; a value outside the range of `int64` (or `NaN`) gives `-2^63`. -/
def f2i : F64 → Int
  | F64.fin q =>
    let t := truncQ q
    if -(2 ^ 63) ≤ t ∧ t < 2 ^ 63 then t else -(2 ^ 63)
  | _ => -(2 ^ 63)

/-- Reduction of an integer to the range of `int64` (two's complement). -/
def wrap64 (x : Int) : Int := (x + 2 ^ 63) % 2 ^ 64 - 2 ^ 63

/-! ## Oracles: random source and clock -/

/-- The random source `*rand.Rand`: a stream of draws and the number of draws
consumed so far. -/
structure Rng where
  src : Nat → Nat
  pos : Nat

/-- The value `float64(k) / (1 << 63)` that `Float64` computes from the
63-bit integer `k`; the quotient by a power of two is exact. -/
def unitFloat (k : Nat) : ℚ := rndQ (k : ℚ) / 2 ^ 63

/-- The call `rng.Float64()`: a `float64` in `[0.0, 1.0)`.  Go computes
`float64(Int63()) / (1 << 63)` and draws again while the quotient is 1, which
happens exactly for the integers from `2^63 - 512` on; so the values returned
are those of the integers below `2^63 - 512`. -/
def Rng.Float64 (r : Rng) : F64 × Rng :=
  (F64.fin (unitFloat (r.src r.pos % (2 ^ 63 - 512))), { r with pos := r.pos + 1 })

/-- The call `rng.Intn(n)`: an integer in `[0, n)`; panics if `n <= 0`. -/
def Rng.Intn (r : Rng) (n : Int) : Option (Int × Rng) :=
  if n ≤ 0 then none else some ((r.src r.pos : Int) % n, { r with pos := r.pos + 1 })

/-- The clock: a stream of instants in nanoseconds and the number of readings
taken so far. -/
structure Clock where
  readings : Nat → Int
  pos : Nat

/-- The call `time.Now()`. -/
def Clock.now (c : Clock) : Int × Clock :=
  (c.readings c.pos, { c with pos := c.pos + 1 })

/-- The constant `time.Hour`, in nanoseconds. -/
def Hour : Int := 3600000000000

/-- The difference `t.Sub(u)` of two instants as a `time.Duration`,
saturating at the ends of the `int64` range. -/
def timeSub (t u : Int) : Int :=
  let d := t - u
  if d < -(2 ^ 63) then -(2 ^ 63) else if 2 ^ 63 - 1 < d then 2 ^ 63 - 1 else d

/-- The call `time.Since(t)`. -/
def Clock.since (c : Clock) (t : Int) : Int × Clock :=
  (timeSub (c.readings c.pos) t, { c with pos := c.pos + 1 })

/-! ## Formatting and indexing -/

/-- The character of a decimal digit. -/
def digitChar (d : Nat) : Char := Char.ofNat (48 + d)

/-- Decimal digits of a natural number, most significant first. -/
def decDigits : Nat → Nat → List Char
  | 0, _ => []
  | fuel + 1, n =>
    if n < 10 then [digitChar n] else decDigits fuel (n / 10) ++ [digitChar (n % 10)]

/-- The verb `%d` applied to a natural number. -/
def fmtNat (n : Nat) : String := String.mk (decDigits (n + 1) n)

/-- The verb `%d` applied to an integer. -/
def fmtInt (n : Int) : String :=
  if n < 0 then "-" ++ fmtNat n.natAbs else fmtNat n.natAbs

/-- The index expression `xs[i]` of Go: panics when `i` is out of range. -/
def idx {α : Type} (xs : List α) (i : Int) : Option α :=
  if i < 0 then none else xs[i.toNat]?

/-- The assignment `xs[i] = v` of Go: panics when `i` is out of range. -/
def upd {α : Type} (xs : List α) (i : Nat) (v : α) : Option (List α) :=
  if i < xs.length then some (xs.set i v) else none

/-! ## Model types (`internal/model`) -/

/-- The struct `model.Creator`. -/
structure Creator where
  ID : String
  Username : String
  DisplayName : String
  Email : String
  IsVerified : Bool
  SubscriberCount : Int
  MonthlyPrice : F64
  CreatedAt : Int
  IsOnline : Bool
  Category : String
  ProfilePic : String
  deriving DecidableEq

/-- The variable `model.CreatorCategories`. -/
def CreatorCategories : List String :=
  ["fitness", "lifestyle", "art", "music", "gaming", "cooking", "fashion", "photography",
   "education", "entertainment"]

/-- The struct `model.Content`. -/
structure Content where
  ID : String
  CreatorID : String
  Title : String
  Description : String
  ContentType : String
  MediaURL : String
  Price : F64
  IsLocked : Bool
  ViewCount : Int
  LikeCount : Int
  CreatedAt : Int
  UpdatedAt : Int
  Tags : List String
  deriving DecidableEq

/-- The variable `model.ContentTypes`. -/
def ContentTypes : List String := ["image", "video", "text", "live", "gallery"]

/-! ## The simulator (`internal/simulator`) -/

/-- The struct `PlatformSimulator`. -/
structure PlatformSimulator where
  creators : List Creator
  contentCounts : List Int
  activityLevels : List F64
  lastPostTimes : List Int
  subscriberTrends : List F64
  engagementRates : List F64
  abnormalActivityProb : F64
  rng : Rng

/-- The function `clamp`. -/
def clamp (value min max : F64) : F64 :=
  if F64.lt value min then min
  else if F64.gt value max then max
  else value

/-- The function `getFileExtension`. -/
def getFileExtension (contentType : String) : String :=
  if contentType = "image" ∨ contentType = "gallery" then "jpg"
  else if contentType = "video" ∨ contentType = "live" then "mp4"
  else "txt"

/-- The map `titles` of `generateContentTitle`. -/
def titles (category : String) : Option (List String) :=
  if category = "fitness" then some ["Workout Session", "Training Day", "Gym Time", "Fitness Tips"]
  else if category = "lifestyle" then
    some ["Daily Vibe", "Life Update", "Casual Moment", "Behind Scenes"]
  else if category = "art" then
    some ["New Creation", "Art Process", "Creative Session", "Artistic Vision"]
  else if category = "music" then
    some ["New Track", "Studio Session", "Live Performance", "Music Moment"]
  else if category = "gaming" then some ["Gaming Session", "New Game", "Epic Win", "Game Review"]
  else none

/-- The function `generateContentTitle`. -/
def generateContentTitle (_contentType category : String) (rng : Rng) : Option (String × Rng) :=
  let categoryTitles :=
    match titles category with
    | some ts => ts
    | none => ["New Post", "Update", "Fresh Content", "Latest"]
  match rng.Intn categoryTitles.length with
  | none => none
  | some (k, rng) =>
    match idx categoryTitles k with
    | none => none
    | some t => some (t, rng)

/-- The slice `descriptions` of `generateContentDescription`. -/
def descriptions : List String :=
  ["Check out my latest content!", "Hope you enjoy this one ❤️", "What do you think about this?",
   "Been working on this for a while...", "Exclusive content just for you!", ""]

/-- The function `generateContentDescription`. -/
def generateContentDescription (_contentType : String) (rng : Rng) : Option (String × Rng) :=
  match rng.Intn descriptions.length with
  | none => none
  | some (k, rng) =>
    match idx descriptions k with
    | none => none
    | some d => some (d, rng)

/-- The slice `additionalTags` of `generateTags`. -/
def additionalTags : List String :=
  ["new", "exclusive", "hot", "trending", "premium", "special"]

/-- The loop of `generateTags`, with `n` iterations left. -/
def generateTagsLoop : Nat → List String → Rng → Option (List String × Rng)
  | 0, baseTags, rng => some (baseTags, rng)
  | n + 1, baseTags, rng =>
    match rng.Intn additionalTags.length with
    | none => none
    | some (k, rng) =>
      match idx additionalTags k with
      | none => none
      | some tag =>
        let exists_ := baseTags.any (fun existing => existing == tag)
        generateTagsLoop n (if exists_ then baseTags else baseTags ++ [tag]) rng

/-- The function `generateTags`. -/
def generateTags (category contentType : String) (rng : Rng) : Option (List String × Rng) :=
  let baseTags := [category, contentType]
  match rng.Intn 4 with
  | none => none
  | some (numAdditional, rng) => generateTagsLoop numAdditional.toNat baseTags rng

/-- One iteration of the loop of `NewPlatformSimulator`, for creator `i`; the
slices are extended by the entry the iteration assigns. -/
def initStep (baseTime : Int) (i : Nat) (s : PlatformSimulator) (clk : Clock) :
    Option (PlatformSimulator × Clock) := do
  let (n1, rng) ← s.rng.Intn 10000
  let subscriberCount := n1 + 100
  let (n2, rng) ← rng.Intn 45
  let monthlyPrice := F64.add (i2f (n2 + 5)) (lit (99 / 100))
  let (u1, rng) := rng.Float64
  let (n3, rng) ← rng.Intn 720
  let (u2, rng) := rng.Float64
  let (n4, rng) ← rng.Intn CreatorCategories.length
  let category ← idx CreatorCategories n4
  let creator : Creator :=
    { ID := "creator-" ++ fmtNat i
      Username := "user_" ++ fmtNat i
      DisplayName := "Creator " ++ fmtNat i
      Email := "creator" ++ fmtNat i ++ "@platform.com"
      IsVerified := F64.lt u1 (lit (3 / 10))
      SubscriberCount := subscriberCount
      MonthlyPrice := monthlyPrice
      CreatedAt := baseTime + n3 * Hour
      IsOnline := F64.lt u2 (lit (4 / 10))
      Category := category
      ProfilePic := "https://cdn.platform.com/profiles/creator-" ++ fmtNat i ++ ".jpg" }
  let (u3, rng) := rng.Float64
  let activityLevel := F64.add (F64.mul u3 (lit (8 / 10))) (lit (2 / 10))
  let (now, clk) := clk.now
  let (n5, rng) ← rng.Intn 48
  let lastPostTime := now + (-n5) * Hour
  let (u4, rng) := rng.Float64
  let subscriberTrend := F64.mul (F64.sub u4 (lit (1 / 2))) (lit (2 / 100))
  let (u5, rng) := rng.Float64
  let engagementRate := F64.add (F64.mul u5 (lit (15 / 100))) (lit (5 / 100))
  let (n6, rng) ← rng.Intn 50
  pure
    ({ creators := s.creators ++ [creator]
       contentCounts := s.contentCounts ++ [n6 + 10]
       activityLevels := s.activityLevels ++ [activityLevel]
       lastPostTimes := s.lastPostTimes ++ [lastPostTime]
       subscriberTrends := s.subscriberTrends ++ [subscriberTrend]
       engagementRates := s.engagementRates ++ [engagementRate]
       abnormalActivityProb := s.abnormalActivityProb
       rng := rng }, clk)

/-- The loop `for i := 0; i < numCreators; i++` of `NewPlatformSimulator`,
with `n` iterations left, the next one for creator `i`. -/
def initLoop (baseTime : Int) : Nat → Nat → PlatformSimulator → Clock →
    Option (PlatformSimulator × Clock)
  | 0, _, s, clk => some (s, clk)
  | n + 1, i, s, clk =>
    match initStep baseTime i s clk with
    | none => none
    | some (s, clk) => initLoop baseTime n (i + 1) s clk

/-- The size in bytes of a `model.Creator` on amd64: six strings of 16 bytes,
two `bool` fields padded to 8 bytes each, an `int`, a `float64`, and a
`time.Time` of 24 bytes. -/
def creatorSize : Int := 152

/-- The constant `maxAlloc` of the Go runtime on amd64, in bytes: `make` panics
with "makeslice: len out of range" when the slice asked for takes more. -/
def maxAlloc : Int := 2 ^ 48

/-- The function `NewPlatformSimulator`.  The generator seeded with the clock
reading `t` is the stream `gen t`.  The first `make`, of the slice of creators
(which has the largest elements of the six slices), panics on a negative
length and on a length that takes more than `maxAlloc` bytes; `capacity` is
the number of creators for which the machine has memory: beyond it the runtime
stops the program. -/
def NewPlatformSimulator (capacity : Nat) (gen : Int → Nat → Nat) (clk : Clock)
    (numCreators : Int) (abnormalProb : F64) : Option (PlatformSimulator × Clock) :=
  let (seed, clk) := clk.now
  let r : Rng := { src := gen seed, pos := 0 }
  if numCreators < 0 ∨ maxAlloc < creatorSize * numCreators ∨ (capacity : Int) < numCreators then
    none
  else
  let (now, clk) := clk.now
  let baseTime := now + (-Hour * 24 * 30)
  initLoop baseTime numCreators.toNat 0
    { creators := [], contentCounts := [], activityLevels := [], lastPostTimes := [],
      subscriberTrends := [], engagementRates := [], abnormalActivityProb := abnormalProb,
      rng := r } clk

/-- The method `GetCreators`. -/
def GetCreators (s : PlatformSimulator) : List Creator := s.creators

/-- The block "Update subscriber count based on trend" of
`generateCreatorUpdate`: the new subscriber count. -/
def driftSubscribers (subscriberCount : Int) (trend : F64) : Int :=
  let subscriberChange := F64.mul (i2f subscriberCount) trend
  let count := f2i (F64.add (i2f subscriberCount) subscriberChange)
  if count < 0 then 0 else count

/-- The block "Update online status (60% chance of change)" of
`generateCreatorUpdate`. -/
def driftOnline (isOnline : Bool) (rng : Rng) : Bool × Rng :=
  let (u, rng) := rng.Float64
  (if F64.lt u (lit (6 / 10)) then !isOnline else isOnline, rng)

/-- The block "Occasionally adjust monthly price (5% chance)" of
`generateCreatorUpdate`. -/
def driftPrice (monthlyPrice : F64) (rng : Rng) : F64 × Rng :=
  let (u, rng) := rng.Float64
  if F64.lt u (lit (5 / 100)) then
    let (v, rng) := rng.Float64
    let priceChange := F64.mul (F64.sub v (lit (1 / 2))) (lit 10)
    (clamp (F64.add monthlyPrice priceChange) (lit (499 / 100)) (lit (9999 / 100)), rng)
  else (monthlyPrice, rng)

/-- The block "Update trends occasionally" of `generateCreatorUpdate`. -/
def driftTrend (trend : F64) (rng : Rng) : F64 × Rng :=
  let (u, rng) := rng.Float64
  if F64.lt u (lit (1 / 10)) then
    let (v, rng) := rng.Float64
    let trend := F64.add trend (F64.mul (F64.sub v (lit (1 / 2))) (lit (1 / 100)))
    (clamp trend (F64.neg (lit (5 / 100))) (lit (5 / 100)), rng)
  else (trend, rng)

/-- The method `generateCreatorUpdate`, its four blocks in the order of the
source. -/
def generateCreatorUpdate (s : PlatformSimulator) (creatorIndex : Nat) :
    Option (Creator × PlatformSimulator) := do
  let creator ← s.creators[creatorIndex]?
  let trend ← s.subscriberTrends[creatorIndex]?
  let subscriberCount := driftSubscribers creator.SubscriberCount trend
  let online := driftOnline creator.IsOnline s.rng
  let price := driftPrice creator.MonthlyPrice online.2
  let trend := driftTrend trend price.2
  let subscriberTrends ← upd s.subscriberTrends creatorIndex trend.1
  let creator :=
    { creator with
      SubscriberCount := subscriberCount, IsOnline := online.1, MonthlyPrice := price.1 }
  let creators ← upd s.creators creatorIndex creator
  pure (creator,
    { s with creators := creators, subscriberTrends := subscriberTrends, rng := trend.2 })

/-- The loop of `GenerateCreatorUpdates`, with `n` creators left, the next
one being creator `i`. -/
def updatesLoop : Nat → Nat → PlatformSimulator → List Creator →
    Option (List Creator × PlatformSimulator)
  | 0, _, s, updates => some (updates, s)
  | n + 1, i, s, updates =>
    let draw := s.rng.Float64
    if F64.lt draw.1 (lit (2 / 10)) then
      match generateCreatorUpdate { s with rng := draw.2 } i with
      | none => none
      | some (c, s) => updatesLoop n (i + 1) s (updates ++ [c])
    else updatesLoop n (i + 1) { s with rng := draw.2 } updates

/-- The method `GenerateCreatorUpdates`. -/
def GenerateCreatorUpdates (s : PlatformSimulator) : Option (List Creator × PlatformSimulator) :=
  updatesLoop s.creators.length 0 s []

/-- The base interval `time.Duration(2+((1-activityLevel)*46)) * time.Hour`
of `shouldCreatorPost`: the conversion truncates to an integer, which the
multiplication of 64-bit integers then scales. -/
def baseInterval (activityLevel : F64) : Int :=
  wrap64 (f2i (F64.add (lit 2) (F64.mul (F64.sub (lit 1) activityLevel) (lit 46))) * Hour)

/-- The method `shouldCreatorPost`; the random source is returned with the
answer. -/
def shouldCreatorPost (s : PlatformSimulator) (creatorIndex : Nat) (timeSincePost : Int) :
    Option (Bool × Rng) := do
  let activityLevel ← s.activityLevels[creatorIndex]?
  let baseInterval := baseInterval activityLevel
  if timeSincePost < Int.tdiv baseInterval 2 then pure (false, s.rng) else
  let probability := F64.div (i2f timeSincePost) (i2f baseInterval)
  let abnormal := s.rng.Float64
  let probability :=
    if F64.lt abnormal.1 s.abnormalActivityProb then F64.mul probability (lit 5) else probability
  let draw := abnormal.2.Float64
  pure (F64.lt draw.1 probability, draw.2)

/-- The block "Generate realistic engagement" of `generateCreatorContent`:
view count and like count. -/
def engagement (subscriberCount : Int) (engagementRate : F64) (rng : Rng) :
    Option (Int × Int × Rng) := do
  let baseViews := f2i (F64.mul (i2f subscriberCount) engagementRate)
  let (jitter, rng) ← rng.Intn (Int.tdiv baseViews 2)
  let viewCount := wrap64 (baseViews + jitter)
  let draw := rng.Float64
  let likeCount :=
    f2i (F64.mul (i2f viewCount) (F64.add (lit (1 / 10)) (F64.mul draw.1 (lit (2 / 10)))))
  pure (viewCount, likeCount, draw.2)

/-- The block "Determine if content should be locked/premium" of
`generateCreatorContent`: the flag and the price. -/
def premium (rng : Rng) : Option (Bool × F64 × Rng) := do
  let draw := rng.Float64
  let isLocked := F64.lt draw.1 (lit (4 / 10))
  if isLocked then
    let (p, rng) ← draw.2.Intn 25
    pure (isLocked, F64.add (i2f (p + 5)) (lit (99 / 100)), rng)
  else pure (isLocked, F64.fin 0, draw.2)

/-- The block "Generate media URL based on content type" of
`generateCreatorContent`. -/
def mediaURL (contentType contentID : String) : String :=
  if contentType ≠ "text" then
    "https://cdn.platform.com/" ++ contentType ++ "/" ++ contentID ++ "." ++
      getFileExtension contentType
  else ""

/-- The method `generateCreatorContent`. -/
def generateCreatorContent (s : PlatformSimulator) (clk : Clock) (creatorIndex : Nat) :
    Option (Content × PlatformSimulator × Clock) := do
  let creator ← s.creators[creatorIndex]?
  let postCount ← s.contentCounts[creatorIndex]?
  let contentID := "content-" ++ creator.ID ++ "-" ++ fmtInt postCount
  let (k, rng) ← s.rng.Intn ContentTypes.length
  let contentType ← idx ContentTypes k
  let engagementRate ← s.engagementRates[creatorIndex]?
  let (viewCount, likeCount, rng) ← engagement creator.SubscriberCount engagementRate rng
  let (isLocked, price, rng) ← premium rng
  let (tags, rng) ← generateTags creator.Category contentType rng
  let (title, rng) ← generateContentTitle contentType creator.Category rng
  let (description, rng) ← generateContentDescription contentType rng
  let createdAt := clk.now
  let updatedAt := createdAt.2.now
  pure
    ({ ID := contentID
       CreatorID := creator.ID
       Title := title
       Description := description
       ContentType := contentType
       MediaURL := mediaURL contentType contentID
       Price := price
       IsLocked := isLocked
       ViewCount := viewCount
       LikeCount := likeCount
       CreatedAt := createdAt.1
       UpdatedAt := updatedAt.1
       Tags := tags }, { s with rng := rng }, updatedAt.2)

/-- The body of the loop of `GenerateContent` for creator `i`: the content
emitted, if any, and the state after the iteration.  The increment
`s.contentCounts[i]++` of an `int` wraps around. -/
def contentStep (s : PlatformSimulator) (clk : Clock) (i : Nat) :
    Option (Option Content × PlatformSimulator × Clock) := do
  let lastPostTime ← s.lastPostTimes[i]?
  let timeSincePost := clk.since lastPostTime
  let (shouldPost, rng) ← shouldCreatorPost s i timeSincePost.1
  if shouldPost then
    let (newContent, s, clk) ← generateCreatorContent { s with rng := rng } timeSincePost.2 i
    let now := clk.now
    let lastPostTimes ← upd s.lastPostTimes i now.1
    let postCount ← s.contentCounts[i]?
    let contentCounts ← upd s.contentCounts i (wrap64 (postCount + 1))
    pure (some newContent,
      { s with lastPostTimes := lastPostTimes, contentCounts := contentCounts }, now.2)
  else pure (none, { s with rng := rng }, timeSincePost.2)

/-- The loop of `GenerateContent`, with `n` creators left, the next one being
creator `i`. -/
def contentLoop : Nat → Nat → PlatformSimulator → Clock → List Content →
    Option (List Content × PlatformSimulator × Clock)
  | 0, _, s, clk, content => some (content, s, clk)
  | n + 1, i, s, clk, content =>
    match contentStep s clk i with
    | none => none
    | some (none, s, clk) => contentLoop n (i + 1) s clk content
    | some (some c, s, clk) => contentLoop n (i + 1) s clk (content ++ [c])

/-- The method `GenerateContent`. -/
def GenerateContent (s : PlatformSimulator) (clk : Clock) :
    Option (List Content × PlatformSimulator × Clock) :=
  contentLoop s.creators.length 0 s clk []

/-! ## The configuration (package `config`) -/

/-- The type `Config` of the package `config`. -/
structure Config where
  RedpandaBrokers : String
  ContentTopic : String
  CreatorTopic : String
  NumCreators : Int
  IntervalMs : Int
  AbnormalProbability : F64

/-- The function `getEnv`; `env` is `os.LookupEnv`. -/
def getEnv (env : String → Option String) (key fallback : String) : String :=
  match env key with
  | some value => value
  | none => fallback

/-- The function `getEnvAsInt`; `atoi` is `strconv.Atoi`, `none` for an
error. -/
def getEnvAsInt (env : String → Option String) (atoi : String → Option Int) (key : String)
    (fallback : Int) : Int :=
  match env key with
  | some value =>
    match atoi value with
    | some intValue => intValue
    | none => fallback
  | none => fallback

/-- The function `getEnvAsFloat`; `parseFloat` is `strconv.ParseFloat` at 64
bits, `none` for an error. -/
def getEnvAsFloat (env : String → Option String) (parseFloat : String → Option F64)
    (key : String) (fallback : F64) : F64 :=
  match env key with
  | some value =>
    match parseFloat value with
    | some floatValue => floatValue
    | none => fallback
  | none => fallback

/-- The function `Load`: the configuration read from the environment, or the
error of the first check that fails. -/
def Load (env : String → Option String) (atoi : String → Option Int)
    (parseFloat : String → Option F64) : Except String Config :=
  let config : Config :=
    { RedpandaBrokers := getEnv env "REDPANDA_BROKERS" "redpanda-1:9092,redpanda-2:9092"
      ContentTopic := getEnv env "CONTENT_TOPIC" "content"
      CreatorTopic := getEnv env "CREATOR_TOPIC" "creator"
      NumCreators := getEnvAsInt env atoi "NUM_CREATORS" 10
      IntervalMs := getEnvAsInt env atoi "INTERVAL_MS" 1000
      AbnormalProbability := getEnvAsFloat env parseFloat "ABNORMAL_PROBABILITY" (lit (8 / 10)) }
  if config.NumCreators ≤ 0 then
    Except.error "NUM_CREATORS must be greater than 0"
  else if config.IntervalMs < 100 then
    Except.error "INTERVAL_MS must be at least 100ms"
  else if F64.lt config.AbnormalProbability (lit 0) ||
      F64.gt config.AbnormalProbability (lit 1) then
    Except.error "ABNORMAL_PROBABILITY must be between 0 and 1"
  else if config.ContentTopic = "" then
    Except.error "CONTENT_TOPIC cannot be empty"
  else if config.CreatorTopic = "" then
    Except.error "CREATOR_TOPIC cannot be empty"
  else
    Except.ok config

/-! ## Runs of the engine -/

/-- A call the driver makes on a tick. -/
inductive Call where
  | content
  | updates
  deriving DecidableEq

/-- Everything a run has returned to the driver so far. -/
structure Emitted where
  contents : List Content
  creators : List Creator

/-- The engine driven through a list of calls; `none` if a call panics. -/
def run : List Call → PlatformSimulator → Clock → Emitted →
    Option (PlatformSimulator × Clock × Emitted)
  | [], s, clk, out => some (s, clk, out)
  | Call.content :: calls, s, clk, out =>
    match GenerateContent s clk with
    | none => none
    | some (cs, s, clk) => run calls s clk { out with contents := out.contents ++ cs }
  | Call.updates :: calls, s, clk, out =>
    match GenerateCreatorUpdates s with
    | none => none
    | some (us, s) => run calls s clk { out with creators := out.creators ++ us }

/-- What a driver sees of one run of the engine: the creators of `GetCreators`
after `NewPlatformSimulator`, then the contents and the creator snapshots that
the calls return, in order; `none` if a call panics. -/
def session (capacity : Nat) (gen : Int → Nat → Nat) (clk : Clock) (numCreators : Int)
    (abnormalProb : F64) (calls : List Call) :
    Option (List Creator × List Content × List Creator) :=
  (NewPlatformSimulator capacity gen clk numCreators abnormalProb).bind fun p =>
    (run calls p.1 p.2 { contents := [], creators := [] }).map fun r =>
      (GetCreators p.1, r.2.2.contents, r.2.2.creators)

/-! ## Predicates of the statements -/

/-- Whether a `float64` is finite with a value between two rationals. -/
def F64.between (lo hi : ℚ) : F64 → Bool
  | F64.fin q => decide (lo ≤ q ∧ q ≤ hi)
  | _ => false

/-- Whether a `float64` is finite. -/
def F64.isFin : F64 → Bool
  | F64.fin _ => true
  | _ => false

/-- The bounds `[4.99, 99.99]` of the monthly price, as `float64` comparisons
with the two constants of the source. -/
def priceInRange (p : F64) : Prop :=
  F64.le (lit (499 / 100)) p = true ∧ F64.le p (lit (9999 / 100)) = true

/-- The number a list of decimal digits denotes. -/
def digitsVal (cs : List Char) : Nat :=
  cs.foldl (fun acc c => 10 * acc + (c.toNat - 48)) 0

/-- The shape of the state of an engine with `n` creators: all slices have
length `n`, and the creator at index `i` has the identifier `creator-i`. -/
def WellFormed (n : Nat) (s : PlatformSimulator) : Prop :=
  s.creators.length = n ∧ s.contentCounts.length = n ∧ s.activityLevels.length = n ∧
  s.lastPostTimes.length = n ∧ s.subscriberTrends.length = n ∧ s.engagementRates.length = n ∧
  ∀ i c, s.creators[i]? = some c → c.ID = "creator-" ++ fmtNat i

/-- The state in which content generation cannot wrap around: subscriber
counts fit a non-negative `int64` and engagement rates are finite, between 0
and 0.5. -/
def EngagementInv (s : PlatformSimulator) : Prop :=
  (∀ c ∈ s.creators, 0 ≤ c.SubscriberCount ∧ c.SubscriberCount < 2 ^ 63) ∧
  ∀ rate ∈ s.engagementRates, ∃ r : ℚ, rate = F64.fin r ∧ 0 ≤ r ∧ r ≤ 1 / 2

/-- The bounds `[0.2, 1.0]` of the activity level, as `float64` comparisons
with the constants. -/
def levelInRange (a : F64) : Prop :=
  F64.le (lit (2 / 10)) a = true ∧ F64.le a (lit 1) = true

/-- The bounds `[0.05, 0.20]` of the engagement rate, as `float64` comparisons
with the constants. -/
def rateInRange (r : F64) : Prop :=
  F64.le (lit (5 / 100)) r = true ∧ F64.le r (lit (20 / 100)) = true

/-- The part of the state that no call changes: activity levels, engagement
rates and the number of creators are those of `s0`. -/
def SameLevels (s0 s : PlatformSimulator) : Prop :=
  s.activityLevels = s0.activityLevels ∧ s.engagementRates = s0.engagementRates ∧
  s.creators.length = s0.creators.length

/-- The interpolation `2h + (1 - level) * 46h` in nanoseconds, over the
rationals: the interval as the statement about `shouldCreatorPost` words it,
to be compared with `baseInterval`. -/
def linearInterval (level : ℚ) : ℚ := 2 * Hour + (1 - level) * 46 * Hour

/-- As long as no more than `2^64` records have been returned: the engine is
well formed, the records returned so far have pairwise different identifiers,
and each identifier is that of some creator `i` with a post counter `k` from
which the current post counter of `i` is reached by `t` increments (each
wrapping around), where `t` is at least 1 and at most the number of records
returned. -/
def ContentInv (n : Nat) (s : PlatformSimulator) (E : List Content) : Prop :=
  E.length ≤ 2 ^ 64 →
  WellFormed n s ∧ (E.map Content.ID).Nodup ∧
  ∀ c ∈ E, ∃ (i : Nat) (k : Int) (t : Nat),
    c.ID = "content-" ++ ("creator-" ++ fmtNat i) ++ "-" ++ fmtInt k ∧
    s.contentCounts[i]? = some (wrap64 (k + t)) ∧ 0 < t ∧ t ≤ E.length

/-! ## Dependence on the draws and readings consumed -/

/-- Two streams give the same values at the positions from `lo` up to, not
including, `hi`. -/
def AgreeOn {α : Type} (lo hi : Nat) (f g : Nat → α) : Prop :=
  ∀ k, lo ≤ k → k < hi → g k = f k

/-- The random source at the same position of another stream of draws. -/
def Rng.withSrc (r : Rng) (src : Nat → Nat) : Rng := { src := src, pos := r.pos }

/-- The clock at the same position of another stream of readings. -/
def Clock.withReadings (c : Clock) (readings : Nat → Int) : Clock :=
  { readings := readings, pos := c.pos }

/-- The engine with its random source at the same position of another stream
of draws. -/
def PlatformSimulator.withSrc (s : PlatformSimulator) (src : Nat → Nat) : PlatformSimulator :=
  { s with rng := s.rng.withSrc src }

/-- A computation on the random source consumes draws in order and depends on
no draw but those it consumes: when it returns, it has only advanced the
position, and on any stream with the same draws at the positions consumed it
returns the same value. -/
def RngLocal {α : Type} (f : Rng → Option (α × Rng)) : Prop :=
  ∀ r a r', f r = some (a, r') → r.pos ≤ r'.pos ∧ r'.src = r.src ∧
    ∀ src2, AgreeOn r.pos r'.pos r.src src2 → f (r.withSrc src2) = some (a, r'.withSrc src2)

/-- A computation on the engine and the clock consumes draws and readings in
order and depends on no draw and no reading but those it consumes: when it
returns, it has only advanced the two positions, and on any streams with the
same draws and the same readings at the positions consumed it returns the same
value and leaves the same state. -/
def Local {α : Type} (f : PlatformSimulator → Clock → Option (α × PlatformSimulator × Clock)) :
    Prop :=
  ∀ s clk a s' clk', f s clk = some (a, s', clk') →
    s.rng.pos ≤ s'.rng.pos ∧ s'.rng.src = s.rng.src ∧ clk.pos ≤ clk'.pos ∧
    clk'.readings = clk.readings ∧
    ∀ src2 rd2, AgreeOn s.rng.pos s'.rng.pos s.rng.src src2 →
      AgreeOn clk.pos clk'.pos clk.readings rd2 →
      f (s.withSrc src2) (clk.withReadings rd2) =
        some (a, s'.withSrc src2, clk'.withReadings rd2)

/-! ## Concrete inputs -/

/-- A machine with memory for a thousand creators. -/
def demoCapacity : Nat := 1000

/-- A generator all of whose draws are 0, whatever the seed. -/
def zeroGen : Int → Nat → Nat := fun _ _ => 0

/-- A clock that advances by one day from one reading to the next. -/
def dayClock : Clock := { readings := fun k => (k : Int) * (24 * Hour), pos := 0 }

/-- The engine made with all draws 0 and then driven through a list of calls
under `dayClock`, with abnormal-activity probability 0. -/
def demo (numCreators : Int) (calls : List Call) : Option (PlatformSimulator × Clock × Emitted) :=
  (NewPlatformSimulator demoCapacity zeroGen dayClock numCreators (F64.fin 0)).bind fun p =>
    run calls p.1 p.2 { contents := [], creators := [] }

/-- A creator as `NewPlatformSimulator` makes it when all draws are 0. -/
def demoCreator : Creator :=
  { ID := "creator-0"
    Username := "user_0"
    DisplayName := "Creator 0"
    Email := "creator0@platform.com"
    IsVerified := true
    SubscriberCount := 100
    MonthlyPrice := lit (599 / 100)
    CreatedAt := 0
    IsOnline := true
    Category := "fitness"
    ProfilePic := "https://cdn.platform.com/profiles/creator-0.jpg" }

/-- An engine with the one creator `demoCreator`, activity level 0.2, trend
-0.01, engagement rate the `float64` constant 0.05, last post at instant 0,
and a random source all of whose draws are 0. -/
def demoState : PlatformSimulator :=
  { creators := [demoCreator]
    contentCounts := [10]
    activityLevels := [lit (2 / 10)]
    lastPostTimes := [0]
    subscriberTrends := [F64.neg (lit (1 / 100))]
    engagementRates := [F64.fin (3602879701896397 / 72057594037927936)]
    abnormalActivityProb := F64.fin 0
    rng := { src := fun _ => 0, pos := 0 } }

/-- A run with two creators, all draws 0: a call of `GenerateContent`, one of
`GenerateCreatorUpdates` and one more of `GenerateContent`. -/
def demoCalls : List Call := [Call.content, Call.updates, Call.content]

/-- An environment in which no variable is set. -/
def emptyEnv : String → Option String := fun _ => none

/-- A clock that advances by one hour from one reading to the next; its first
reading is that of `dayClock`. -/
def hourClock : Clock := { readings := fun k => (k : Int) * Hour, pos := 0 }

/-- A machine whose memory is no limit below that of `make`. -/
def largeCapacity : Nat := 2 ^ 62

/-- An environment in which only `NUM_CREATORS` is set, to two million
million. -/
def bigEnv : String → Option String :=
  fun key => if key = "NUM_CREATORS" then some "2000000000000" else none

/-- What `strconv.Atoi` gives on the value of `NUM_CREATORS` in `bigEnv`. -/
def bigAtoi : String → Option Int :=
  fun value => if value = "2000000000000" then some 2000000000000 else none

/-- A generator whose first 27 draws are 0 and whose later draws are 1,
whatever the seed. -/
def lateGen : Int → Nat → Nat := fun _ k => if k < 27 then 0 else 1

/-- A clock whose first 7 readings are those of `dayClock` and whose later
readings are 0. -/
def lateClock : Clock :=
  { readings := fun k => if k < 7 then (k : Int) * (24 * Hour) else 0, pos := 0 }

/-! ## What the operations compute -/

theorem upd_eq_some {α : Type} {xs : List α} {i : Nat} {v : α} {ys : List α}
    (h : upd xs i v = some ys) : i < xs.length ∧ ys = xs.set i v := by
  unfold upd at h
  split at h
  · exact ⟨‹_›, (Option.some.inj h).symm⟩
  · simp at h

theorem driftSubscribers_nonneg (n : Int) (trend : F64) : 0 ≤ driftSubscribers n trend := by
  unfold driftSubscribers
  simp only
  split
  · exact le_refl 0
  · omega

/-- What a successful call of `generateCreatorUpdate` returns and stores. -/
theorem generateCreatorUpdate_eq {s : PlatformSimulator} {i : Nat} {c : Creator}
    {s' : PlatformSimulator} (h : generateCreatorUpdate s i = some (c, s')) :
    ∃ old trend, s.creators[i]? = some old ∧ s.subscriberTrends[i]? = some trend ∧
      c = { old with
            SubscriberCount := driftSubscribers old.SubscriberCount trend
            IsOnline := (driftOnline old.IsOnline s.rng).1
            MonthlyPrice := (driftPrice old.MonthlyPrice (driftOnline old.IsOnline s.rng).2).1 } ∧
      s' = { s with
             creators := s.creators.set i c
             subscriberTrends := s.subscriberTrends.set i
               (driftTrend trend (driftPrice old.MonthlyPrice (driftOnline old.IsOnline s.rng).2).2).1
             rng := (driftTrend trend
               (driftPrice old.MonthlyPrice (driftOnline old.IsOnline s.rng).2).2).2 } := by
  unfold generateCreatorUpdate at h
  simp only [Option.bind_eq_bind, Option.bind_eq_some, Option.pure_def, Option.some.injEq,
    Prod.mk.injEq] at h
  obtain ⟨old, hold, trend, htrend, ts, hts, cs, hcs, hc, hs⟩ := h
  obtain ⟨-, rfl⟩ := upd_eq_some hts
  obtain ⟨-, rfl⟩ := upd_eq_some hcs
  subst hc
  exact ⟨old, trend, hold, htrend, rfl, hs.symm⟩

/-- What a successful call of `generateCreatorContent` returns: the fields of
the record in terms of the blocks of the method, and the state, of which only
the random source has changed. -/
theorem generateCreatorContent_eq {s : PlatformSimulator} {clk : Clock} {i : Nat} {c : Content}
    {s' : PlatformSimulator} {clk' : Clock} (h : generateCreatorContent s clk i = some (c, s', clk')) :
    ∃ creator postCount k r1 contentType rate viewCount likeCount r2 isLocked price r3 tags r4
        title r5 description r6,
      s.creators[i]? = some creator ∧ s.contentCounts[i]? = some postCount ∧
      s.rng.Intn ContentTypes.length = some (k, r1) ∧ idx ContentTypes k = some contentType ∧
      s.engagementRates[i]? = some rate ∧
      engagement creator.SubscriberCount rate r1 = some (viewCount, likeCount, r2) ∧
      premium r2 = some (isLocked, price, r3) ∧
      generateTags creator.Category contentType r3 = some (tags, r4) ∧
      generateContentTitle contentType creator.Category r4 = some (title, r5) ∧
      generateContentDescription contentType r5 = some (description, r6) ∧
      c = { ID := "content-" ++ creator.ID ++ "-" ++ fmtInt postCount
            CreatorID := creator.ID
            Title := title
            Description := description
            ContentType := contentType
            MediaURL := mediaURL contentType ("content-" ++ creator.ID ++ "-" ++ fmtInt postCount)
            Price := price
            IsLocked := isLocked
            ViewCount := viewCount
            LikeCount := likeCount
            CreatedAt := clk.now.1
            UpdatedAt := clk.now.2.now.1
            Tags := tags } ∧
      s' = { s with rng := r6 } ∧ clk' = clk.now.2.now.2 := by
  unfold generateCreatorContent at h
  simp only [Option.bind_eq_bind, Option.bind_eq_some, Option.pure_def, Option.some.injEq,
    Prod.mk.injEq, Prod.exists] at h
  obtain ⟨creator, h1, postCount, h2, k, r1, h3, contentType, h4, rate, h5, viewCount, likeCount,
    r2, h6, isLocked, price, r3, h7, tags, r4, h8, title, r5, h9, description, r6, h10, hc, hs,
    hclk⟩ := h
  exact ⟨creator, postCount, k, r1, contentType, rate, viewCount, likeCount, r2, isLocked, price,
    r3, tags, r4, title, r5, description, r6, h1, h2, h3, h4, h5, h6, h7, h8, h9, h10, hc.symm,
    hs.symm, hclk.symm⟩

/-- What a successful iteration of the loop of `GenerateContent` does. -/
theorem contentStep_eq {s : PlatformSimulator} {clk : Clock} {i : Nat} {oc : Option Content}
    {s' : PlatformSimulator} {clk' : Clock} (h : contentStep s clk i = some (oc, s', clk')) :
    ∃ last shouldPost r, s.lastPostTimes[i]? = some last ∧
      shouldCreatorPost s i (clk.since last).1 = some (shouldPost, r) ∧
      ((shouldPost = false ∧ oc = none ∧ s' = { s with rng := r } ∧ clk' = (clk.since last).2) ∨
       (shouldPost = true ∧ ∃ c sg clkg postCount,
          generateCreatorContent { s with rng := r } (clk.since last).2 i = some (c, sg, clkg) ∧
          sg.contentCounts[i]? = some postCount ∧ i < sg.contentCounts.length ∧
          i < sg.lastPostTimes.length ∧
          oc = some c ∧
          s' = { sg with lastPostTimes := sg.lastPostTimes.set i clkg.now.1
                         contentCounts := sg.contentCounts.set i (wrap64 (postCount + 1)) } ∧
          clk' = clkg.now.2)) := by
  unfold contentStep at h
  simp only [Option.bind_eq_bind, Option.bind_eq_some, Prod.exists] at h
  obtain ⟨last, h1, shouldPost, r, h2, h3⟩ := h
  refine ⟨last, shouldPost, r, h1, h2, ?_⟩
  cases shouldPost with
  | false =>
    simp only [Bool.false_eq_true, if_false, Option.pure_def, Option.some.injEq,
      Prod.mk.injEq] at h3
    exact Or.inl ⟨rfl, h3.1.symm, h3.2.1.symm, h3.2.2.symm⟩
  | true =>
    simp only [if_true, Option.bind_eq_bind, Option.bind_eq_some, Option.pure_def,
      Option.some.injEq, Prod.mk.injEq, Prod.exists] at h3
    obtain ⟨c, sg, clkg, hg, ts, hts, postCount, hpc, cs, hcs, hoc, hs, hclk⟩ := h3
    obtain ⟨hl1, rfl⟩ := upd_eq_some hts
    obtain ⟨hl2, rfl⟩ := upd_eq_some hcs
    exact Or.inr ⟨rfl, c, sg, clkg, postCount, hg, hpc, hl2, hl1, hoc.symm, hs.symm, hclk.symm⟩

/-- An invariant of the state that every drift update keeps, and a property
of every snapshot a drift update returns, hold along the loop of
`GenerateCreatorUpdates`. -/
theorem updatesLoop_inv (Inv : PlatformSimulator → Prop) (Q : Creator → Prop)
    (hrng : ∀ s r, Inv s → Inv { s with rng := r })
    (hstep : ∀ s i c s', Inv s → generateCreatorUpdate s i = some (c, s') → Inv s' ∧ Q c) :
    ∀ n i s acc us s', Inv s → (∀ c ∈ acc, Q c) → updatesLoop n i s acc = some (us, s') →
      Inv s' ∧ ∀ c ∈ us, Q c := by
  intro n
  induction n with
  | zero =>
    intro i s acc us s' hI hacc h
    simp only [updatesLoop, Option.some.injEq, Prod.mk.injEq] at h
    obtain ⟨rfl, rfl⟩ := h
    exact ⟨hI, hacc⟩
  | succ n ih =>
    intro i s acc us s' hI hacc h
    simp only [updatesLoop] at h
    split at h
    · split at h
      · simp at h
      · rename_i c s1 hg
        obtain ⟨hI1, hQ⟩ := hstep _ _ _ _ (hrng s _ hI) hg
        refine ih (i + 1) s1 (acc ++ [c]) us s' hI1 ?_ h
        intro x hx
        rcases List.mem_append.mp hx with hx | hx
        · exact hacc x hx
        · rw [List.mem_singleton.mp hx]; exact hQ
    · exact ih (i + 1) _ acc us s' (hrng s _ hI) hacc h

/-- An invariant of the state that every iteration keeps, and a property of
every record an iteration emits, hold along the loop of `GenerateContent`. -/
theorem contentLoop_inv (Inv : PlatformSimulator → Prop) (R : Content → Prop)
    (hstep : ∀ s clk i oc s' clk', Inv s → contentStep s clk i = some (oc, s', clk') →
      Inv s' ∧ ∀ c, oc = some c → R c) :
    ∀ n i s clk acc cs s' clk', Inv s → (∀ c ∈ acc, R c) →
      contentLoop n i s clk acc = some (cs, s', clk') → Inv s' ∧ ∀ c ∈ cs, R c := by
  intro n
  induction n with
  | zero =>
    intro i s clk acc cs s' clk' hI hacc h
    simp only [contentLoop, Option.some.injEq, Prod.mk.injEq] at h
    obtain ⟨rfl, rfl, -⟩ := h
    exact ⟨hI, hacc⟩
  | succ n ih =>
    intro i s clk acc cs s' clk' hI hacc h
    simp only [contentLoop] at h
    split at h
    · simp at h
    · rename_i s1 clk1 hg
      exact ih (i + 1) s1 clk1 acc cs s' clk' (hstep _ _ _ _ _ _ hI hg).1 hacc h
    · rename_i c s1 clk1 hg
      obtain ⟨hI1, hR⟩ := hstep _ _ _ _ _ _ hI hg
      refine ih (i + 1) s1 clk1 (acc ++ [c]) cs s' clk' hI1 ?_ h
      intro x hx
      rcases List.mem_append.mp hx with hx | hx
      · exact hacc x hx
      · rw [List.mem_singleton.mp hx]; exact hR c rfl

/-- An invariant of the state kept by every drift update and by every
iteration of content generation holds along every run, together with the
properties of the snapshots and of the records the run returns. -/
theorem run_inv (Inv : PlatformSimulator → Prop) (Q : Creator → Prop) (R : Content → Prop)
    (hrng : ∀ s r, Inv s → Inv { s with rng := r })
    (hupd : ∀ s i c s', Inv s → generateCreatorUpdate s i = some (c, s') → Inv s' ∧ Q c)
    (hcon : ∀ s clk i oc s' clk', Inv s → contentStep s clk i = some (oc, s', clk') →
      Inv s' ∧ ∀ c, oc = some c → R c) :
    ∀ calls s clk out s' clk' out', Inv s → (∀ c ∈ out.creators, Q c) →
      (∀ c ∈ out.contents, R c) → run calls s clk out = some (s', clk', out') →
      Inv s' ∧ (∀ c ∈ out'.creators, Q c) ∧ ∀ c ∈ out'.contents, R c := by
  intro calls
  induction calls with
  | nil =>
    intro s clk out s' clk' out' hI hQ hR h
    simp only [run, Option.some.injEq, Prod.mk.injEq] at h
    obtain ⟨rfl, -, rfl⟩ := h
    exact ⟨hI, hQ, hR⟩
  | cons call calls ih =>
    intro s clk out s' clk' out' hI hQ hR h
    cases call with
    | content =>
      simp only [run] at h
      split at h
      · simp at h
      · rename_i cs s1 clk1 hg
        obtain ⟨hI1, hR1⟩ := contentLoop_inv Inv R hcon _ _ _ _ [] _ _ _ hI (by simp) hg
        refine ih s1 clk1 { out with contents := out.contents ++ cs } s' clk' out' hI1 hQ ?_ h
        intro x hx
        rcases List.mem_append.mp hx with hx | hx
        · exact hR x hx
        · exact hR1 x hx
    | updates =>
      simp only [run] at h
      split at h
      · simp at h
      · rename_i us s1 hg
        obtain ⟨hI1, hQ1⟩ := updatesLoop_inv Inv Q hrng hupd _ _ _ [] _ _ hI (by simp) hg
        refine ih s1 clk { out with creators := out.creators ++ us } s' clk' out' hI1 ?_ hR h
        intro x hx
        rcases List.mem_append.mp hx with hx | hx
        · exact hQ x hx
        · exact hQ1 x hx

theorem Intn_eq_some {r : Rng} {n k : Int} {r' : Rng} (h : r.Intn n = some (k, r')) :
    0 < n ∧ 0 ≤ k ∧ k < n ∧ r' = { r with pos := r.pos + 1 } := by
  unfold Rng.Intn at h
  split at h
  · simp at h
  · rename_i hn
    simp only [Option.some.injEq, Prod.mk.injEq] at h
    obtain ⟨rfl, rfl⟩ := h
    have hn' : 0 < n := by omega
    exact ⟨hn', Int.emod_nonneg _ (by omega), Int.emod_lt_of_pos _ hn', rfl⟩

/-- The value a call of `Float64` returns is that of an integer below
`2^63 - 512`. -/
theorem Float64_fst (r : Rng) : ∃ k : Nat, k < 2 ^ 63 - 512 ∧ r.Float64.1 = F64.fin (unitFloat k) :=
  ⟨r.src r.pos % (2 ^ 63 - 512), Nat.mod_lt _ (by norm_num), rfl⟩

theorem idx_mem {α : Type} {xs : List α} {i : Int} {x : α} (h : idx xs i = some x) : x ∈ xs := by
  unfold idx at h
  split at h
  · simp at h
  · exact List.getElem?_mem h

/-- What a successful iteration of the loop of `NewPlatformSimulator` appends
to the slices. -/
theorem initStep_eq {baseTime : Int} {i : Nat} {s : PlatformSimulator} {clk : Clock}
    {s' : PlatformSimulator} {clk' : Clock} (h : initStep baseTime i s clk = some (s', clk')) :
    ∃ (creator : Creator) (postCount : Int) (activityLevel : F64) (lastPostTime : Int)
        (subscriberTrend engagementRate : F64) (rng : Rng),
      s' = { creators := s.creators ++ [creator]
             contentCounts := s.contentCounts ++ [postCount]
             activityLevels := s.activityLevels ++ [activityLevel]
             lastPostTimes := s.lastPostTimes ++ [lastPostTime]
             subscriberTrends := s.subscriberTrends ++ [subscriberTrend]
             engagementRates := s.engagementRates ++ [engagementRate]
             abnormalActivityProb := s.abnormalActivityProb
             rng := rng } ∧
      creator.ID = "creator-" ++ fmtNat i ∧
      (∃ n : Int, 0 ≤ n ∧ n < 10000 ∧ creator.SubscriberCount = n + 100) ∧
      (∃ n : Int, 0 ≤ n ∧ n < 45 ∧ creator.MonthlyPrice = F64.add (i2f (n + 5)) (lit (99 / 100))) ∧
      creator.Category ∈ CreatorCategories ∧
      (∃ k : Nat, k < 2 ^ 63 - 512 ∧
        activityLevel = F64.add (F64.mul (F64.fin (unitFloat k)) (lit (8 / 10))) (lit (2 / 10))) ∧
      (∃ k : Nat, k < 2 ^ 63 - 512 ∧
        subscriberTrend = F64.mul (F64.sub (F64.fin (unitFloat k)) (lit (1 / 2))) (lit (2 / 100))) ∧
      (∃ k : Nat, k < 2 ^ 63 - 512 ∧
        engagementRate = F64.add (F64.mul (F64.fin (unitFloat k)) (lit (15 / 100))) (lit (5 / 100))) ∧
      (∃ n : Int, 0 ≤ n ∧ n < 50 ∧ postCount = n + 10) := by
  unfold initStep at h
  simp only [Option.bind_eq_bind, Option.bind_eq_some, Option.pure_def, Option.some.injEq,
    Prod.mk.injEq, Prod.exists] at h
  obtain ⟨n1, r1, h1, n2, r2, h2, n3, r3, h3, n4, r4, h4, category, h5, n5, r5, h6, n6, r6, h7,
    hs, -⟩ := h
  obtain ⟨-, h1a, h1b, -⟩ := Intn_eq_some h1
  obtain ⟨-, h2a, h2b, -⟩ := Intn_eq_some h2
  obtain ⟨-, h7a, h7b, -⟩ := Intn_eq_some h7
  refine ⟨_, _, _, _, _, _, _, hs.symm, rfl, ⟨n1, h1a, h1b, rfl⟩, ⟨n2, h2a, h2b, rfl⟩,
    idx_mem h5, ?_, ?_, ?_, ⟨n6, h7a, h7b, rfl⟩⟩
  · exact ⟨_, Nat.mod_lt _ (by norm_num), rfl⟩
  · exact ⟨_, Nat.mod_lt _ (by norm_num), rfl⟩
  · exact ⟨_, Nat.mod_lt _ (by norm_num), rfl⟩

/-- A property of the state, indexed by the number of creators made so far,
that every iteration of the loop of `NewPlatformSimulator` carries on holds
at the end of the loop. -/
theorem initLoop_inv (baseTime : Int) (Inv : Nat → PlatformSimulator → Prop)
    (hstep : ∀ i s clk s' clk', Inv i s → initStep baseTime i s clk = some (s', clk') →
      Inv (i + 1) s') :
    ∀ n i s clk s' clk', Inv i s → initLoop baseTime n i s clk = some (s', clk') →
      Inv (i + n) s' := by
  intro n
  induction n with
  | zero =>
    intro i s clk s' clk' hI h
    simp only [initLoop, Option.some.injEq, Prod.mk.injEq] at h
    obtain ⟨rfl, -⟩ := h
    exact hI
  | succ n ih =>
    intro i s clk s' clk' hI h
    simp only [initLoop] at h
    split at h
    · simp at h
    · rename_i s1 clk1 hg
      have := ih (i + 1) s1 clk1 s' clk' (hstep _ _ _ _ _ hI hg) h
      rwa [Nat.add_assoc, Nat.add_comm 1 n] at this

/-- A successful call of `NewPlatformSimulator` is a completed loop started on
empty slices. -/
theorem NewPlatformSimulator_eq {capacity : Nat} {gen : Int → Nat → Nat} {clk : Clock}
    {numCreators : Int} {abnormalProb : F64} {s : PlatformSimulator} {clk' : Clock}
    (h : NewPlatformSimulator capacity gen clk numCreators abnormalProb = some (s, clk')) :
    0 ≤ numCreators ∧
    initLoop (clk.now.2.now.1 + (-Hour * 24 * 30)) numCreators.toNat 0
      { creators := [], contentCounts := [], activityLevels := [], lastPostTimes := [],
        subscriberTrends := [], engagementRates := [], abnormalActivityProb := abnormalProb,
        rng := { src := gen clk.now.1, pos := 0 } } clk.now.2.now.2 = some (s, clk') := by
  unfold NewPlatformSimulator at h
  simp only at h
  split at h
  · simp at h
  · rename_i hn
    exact ⟨le_of_not_lt fun hneg => hn (Or.inl hneg), h⟩

/-- A successful call of `NewPlatformSimulator` was given a population size
within the limit of `make` and the memory of the machine. -/
theorem NewPlatformSimulator_bounds {capacity : Nat} {gen : Int → Nat → Nat} {clk : Clock}
    {numCreators : Int} {abnormalProb : F64} {s : PlatformSimulator} {clk' : Clock}
    (h : NewPlatformSimulator capacity gen clk numCreators abnormalProb = some (s, clk')) :
    creatorSize * numCreators ≤ maxAlloc ∧ numCreators ≤ capacity := by
  unfold NewPlatformSimulator at h
  simp only at h
  split at h
  · simp at h
  · rename_i hn
    exact ⟨le_of_not_lt fun hbig => hn (Or.inr (Or.inl hbig)),
      le_of_not_lt fun hbig => hn (Or.inr (Or.inr hbig))⟩

/-- A property of the state established on empty slices and carried on by
every iteration of the loop holds of the engine `NewPlatformSimulator`
returns, for the number of creators asked for. -/
theorem NewPlatformSimulator_inv (Inv : Nat → PlatformSimulator → Prop)
    (h0 : ∀ p r, Inv 0
      { creators := [], contentCounts := [], activityLevels := [], lastPostTimes := [],
        subscriberTrends := [], engagementRates := [], abnormalActivityProb := p, rng := r })
    (hstep : ∀ baseTime i s clk s' clk', Inv i s → initStep baseTime i s clk = some (s', clk') →
      Inv (i + 1) s')
    {capacity : Nat} {gen : Int → Nat → Nat} {clk : Clock} {numCreators : Int}
    {abnormalProb : F64} {s : PlatformSimulator} {clk' : Clock}
    (h : NewPlatformSimulator capacity gen clk numCreators abnormalProb = some (s, clk')) :
    Inv numCreators.toNat s := by
  obtain ⟨-, hl⟩ := NewPlatformSimulator_eq h
  have := initLoop_inv _ Inv (hstep _) _ 0 _ _ _ _ (h0 _ _) hl
  rwa [Nat.zero_add] at this

theorem mem_set_cases {α : Type} {xs : List α} {i : Nat} {v x : α} (h : x ∈ xs.set i v) :
    x = v ∨ x ∈ xs := by
  rcases List.mem_or_eq_of_mem_set h with h | h
  · exact Or.inr h
  · exact Or.inl h

/-- No iteration of the loop of `GenerateContent` changes the stored
creators, the subscriber trends, the activity levels, the engagement rates or
the abnormal-activity probability. -/
theorem contentStep_frame {s : PlatformSimulator} {clk : Clock} {i : Nat} {oc : Option Content}
    {s' : PlatformSimulator} {clk' : Clock} (h : contentStep s clk i = some (oc, s', clk')) :
    s'.creators = s.creators ∧ s'.subscriberTrends = s.subscriberTrends ∧
    s'.activityLevels = s.activityLevels ∧ s'.engagementRates = s.engagementRates ∧
    s'.abnormalActivityProb = s.abnormalActivityProb := by
  obtain ⟨last, sp, r, -, -, h3⟩ := contentStep_eq h
  rcases h3 with ⟨-, -, rfl, -⟩ | ⟨-, c, sg, clkg, pc, hg, -, -, -, -, rfl, -⟩
  · exact ⟨rfl, rfl, rfl, rfl, rfl⟩
  · obtain ⟨_, _, _, _, _, _, _, _, _, _, _, _, _, _, _, _, _, _, -, -, -, -, -, -, -, -, -, -, -,
      rfl, -⟩ := generateCreatorContent_eq hg
    exact ⟨rfl, rfl, rfl, rfl, rfl⟩

/-- C3: subscriber count is never negative.  For every subscriber count and
every value of the trend (finite or not), the count that the drift update
computes is at least 0, and a successful `generateCreatorUpdate` stores and
returns the creator with that count; every creator made by
`NewPlatformSimulator` has a count in `[100, 10100)`; hence along every run of
the engine from `NewPlatformSimulator`, every stored and every returned
creator has a subscriber count of at least 0. -/
theorem C3_subscriber_count_nonneg :
    (∀ (n : Int) (trend : F64), 0 ≤ driftSubscribers n trend) ∧
    (∀ s i c s', generateCreatorUpdate s i = some (c, s') →
      0 ≤ c.SubscriberCount ∧ s'.creators[i]? = some c) ∧
    (∀ capacity gen clk numCreators abnormalProb s clk',
      NewPlatformSimulator capacity gen clk numCreators abnormalProb = some (s, clk') →
      ∀ c ∈ GetCreators s, 100 ≤ c.SubscriberCount ∧ c.SubscriberCount < 10100) ∧
    (∀ capacity gen clk numCreators abnormalProb s clk' calls s' clk'' out,
      NewPlatformSimulator capacity gen clk numCreators abnormalProb = some (s, clk') →
      run calls s clk' { contents := [], creators := [] } = some (s', clk'', out) →
      (∀ c ∈ s'.creators, 0 ≤ c.SubscriberCount) ∧ ∀ c ∈ out.creators, 0 ≤ c.SubscriberCount) := by
  have hinit : ∀ capacity gen clk numCreators abnormalProb s clk',
      NewPlatformSimulator capacity gen clk numCreators abnormalProb = some (s, clk') →
      ∀ c ∈ s.creators, 100 ≤ c.SubscriberCount ∧ c.SubscriberCount < 10100 := by
    intro capacity gen clk numCreators abnormalProb s clk' h
    refine NewPlatformSimulator_inv
      (fun _ s => ∀ c ∈ s.creators, 100 ≤ c.SubscriberCount ∧ c.SubscriberCount < 10100)
      (fun _ _ => by simp) ?_ h
    intro baseTime i s clk s' clk' hI hs c hc
    obtain ⟨creator, _, _, _, _, _, _, rfl, -, ⟨n, hn0, hn1, hn⟩, -⟩ := initStep_eq hs
    rcases List.mem_append.mp hc with hc | hc
    · exact hI c hc
    · rw [List.mem_singleton.mp hc, hn]; omega
  have hupd : ∀ s i c s', generateCreatorUpdate s i = some (c, s') →
      0 ≤ c.SubscriberCount ∧ s'.creators = s.creators.set i c ∧ i < s.creators.length := by
    intro s i c s' h
    obtain ⟨old, trend, hold, -, hc, hs⟩ := generateCreatorUpdate_eq h
    refine ⟨?_, by rw [hs], (List.getElem?_eq_some.mp hold).1⟩
    rw [hc]
    exact driftSubscribers_nonneg _ _
  refine ⟨driftSubscribers_nonneg, ?_, hinit, ?_⟩
  · intro s i c s' h
    obtain ⟨h1, h2, h3⟩ := hupd s i c s' h
    refine ⟨h1, ?_⟩
    rw [h2]
    simp [h3]
  · intro capacity gen clk numCreators abnormalProb s clk' calls s' clk'' out h hr
    have hI : ∀ c ∈ s.creators, 0 ≤ c.SubscriberCount := fun c hc => by
      have := (hinit _ _ _ _ _ _ _ h c hc).1
      omega
    have := run_inv (fun s => ∀ c ∈ s.creators, 0 ≤ c.SubscriberCount)
      (fun c => 0 ≤ c.SubscriberCount) (fun _ => True) (fun _ _ h => h) ?_ ?_ calls s clk'
      { contents := [], creators := [] } s' clk'' out hI (by simp) (by simp) hr
    · exact ⟨this.1, this.2.1⟩
    · intro s i c s' hI h
      obtain ⟨h1, h2, -⟩ := hupd s i c s' h
      refine ⟨?_, h1⟩
      intro x hx
      rw [h2] at hx
      rcases mem_set_cases hx with rfl | hx
      · exact h1
      · exact hI x hx
    · intro s clk i oc s' clk' hI h
      refine ⟨?_, fun _ _ => trivial⟩
      show ∀ c ∈ s'.creators, 0 ≤ c.SubscriberCount
      rw [(contentStep_frame h).1]
      exact hI

theorem Intn_isSome (r : Rng) {n : Int} (hn : 0 < n) :
    ∃ k, r.Intn n = some (k, { r with pos := r.pos + 1 }) ∧ 0 ≤ k ∧ k < n := by
  refine ⟨(r.src r.pos : Int) % n, ?_, Int.emod_nonneg _ (by omega), Int.emod_lt_of_pos _ hn⟩
  unfold Rng.Intn
  rw [if_neg (by omega)]

theorem idx_isSome {α : Type} (xs : List α) {i : Int} (h0 : 0 ≤ i) (h1 : i < xs.length) :
    ∃ x, idx xs i = some x ∧ x ∈ xs := by
  have h2 : i.toNat < xs.length := by omega
  refine ⟨xs[i.toNat], ?_, List.getElem_mem _⟩
  unfold idx
  rw [if_neg (by omega)]
  exact List.getElem?_eq_getElem h2

/-- The loop of `generateTags` always completes; it keeps the tags it started
with, adds at most one tag per iteration, and never adds a tag twice. -/
theorem generateTagsLoop_spec :
    ∀ (n : Nat) (baseTags : List String) (rng : Rng), baseTags.Nodup →
      ∃ tags rng', generateTagsLoop n baseTags rng = some (tags, rng') ∧ tags.Nodup ∧
        (∀ t ∈ baseTags, t ∈ tags) ∧ baseTags.length ≤ tags.length ∧
        tags.length ≤ baseTags.length + n := by
  intro n
  induction n with
  | zero =>
    intro baseTags rng hnd
    exact ⟨baseTags, rng, rfl, hnd, fun _ h => h, le_refl _, le_refl _⟩
  | succ n ih =>
    intro baseTags rng hnd
    obtain ⟨k, hk, hk0, hk1⟩ := Intn_isSome rng (n := (additionalTags.length : Int)) (by decide)
    obtain ⟨tag, htag, -⟩ := idx_isSome additionalTags hk0 hk1
    simp only [generateTagsLoop, hk, htag]
    by_cases hmem : tag ∈ baseTags
    · have hany : (baseTags.any fun existing => existing == tag) = true := by
        simp only [List.any_eq_true, beq_iff_eq]
        exact ⟨tag, hmem, rfl⟩
      rw [if_pos hany]
      obtain ⟨tags, rng', h, h1, h2, h3, h4⟩ := ih baseTags _ hnd
      exact ⟨tags, rng', h, h1, h2, h3, by omega⟩
    · have hany : ¬ (baseTags.any fun existing => existing == tag) = true := by
        simp only [List.any_eq_true, beq_iff_eq, not_exists, not_and]
        intro x hx hxt
        exact hmem (hxt ▸ hx)
      rw [if_neg hany]
      have hnd' : (baseTags ++ [tag]).Nodup := by
        rw [List.nodup_append]
        refine ⟨hnd, List.nodup_singleton _, ?_⟩
        intro a ha hb
        rw [List.mem_singleton] at hb
        exact hmem (hb ▸ ha)
      obtain ⟨tags, rng', h, h1, h2, h3, h4⟩ := ih (baseTags ++ [tag]) _ hnd'
      refine ⟨tags, rng', h, h1, fun t ht => h2 t (List.mem_append_left _ ht), ?_, ?_⟩
      · rw [List.length_append] at h3
        omega
      · rw [List.length_append, List.length_singleton] at h4
        omega

/-- C5: for every category of `CreatorCategories`, every kind of
`ContentTypes` and every state of the random source, `generateTags` returns a
list of tags that contains the category and the kind, has no two equal
entries, and has at least 2 and at most 5 entries. -/
theorem C5_generateTags (category contentType : String) (rng : Rng)
    (hc : category ∈ CreatorCategories) (hk : contentType ∈ ContentTypes) :
    ∃ tags rng', generateTags category contentType rng = some (tags, rng') ∧
      category ∈ tags ∧ contentType ∈ tags ∧ tags.Nodup ∧ 2 ≤ tags.length ∧ tags.length ≤ 5 := by
  have hne : category ≠ contentType := by
    intro h
    subst h
    revert hk
    simp only [CreatorCategories, List.mem_cons, List.mem_singleton, List.not_mem_nil,
      or_false] at hc
    rcases hc with rfl | rfl | rfl | rfl | rfl | rfl | rfl | rfl | rfl | rfl <;> decide
  obtain ⟨k, hk4, hk0, hk1⟩ := Intn_isSome rng (n := 4) (by decide)
  have hnd : [category, contentType].Nodup := by
    simp [hne]
  obtain ⟨tags, rng', h, h1, h2, h3, h4⟩ :=
    generateTagsLoop_spec k.toNat _ { rng with pos := rng.pos + 1 } hnd
  refine ⟨tags, rng', ?_, h2 _ (by simp), h2 _ (by simp), h1, ?_, ?_⟩
  · simp only [generateTags, hk4, h]
  · simpa using h3
  · simp only [List.length_cons, List.length_nil] at h4
    omega

/-- An invariant of state, clock and records emitted so far that every
iteration keeps holds at the end of the loop of `GenerateContent`. -/
theorem contentLoop_acc_inv (Inv : PlatformSimulator → Clock → List Content → Prop)
    (hstep : ∀ s clk i oc s' clk' acc, Inv s clk acc →
      contentStep s clk i = some (oc, s', clk') → Inv s' clk' (acc ++ oc.toList)) :
    ∀ n i s clk acc cs s' clk', Inv s clk acc →
      contentLoop n i s clk acc = some (cs, s', clk') → Inv s' clk' cs := by
  intro n
  induction n with
  | zero =>
    intro i s clk acc cs s' clk' hI h
    simp only [contentLoop, Option.some.injEq, Prod.mk.injEq] at h
    obtain ⟨rfl, rfl, rfl⟩ := h
    exact hI
  | succ n ih =>
    intro i s clk acc cs s' clk' hI h
    simp only [contentLoop] at h
    split at h
    · simp at h
    · rename_i s1 clk1 hg
      have := hstep _ _ _ _ _ _ acc hI hg
      simp only [Option.toList, List.append_nil] at this
      exact ih (i + 1) s1 clk1 acc cs s' clk' this h
    · rename_i c s1 clk1 hg
      exact ih (i + 1) s1 clk1 (acc ++ [c]) cs s' clk' (hstep _ _ _ _ _ _ acc hI hg) h

/-- The answer of `shouldCreatorPost` below half the base interval. -/
theorem shouldCreatorPost_veto {s : PlatformSimulator} {i : Nat} {level : F64} {t : Int}
    (hlevel : s.activityLevels[i]? = some level) (ht : t < Int.tdiv (baseInterval level) 2) :
    shouldCreatorPost s i t = some (false, s.rng) := by
  unfold shouldCreatorPost
  simp only [hlevel, Option.bind_eq_bind, Option.some_bind, if_pos ht, Option.pure_def]

/-- An iteration of the loop of `GenerateContent` that is vetoed leaves the
state as it is. -/
theorem contentStep_veto {s : PlatformSimulator} {clk : Clock} {i : Nat} {level : F64}
    {last : Int} (hlevel : s.activityLevels[i]? = some level)
    (hlast : s.lastPostTimes[i]? = some last)
    (ht : (clk.since last).1 < Int.tdiv (baseInterval level) 2) :
    contentStep s clk i = some (none, s, (clk.since last).2) := by
  unfold contentStep
  simp only [hlast, Option.bind_eq_bind, Option.some_bind, shouldCreatorPost_veto hlevel ht,
    Bool.false_eq_true, if_false, Option.pure_def]

/-- An iteration of the loop of `GenerateContent` for creator `j` leaves the
last-post time and the post counter of every other creator as they are, and
reads the same clock. -/
theorem contentStep_other {s : PlatformSimulator} {clk : Clock} {j : Nat} {oc : Option Content}
    {s' : PlatformSimulator} {clk' : Clock} (h : contentStep s clk j = some (oc, s', clk'))
    {i : Nat} (hij : i ≠ j) :
    s'.lastPostTimes[i]? = s.lastPostTimes[i]? ∧ s'.contentCounts[i]? = s.contentCounts[i]? := by
  obtain ⟨last, sp, r, -, -, h3⟩ := contentStep_eq h
  rcases h3 with ⟨-, -, rfl, -⟩ | ⟨-, c, sg, clkg, pc, hg, -, -, -, -, rfl, -⟩
  · exact ⟨rfl, rfl⟩
  · obtain ⟨_, _, _, _, _, _, _, _, _, _, _, _, _, _, _, _, _, _, -, -, -, -, -, -, -, -, -, -, -,
      rfl, -⟩ := generateCreatorContent_eq hg
    simp only
    rw [List.getElem?_set_ne (Ne.symm hij), List.getElem?_set_ne (Ne.symm hij)]
    exact ⟨rfl, rfl⟩

theorem contentStep_readings {s : PlatformSimulator} {clk : Clock} {j : Nat}
    {oc : Option Content} {s' : PlatformSimulator} {clk' : Clock}
    (h : contentStep s clk j = some (oc, s', clk')) : clk'.readings = clk.readings := by
  obtain ⟨last, sp, r, -, -, h3⟩ := contentStep_eq h
  rcases h3 with ⟨-, -, -, rfl⟩ | ⟨-, c, sg, clkg, pc, hg, -, -, -, -, -, rfl⟩
  · rfl
  · obtain ⟨_, _, _, _, _, _, _, _, _, _, _, _, _, _, _, _, _, _, -, -, -, -, -, -, -, -, -, -, -,
      -, rfl⟩ := generateCreatorContent_eq hg
    rfl

/-- C8: hard-floor veto.  For a creator with activity level `level`:
(1) at every elapsed time below half the base interval computed from `level`,
`shouldCreatorPost` answers false and hands back the random source as it
received it, whatever the abnormal-activity probability;
(2) the iteration of `GenerateContent` for that creator then emits nothing and
leaves the whole state unchanged;
(3) if the elapsed time is below half the base interval at every clock
reading, a completed `GenerateContent` leaves the last-post time and the post
counter of that creator unchanged;
(4) and with a single creator `GenerateContent` returns the empty sequence. -/
theorem C8_hard_floor_veto (s : PlatformSimulator) (clk : Clock) (i : Nat) (level : F64)
    (last : Int) (hlevel : s.activityLevels[i]? = some level)
    (hlast : s.lastPostTimes[i]? = some last) :
    (∀ t, t < Int.tdiv (baseInterval level) 2 → shouldCreatorPost s i t = some (false, s.rng)) ∧
    ((clk.since last).1 < Int.tdiv (baseInterval level) 2 →
      contentStep s clk i = some (none, s, (clk.since last).2)) ∧
    ((∀ k, timeSub (clk.readings k) last < Int.tdiv (baseInterval level) 2) →
      ∀ cs s' clk', GenerateContent s clk = some (cs, s', clk') →
        s'.lastPostTimes[i]? = some last ∧ s'.contentCounts[i]? = s.contentCounts[i]?) ∧
    ((clk.since last).1 < Int.tdiv (baseInterval level) 2 → s.creators.length = 1 → i = 0 →
      GenerateContent s clk = some ([], s, (clk.since last).2)) := by
  refine ⟨fun t ht => shouldCreatorPost_veto hlevel ht, fun ht => contentStep_veto hlevel hlast ht,
    ?_, ?_⟩
  · intro hall cs s' clk' h
    have := contentLoop_acc_inv
      (fun s1 clk1 _ => s1.activityLevels[i]? = some level ∧ s1.lastPostTimes[i]? = some last ∧
        s1.contentCounts[i]? = s.contentCounts[i]? ∧ clk1.readings = clk.readings) ?_
      s.creators.length 0 s clk [] cs s' clk' ⟨hlevel, hlast, rfl, rfl⟩ h
    · exact ⟨this.2.1, this.2.2.1⟩
    · intro s1 clk1 j oc s2 clk2 acc ⟨h1, h2, h3, h4⟩ hstep
      by_cases hij : i = j
      · subst hij
        have ht : (clk1.since last).1 < Int.tdiv (baseInterval level) 2 := by
          show timeSub (clk1.readings clk1.pos) last < _
          rw [h4]
          exact hall _
        rw [contentStep_veto h1 h2 ht] at hstep
        simp only [Option.some.injEq, Prod.mk.injEq] at hstep
        obtain ⟨-, rfl, rfl⟩ := hstep
        exact ⟨h1, h2, h3, h4⟩
      · obtain ⟨e1, e2⟩ := contentStep_other hstep hij
        refine ⟨?_, by rw [e1, h2], by rw [e2, h3], by rw [contentStep_readings hstep, h4]⟩
        rw [(contentStep_frame hstep).2.2.1]
        exact h1
  · intro ht hlen hi
    subst hi
    unfold GenerateContent
    rw [hlen]
    simp only [contentLoop, contentStep_veto hlevel hlast ht]

theorem Intn_eq_some' {r : Rng} {n k : Int} {r' : Rng} (h : r.Intn n = some (k, r')) :
    0 < n ∧ 0 ≤ k ∧ k < n := by
  obtain ⟨h1, h2, h3, -⟩ := Intn_eq_some h
  exact ⟨h1, h2, h3⟩

theorem append_ne_empty (a b : String) (ha : a ≠ "") : a ++ b ≠ "" := by
  intro h
  apply ha
  have h1 : (a ++ b).length = 0 := by rw [h]; rfl
  rw [String.length_append] at h1
  have h2 : a.length = 0 := by omega
  exact String.ext (List.length_eq_zero.mp h2)

theorem mediaURL_of_ne_text (contentType contentID : String) (h : contentType ≠ "text") :
    mediaURL contentType contentID =
      "https://cdn.platform.com/" ++ contentType ++ "/" ++ contentID ++ "." ++
        getFileExtension contentType := by
  unfold mediaURL
  rw [if_pos h]

/-- A media reference of a kind other than "text" is not empty and ends in
a dot and the file extension of the kind. -/
theorem mediaURL_suffix (contentType contentID ext dotExt : String) (h : contentType ≠ "text")
    (hext : getFileExtension contentType = ext) (hdot : "." ++ ext = dotExt) :
    mediaURL contentType contentID ≠ "" ∧ ∃ p, mediaURL contentType contentID = p ++ dotExt := by
  rw [mediaURL_of_ne_text _ _ h, hext]
  constructor
  · rw [String.append_assoc, String.append_assoc, String.append_assoc, String.append_assoc]
    exact append_ne_empty _ _ (by decide)
  · exact ⟨_, by rw [String.append_assoc _ "." ext, hdot]⟩

/-- The media reference by kind of content. -/
theorem mediaURL_spec (contentType contentID : String) :
    (contentType = "text" → mediaURL contentType contentID = "") ∧
    (contentType = "image" ∨ contentType = "gallery" →
      mediaURL contentType contentID ≠ "" ∧
        ∃ p, mediaURL contentType contentID = p ++ ".jpg") ∧
    (contentType = "video" ∨ contentType = "live" →
      mediaURL contentType contentID ≠ "" ∧
        ∃ p, mediaURL contentType contentID = p ++ ".mp4") := by
  refine ⟨?_, ?_, ?_⟩
  · intro h
    subst h
    unfold mediaURL
    rw [if_neg (by decide)]
  · rintro (rfl | rfl)
    · exact mediaURL_suffix _ _ "jpg" ".jpg" (by decide) (by decide) (by decide)
    · exact mediaURL_suffix _ _ "jpg" ".jpg" (by decide) (by decide) (by decide)
  · rintro (rfl | rfl)
    · exact mediaURL_suffix _ _ "mp4" ".mp4" (by decide) (by decide) (by decide)
    · exact mediaURL_suffix _ _ "mp4" ".mp4" (by decide) (by decide) (by decide)

/-- C9: in every record `generateCreatorContent` returns, the kind is one of
`ContentTypes`; a record of kind "text" has an empty media URL; a record of
kind "image" or "gallery" has a non-empty media URL ending in ".jpg"; a
record of kind "video" or "live" has a non-empty media URL ending in ".mp4". -/
theorem C9_media_url (s : PlatformSimulator) (clk : Clock) (i : Nat) (c : Content)
    (s' : PlatformSimulator) (clk' : Clock)
    (h : generateCreatorContent s clk i = some (c, s', clk')) :
    c.ContentType ∈ ContentTypes ∧
    (c.ContentType = "text" → c.MediaURL = "") ∧
    (c.ContentType = "image" ∨ c.ContentType = "gallery" →
      c.MediaURL ≠ "" ∧ ∃ p, c.MediaURL = p ++ ".jpg") ∧
    (c.ContentType = "video" ∨ c.ContentType = "live" →
      c.MediaURL ≠ "" ∧ ∃ p, c.MediaURL = p ++ ".mp4") := by
  obtain ⟨creator, postCount, k, r1, contentType, _, _, _, _, _, _, _, _, _, _, _, _, _, -, -, -,
    hk, -, -, -, -, -, -, rfl, -, -⟩ := generateCreatorContent_eq h
  exact ⟨idx_mem hk, mediaURL_spec _ _⟩

/-- The two outcomes of the block that decides on premium content. -/
theorem premium_eq {r : Rng} {isLocked : Bool} {price : F64} {r' : Rng}
    (h : premium r = some (isLocked, price, r')) :
    (isLocked = false ∧ price = F64.fin 0) ∨
    (isLocked = true ∧ ∃ p : Int, 0 ≤ p ∧ p < 25 ∧ price = F64.add (i2f (p + 5)) (lit (99 / 100))) := by
  unfold premium at h
  simp only at h
  split at h
  · rename_i hl
    simp only [Option.bind_eq_bind, Option.bind_eq_some, Option.pure_def, Option.some.injEq,
      Prod.mk.injEq, Prod.exists] at h
    obtain ⟨p, r2, hp, h1, h2, -⟩ := h
    obtain ⟨-, hp0, hp1⟩ := Intn_eq_some' hp
    exact Or.inr ⟨by rw [← h1, hl], p, hp0, hp1, h2.symm⟩
  · rename_i hl
    simp only [Option.pure_def, Option.some.injEq, Prod.mk.injEq] at h
    refine Or.inl ⟨?_, h.2.1.symm⟩
    rw [← h.1]
    simpa using hl

theorem between_iff {lo hi : ℚ} {x : F64} :
    F64.between lo hi x = true ↔ ∃ q, x = F64.fin q ∧ lo ≤ q ∧ q ≤ hi := by
  cases x with
  | fin q => simp [F64.between]
  | pinf => simp [F64.between]
  | ninf => simp [F64.between]
  | nan => simp [F64.between]

/-- The premium prices, one for each of the 25 draws: each is at least the
`float64` constant 5.99 and at most the `float64` constant 29.99, and as a
number it lies between 5.99 and 29.99. -/
theorem premium_price_range : ∀ n : Fin 25,
    F64.le (lit (599 / 100)) (F64.add (i2f ((n.val : Int) + 5)) (lit (99 / 100))) = true ∧
    F64.le (F64.add (i2f ((n.val : Int) + 5)) (lit (99 / 100))) (lit (2999 / 100)) = true ∧
    F64.between (599 / 100) (2999 / 100)
      (F64.add (i2f ((n.val : Int) + 5)) (lit (99 / 100))) = true := by
  decide!

/-- C10: in every record `generateCreatorContent` returns, an unlocked record
has price exactly 0, and a locked record has as price the `float64` sum of a
whole number from 5 to 29 and the constant 0.99, which is at least the
`float64` constant 5.99 and at most the `float64` constant 29.99, and as a
number lies in [5.99, 29.99]. -/
theorem C10_price (s : PlatformSimulator) (clk : Clock) (i : Nat) (c : Content)
    (s' : PlatformSimulator) (clk' : Clock)
    (h : generateCreatorContent s clk i = some (c, s', clk')) :
    (c.IsLocked = false → c.Price = F64.fin 0) ∧
    (c.IsLocked = true →
      (∃ n : Int, 5 ≤ n ∧ n ≤ 29 ∧ c.Price = F64.add (i2f n) (lit (99 / 100))) ∧
      F64.le (lit (599 / 100)) c.Price = true ∧ F64.le c.Price (lit (2999 / 100)) = true ∧
      ∃ q : ℚ, c.Price = F64.fin q ∧ 599 / 100 ≤ q ∧ q ≤ 2999 / 100) := by
  obtain ⟨creator, postCount, k, r1, contentType, _, _, _, r2, isLocked, price, _, _, _, _, _, _,
    _, -, -, -, -, -, -, hp, -, -, -, rfl, -, -⟩ := generateCreatorContent_eq h
  simp only
  rcases premium_eq hp with ⟨rfl, rfl⟩ | ⟨rfl, p, hp0, hp1, rfl⟩
  · exact ⟨fun _ => rfl, fun h => absurd h (by decide)⟩
  · refine ⟨fun h => absurd h (by decide), fun _ => ⟨⟨p + 5, by omega, by omega, rfl⟩, ?_⟩⟩
    have hlt : p.toNat < 25 := by omega
    have hcast : ((p.toNat : Nat) : Int) = p := Int.toNat_of_nonneg hp0
    have key := premium_price_range ⟨p.toNat, hlt⟩
    simp only [hcast] at key
    exact ⟨key.1, key.2.1, between_iff.mp key.2.2⟩

theorem round64_ne_nan (x : ℚ) : round64 x ≠ F64.nan := by
  unfold round64
  simp only
  split
  · exact fun h => F64.noConfusion h
  · split
    · exact fun h => F64.noConfusion h
    · exact fun h => F64.noConfusion h

theorem add_fin_ne_nan (a : ℚ) {y : F64} (hy : y ≠ F64.nan) : F64.add (F64.fin a) y ≠ F64.nan := by
  cases y with
  | fin b => exact round64_ne_nan _
  | pinf => exact fun h => F64.noConfusion h
  | ninf => exact fun h => F64.noConfusion h
  | nan => exact absurd rfl hy

theorem mul_fin_ne_nan {y : F64} (hy : y ≠ F64.nan) {b : ℚ} (hb : b ≠ 0) :
    F64.mul y (F64.fin b) ≠ F64.nan := by
  cases y with
  | fin a => exact round64_ne_nan _
  | pinf =>
    simp only [F64.mul, if_neg hb, F64.infOfSign]
    split <;> exact fun h => F64.noConfusion h
  | ninf =>
    simp only [F64.mul, if_neg hb, F64.infOfSign]
    split <;> exact fun h => F64.noConfusion h
  | nan => exact absurd rfl hy

theorem sub_fin_fin_ne_nan (a b : ℚ) : F64.sub (F64.fin a) (F64.fin b) ≠ F64.nan :=
  round64_ne_nan _

theorem le_fin_of_between {a b : ℚ} {p : F64} (h1 : F64.le (F64.fin a) p = true)
    (h2 : F64.le p (F64.fin b) = true) : ∃ q, p = F64.fin q ∧ a ≤ q ∧ q ≤ b := by
  cases p with
  | fin q =>
    simp only [F64.le, decide_eq_true_eq] at h1 h2
    exact ⟨q, rfl, h1, h2⟩
  | pinf => simp [F64.le] at h2
  | ninf => simp [F64.le] at h1
  | nan => simp [F64.le] at h1

/-- The result of `clamp` lies between the bounds, when the bounds are finite
and in order and the value is not `NaN`. -/
theorem clamp_range {v : F64} {lo hi : ℚ} (hv : v ≠ F64.nan) (hle : lo ≤ hi) :
    F64.le (F64.fin lo) (clamp v (F64.fin lo) (F64.fin hi)) = true ∧
    F64.le (clamp v (F64.fin lo) (F64.fin hi)) (F64.fin hi) = true := by
  cases v with
  | fin q =>
    simp only [clamp, F64.lt, F64.gt, decide_eq_true_eq]
    by_cases h1 : q < lo
    · rw [if_pos h1]
      simp only [F64.le, decide_eq_true_eq]
      exact ⟨le_refl _, hle⟩
    · rw [if_neg h1]
      by_cases h2 : hi < q
      · rw [if_pos h2]
        simp only [F64.le, decide_eq_true_eq]
        exact ⟨hle, le_refl _⟩
      · rw [if_neg h2]
        simp only [F64.le, decide_eq_true_eq]
        exact ⟨not_lt.mp h1, not_lt.mp h2⟩
  | pinf =>
    simp only [clamp, F64.lt, F64.gt, Bool.false_eq_true, if_false, if_true, F64.le,
      decide_eq_true_eq]
    exact ⟨hle, le_refl _⟩
  | ninf =>
    simp only [clamp, F64.lt, F64.gt, if_true, F64.le, decide_eq_true_eq]
    exact ⟨le_refl _, hle⟩
  | nan => exact absurd rfl hv

theorem isFin_iff {x : F64} : x.isFin = true ↔ ∃ q, x = F64.fin q := by
  cases x <;> simp [F64.isFin]

theorem price_bounds_fin :
    ∃ lo hi : ℚ, lit (499 / 100) = F64.fin lo ∧ lit (9999 / 100) = F64.fin hi ∧ lo ≤ hi := by
  obtain ⟨lo, hlo⟩ := isFin_iff.mp (show (lit (499 / 100)).isFin = true by decide!)
  obtain ⟨hi, hhi⟩ := isFin_iff.mp (show (lit (9999 / 100)).isFin = true by decide!)
  refine ⟨lo, hi, hlo, hhi, ?_⟩
  have h : F64.le (lit (499 / 100)) (lit (9999 / 100)) = true := by decide!
  rw [hlo, hhi] at h
  simpa [F64.le] using h

theorem lit_ten : lit 10 = F64.fin 10 := by decide!

/-- The two outcomes of the block that adjusts the monthly price. -/
theorem driftPrice_eq (p : F64) (rng : Rng) :
    (F64.lt rng.Float64.1 (lit (5 / 100)) = false → (driftPrice p rng).1 = p) ∧
    (F64.lt rng.Float64.1 (lit (5 / 100)) = true →
      (driftPrice p rng).1 =
        clamp (F64.add p (F64.mul (F64.sub rng.Float64.2.Float64.1 (lit (1 / 2))) (lit 10)))
          (lit (499 / 100)) (lit (9999 / 100))) := by
  unfold driftPrice
  constructor
  · intro h
    simp only [h, Bool.false_eq_true, if_false]
  · intro h
    simp only [h, if_true]

/-- The block that adjusts the monthly price keeps it in range. -/
theorem driftPrice_range (p : F64) (rng : Rng) (hp : priceInRange p) :
    priceInRange (driftPrice p rng).1 := by
  obtain ⟨h0, h1⟩ := driftPrice_eq p rng
  cases hb : F64.lt rng.Float64.1 (lit (5 / 100)) with
  | false => rw [h0 hb]; exact hp
  | true =>
    rw [h1 hb]
    obtain ⟨lo, hi, hlo, hhi, hle⟩ := price_bounds_fin
    unfold priceInRange at hp ⊢
    rw [hlo, hhi] at hp ⊢
    obtain ⟨q, rfl, -, -⟩ := le_fin_of_between hp.1 hp.2
    obtain ⟨k, -, hk⟩ := Float64_fst rng.Float64.2
    obtain ⟨h, hh⟩ := isFin_iff.mp (show (lit (1 / 2)).isFin = true by decide!)
    refine clamp_range (add_fin_ne_nan _ ?_) hle
    rw [lit_ten, hk, hh]
    exact mul_fin_ne_nan (sub_fin_fin_ne_nan _ _) (by norm_num)

/-- The initial monthly prices, one for each of the 45 draws. -/
theorem initial_price_range : ∀ n : Fin 45,
    F64.le (lit (599 / 100)) (F64.add (i2f ((n.val : Int) + 5)) (lit (99 / 100))) = true ∧
    F64.le (F64.add (i2f ((n.val : Int) + 5)) (lit (99 / 100))) (lit (4999 / 100)) = true ∧
    F64.le (lit (499 / 100)) (F64.add (i2f ((n.val : Int) + 5)) (lit (99 / 100))) = true ∧
    F64.le (F64.add (i2f ((n.val : Int) + 5)) (lit (99 / 100))) (lit (9999 / 100)) = true := by
  decide!

/-- C4: monthly price stays within [4.99, 99.99], the bounds being the
`float64` constants of the source.  (1) Every creator `NewPlatformSimulator`
makes has a monthly price between the constants 5.99 and 49.99.  (2) The block
of `generateCreatorUpdate` that adjusts the price leaves it unchanged when the
5% branch is not taken and sets it to `clamp(price + change, 4.99, 99.99)`
when it is, and maps a price in range to a price in range for every draw.
(3) A drift update of a state whose stored prices are in range returns and
stores prices in range.  (4) Along every run from `NewPlatformSimulator`,
every stored and every returned creator has a monthly price in range. -/
theorem C4_monthly_price_range :
    (∀ capacity gen clk numCreators abnormalProb s clk',
      NewPlatformSimulator capacity gen clk numCreators abnormalProb = some (s, clk') →
      ∀ c ∈ GetCreators s, F64.le (lit (599 / 100)) c.MonthlyPrice = true ∧
        F64.le c.MonthlyPrice (lit (4999 / 100)) = true) ∧
    (∀ (p : F64) (rng : Rng),
      (F64.lt rng.Float64.1 (lit (5 / 100)) = false → (driftPrice p rng).1 = p) ∧
      (F64.lt rng.Float64.1 (lit (5 / 100)) = true →
        (driftPrice p rng).1 =
          clamp (F64.add p (F64.mul (F64.sub rng.Float64.2.Float64.1 (lit (1 / 2))) (lit 10)))
            (lit (499 / 100)) (lit (9999 / 100))) ∧
      (priceInRange p → priceInRange (driftPrice p rng).1)) ∧
    (∀ s i c s', (∀ x ∈ s.creators, priceInRange x.MonthlyPrice) →
      generateCreatorUpdate s i = some (c, s') →
      priceInRange c.MonthlyPrice ∧ ∀ x ∈ s'.creators, priceInRange x.MonthlyPrice) ∧
    (∀ capacity gen clk numCreators abnormalProb s clk' calls s' clk'' out,
      NewPlatformSimulator capacity gen clk numCreators abnormalProb = some (s, clk') →
      run calls s clk' { contents := [], creators := [] } = some (s', clk'', out) →
      (∀ c ∈ s'.creators, priceInRange c.MonthlyPrice) ∧
      ∀ c ∈ out.creators, priceInRange c.MonthlyPrice) := by
  have hinit : ∀ capacity gen clk numCreators abnormalProb s clk',
      NewPlatformSimulator capacity gen clk numCreators abnormalProb = some (s, clk') →
      ∀ c ∈ s.creators, (F64.le (lit (599 / 100)) c.MonthlyPrice = true ∧
        F64.le c.MonthlyPrice (lit (4999 / 100)) = true) ∧ priceInRange c.MonthlyPrice := by
    intro capacity gen clk numCreators abnormalProb s clk' h
    refine NewPlatformSimulator_inv
      (fun _ s => ∀ c ∈ s.creators, (F64.le (lit (599 / 100)) c.MonthlyPrice = true ∧
        F64.le c.MonthlyPrice (lit (4999 / 100)) = true) ∧ priceInRange c.MonthlyPrice)
      (fun _ _ => by simp) ?_ h
    intro baseTime i s clk s' clk' hI hs c hc
    obtain ⟨creator, _, _, _, _, _, _, rfl, -, -, ⟨n, hn0, hn1, hn⟩, -⟩ := initStep_eq hs
    rcases List.mem_append.mp hc with hc | hc
    · exact hI c hc
    · rw [List.mem_singleton.mp hc, hn]
      have hlt : n.toNat < 45 := by omega
      have hcast : ((n.toNat : Nat) : Int) = n := Int.toNat_of_nonneg hn0
      have key := initial_price_range ⟨n.toNat, hlt⟩
      simp only [hcast] at key
      exact ⟨⟨key.1, key.2.1⟩, key.2.2.1, key.2.2.2⟩
  have hupd : ∀ s i c s', (∀ x ∈ s.creators, priceInRange x.MonthlyPrice) →
      generateCreatorUpdate s i = some (c, s') →
      priceInRange c.MonthlyPrice ∧ ∀ x ∈ s'.creators, priceInRange x.MonthlyPrice := by
    intro s i c s' hI h
    obtain ⟨old, trend, hold, -, hc, hs⟩ := generateCreatorUpdate_eq h
    have hc' : priceInRange c.MonthlyPrice := by
      rw [hc]
      exact driftPrice_range _ _ (hI old (List.getElem?_mem hold))
    refine ⟨hc', ?_⟩
    intro x hx
    rw [hs] at hx
    rcases mem_set_cases hx with rfl | hx
    · exact hc'
    · exact hI x hx
  refine ⟨fun cap gen clk n p s clk' h c hc => (hinit cap gen clk n p s clk' h c hc).1, ?_, hupd,
    ?_⟩
  · intro p rng
    exact ⟨(driftPrice_eq p rng).1, (driftPrice_eq p rng).2, driftPrice_range p rng⟩
  · intro capacity gen clk numCreators abnormalProb s clk' calls s' clk'' out h hr
    have hI : ∀ c ∈ s.creators, priceInRange c.MonthlyPrice :=
      fun c hc => (hinit _ _ _ _ _ _ _ h c hc).2
    have := run_inv (fun s => ∀ c ∈ s.creators, priceInRange c.MonthlyPrice)
      (fun c => priceInRange c.MonthlyPrice) (fun _ => True) (fun _ _ h => h) ?_ ?_ calls s clk'
      { contents := [], creators := [] } s' clk'' out hI (by simp) (by simp) hr
    · exact ⟨this.1, this.2.1⟩
    · intro s i c s' hI h
      exact ⟨(hupd s i c s' hI h).2, (hupd s i c s' hI h).1⟩
    · intro s clk i oc s' clk' hI h
      refine ⟨?_, fun _ _ => trivial⟩
      show ∀ c ∈ s'.creators, priceInRange c.MonthlyPrice
      rw [(contentStep_frame h).1]
      exact hI

theorem digitChar_toNat {d : Nat} (h : d < 10) : (digitChar d).toNat - 48 = d := by
  interval_cases d <;> rfl

theorem digitChar_ne_dash {d : Nat} (h : d < 10) : digitChar d ≠ '-' := by
  interval_cases d <;> decide

theorem digitsVal_append (xs : List Char) (c : Char) :
    digitsVal (xs ++ [c]) = 10 * digitsVal xs + (c.toNat - 48) := by
  simp [digitsVal, List.foldl_append]

/-- Reading the digits of a number gives the number back. -/
theorem digitsVal_decDigits : ∀ (fuel n : Nat), n < fuel → digitsVal (decDigits fuel n) = n := by
  intro fuel
  induction fuel with
  | zero => intro n h; omega
  | succ fuel ih =>
    intro n h
    unfold decDigits
    split
    · rename_i h10
      simp [digitsVal, digitChar_toNat h10]
    · rename_i h10
      rw [digitsVal_append, ih (n / 10) (by omega), digitChar_toNat (Nat.mod_lt _ (by norm_num))]
      omega

/-- The digits of a number are digits: none is a dash. -/
theorem decDigits_no_dash : ∀ (fuel n : Nat), ∀ c ∈ decDigits fuel n, c ≠ '-' := by
  intro fuel
  induction fuel with
  | zero => intro n c h; simp [decDigits] at h
  | succ fuel ih =>
    intro n c h
    unfold decDigits at h
    split at h
    · rename_i h10
      rw [List.mem_singleton] at h
      rw [h]
      exact digitChar_ne_dash h10
    · rcases List.mem_append.mp h with h | h
      · exact ih _ c h
      · rw [List.mem_singleton] at h
        rw [h]
        exact digitChar_ne_dash (Nat.mod_lt _ (by norm_num))

theorem decDigits_ne_nil (fuel n : Nat) : decDigits (fuel + 1) n ≠ [] := by
  unfold decDigits
  split
  · simp
  · simp

theorem fmtNat_injective {i j : Nat} (h : fmtNat i = fmtNat j) : i = j := by
  unfold fmtNat at h
  have h1 : decDigits (i + 1) i = decDigits (j + 1) j := by
    simpa using congrArg String.data h
  have h2 := congrArg digitsVal h1
  rwa [digitsVal_decDigits _ _ (Nat.lt_succ_self i), digitsVal_decDigits _ _ (Nat.lt_succ_self j)] at h2

theorem fmtNat_data (n : Nat) : (fmtNat n).data = decDigits (n + 1) n := rfl

theorem fmtInt_data (n : Int) :
    (fmtInt n).data = if n < 0 then '-' :: decDigits (n.natAbs + 1) n.natAbs
      else decDigits (n.natAbs + 1) n.natAbs := by
  unfold fmtInt
  split
  · simp [String.data_append, fmtNat_data]
  · exact fmtNat_data _

theorem fmtInt_injective {n m : Int} (h : fmtInt n = fmtInt m) : n = m := by
  have h1 := congrArg String.data h
  rw [fmtInt_data, fmtInt_data] at h1
  have hhead : ∀ k : Nat, ∀ l, decDigits (k + 1) k ≠ '-' :: l := by
    intro k l hk
    have := decDigits_no_dash (k + 1) k '-' (by rw [hk]; exact List.mem_cons_self _ _)
    exact this rfl
  by_cases hn : n < 0 <;> by_cases hm : m < 0
  · rw [if_pos hn, if_pos hm] at h1
    have h2 := congrArg digitsVal (List.cons.inj h1).2
    rw [digitsVal_decDigits _ _ (Nat.lt_succ_self _),
      digitsVal_decDigits _ _ (Nat.lt_succ_self _)] at h2
    omega
  · rw [if_pos hn, if_neg hm] at h1
    exact absurd h1.symm (hhead _ _)
  · rw [if_neg hn, if_pos hm] at h1
    exact absurd h1 (hhead _ _)
  · rw [if_neg hn, if_neg hm] at h1
    have h2 := congrArg digitsVal h1
    rw [digitsVal_decDigits _ _ (Nat.lt_succ_self _),
      digitsVal_decDigits _ _ (Nat.lt_succ_self _)] at h2
    omega

/-- Two texts that agree up to a first dash have the same part before it and
the same part after it. -/
theorem split_at_dash : ∀ (xs ys X Y : List Char), (∀ c ∈ xs, c ≠ '-') → (∀ c ∈ ys, c ≠ '-') →
    xs ++ '-' :: X = ys ++ '-' :: Y → xs = ys ∧ X = Y := by
  intro xs
  induction xs with
  | nil =>
    intro ys X Y _ hys h
    cases ys with
    | nil => exact ⟨rfl, (List.cons.inj h).2⟩
    | cons y ys =>
      simp only [List.nil_append, List.cons_append, List.cons.injEq] at h
      exact absurd h.1.symm (hys y (List.mem_cons_self _ _))
  | cons x xs ih =>
    intro ys X Y hxs hys h
    cases ys with
    | nil =>
      simp only [List.nil_append, List.cons_append, List.cons.injEq] at h
      exact absurd h.1 (hxs x (List.mem_cons_self _ _))
    | cons y ys =>
      simp only [List.cons_append, List.cons.injEq] at h
      obtain ⟨e1, e2⟩ := ih ys X Y (fun c hc => hxs c (List.mem_cons_of_mem _ hc))
        (fun c hc => hys c (List.mem_cons_of_mem _ hc)) h.2
      exact ⟨by rw [h.1, e1], e2⟩

/-- The identifier of creator `i`. -/
theorem creatorID_injective {i j : Nat} (h : "creator-" ++ fmtNat i = "creator-" ++ fmtNat j) :
    i = j := by
  have h1 := congrArg String.data h
  rw [String.data_append, String.data_append] at h1
  exact fmtNat_injective (String.ext (List.append_cancel_left h1))

/-- The identifier of the post with counter `n` of creator `i` determines
both `i` and `n`. -/
theorem contentID_injective {i j : Nat} {n m : Int}
    (h : "content-" ++ ("creator-" ++ fmtNat i) ++ "-" ++ fmtInt n =
      "content-" ++ ("creator-" ++ fmtNat j) ++ "-" ++ fmtInt m) : i = j ∧ n = m := by
  have h1 := congrArg String.data h
  simp only [String.data_append, List.append_assoc] at h1
  have h2 := List.append_cancel_left (List.append_cancel_left h1)
  rw [fmtNat_data, fmtNat_data] at h2
  have h3 : decDigits (i + 1) i ++ '-' :: (fmtInt n).data =
      decDigits (j + 1) j ++ '-' :: (fmtInt m).data := h2
  obtain ⟨e1, e2⟩ := split_at_dash _ _ _ _ (decDigits_no_dash _ _) (decDigits_no_dash _ _) h3
  have hi := congrArg digitsVal e1
  rw [digitsVal_decDigits _ _ (Nat.lt_succ_self _),
    digitsVal_decDigits _ _ (Nat.lt_succ_self _)] at hi
  exact ⟨hi, fmtInt_injective (String.ext e2)⟩

/-- Every iteration of the loop of `NewPlatformSimulator` completes. -/
theorem initStep_isSome (baseTime : Int) (i : Nat) (s : PlatformSimulator) (clk : Clock) :
    ∃ s' clk', initStep baseTime i s clk = some (s', clk') := by
  unfold initStep
  simp only [Option.bind_eq_bind, Option.bind_eq_some, Option.pure_def, Option.some.injEq,
    Prod.mk.injEq, Prod.exists]
  obtain ⟨n1, h1, -, -⟩ := Intn_isSome s.rng (n := 10000) (by decide)
  obtain ⟨n2, h2, -, -⟩ := Intn_isSome { s.rng with pos := s.rng.pos + 1 } (n := 45) (by decide)
  obtain ⟨n3, h3, -, -⟩ := Intn_isSome
    ({ s.rng with pos := s.rng.pos + 1 + 1 } : Rng).Float64.2 (n := 720) (by decide)
  obtain ⟨n4, h4, h4a, h4b⟩ := Intn_isSome
    ({ s.rng with pos := s.rng.pos + 1 + 1 + 1 + 1 } : Rng).Float64.2
    (n := (CreatorCategories.length : Int)) (by decide)
  obtain ⟨category, h5, -⟩ := idx_isSome CreatorCategories h4a h4b
  obtain ⟨n5, h6, -, -⟩ := Intn_isSome
    ({ s.rng with pos := s.rng.pos + 1 + 1 + 1 + 1 + 1 + 1 } : Rng).Float64.2 (n := 48)
    (by decide)
  obtain ⟨n6, h7, -, -⟩ := Intn_isSome
    ({ s.rng with pos := s.rng.pos + 1 + 1 + 1 + 1 + 1 + 1 + 1 + 1 } : Rng).Float64.2.Float64.2
    (n := 50) (by decide)
  exact ⟨_, _, n1, _, h1, n2, _, h2, n3, _, h3, n4, _, h4, category, h5, n5, _, h6, n6, _, h7,
    rfl, rfl⟩

/-- The loop of `NewPlatformSimulator` completes. -/
theorem initLoop_isSome (baseTime : Int) :
    ∀ (n i : Nat) (s : PlatformSimulator) (clk : Clock),
      ∃ s' clk', initLoop baseTime n i s clk = some (s', clk') := by
  intro n
  induction n with
  | zero => intro i s clk; exact ⟨s, clk, rfl⟩
  | succ n ih =>
    intro i s clk
    obtain ⟨s1, clk1, h1⟩ := initStep_isSome baseTime i s clk
    obtain ⟨s2, clk2, h2⟩ := ih (i + 1) s1 clk1
    exact ⟨s2, clk2, by simp only [initLoop, h1, h2]⟩

/-- `NewPlatformSimulator` returns an engine for every population size that
is not negative and that the allocator admits. -/
theorem NewPlatformSimulator_isSome {capacity : Nat} (gen : Int → Nat → Nat) (clk : Clock)
    {numCreators : Int} (abnormalProb : F64) (hn : 0 ≤ numCreators)
    (hsize : creatorSize * numCreators ≤ maxAlloc) (hcap : numCreators ≤ capacity) :
    ∃ s clk', NewPlatformSimulator capacity gen clk numCreators abnormalProb = some (s, clk') := by
  unfold NewPlatformSimulator
  have hno : ¬(numCreators < 0 ∨ maxAlloc < creatorSize * numCreators ∨
      (capacity : Int) < numCreators) := by
    rintro (h | h | h)
    · exact absurd h (not_lt.mpr hn)
    · exact absurd h (not_lt.mpr hsize)
    · exact absurd h (not_lt.mpr hcap)
  simp only [if_neg hno]
  exact initLoop_isSome _ _ _ _ _

/-- `NewPlatformSimulator` panics on a population size that is negative, that
takes more than `maxAlloc` bytes, or for which the machine has no memory. -/
theorem NewPlatformSimulator_eq_none {capacity : Nat} (gen : Int → Nat → Nat) (clk : Clock)
    {numCreators : Int} (abnormalProb : F64)
    (h : numCreators < 0 ∨ maxAlloc < creatorSize * numCreators ∨
      (capacity : Int) < numCreators) :
    NewPlatformSimulator capacity gen clk numCreators abnormalProb = none := by
  unfold NewPlatformSimulator
  simp only [if_pos h]

theorem getElem?_snoc {α : Type} {xs : List α} {x c : α} {i : Nat}
    (h : (xs ++ [x])[i]? = some c) : xs[i]? = some c ∨ (i = xs.length ∧ c = x) := by
  by_cases hi : i < xs.length
  · rw [List.getElem?_append_left hi] at h
    exact Or.inl h
  · rw [List.getElem?_append_right (by omega)] at h
    have hi' : i - xs.length = 0 := by
      by_contra hne
      have : 1 ≤ i - xs.length := by omega
      rw [List.getElem?_eq_none (by simpa using this)] at h
      exact Option.noConfusion h
    rw [hi'] at h
    simp only [List.getElem?_cons_zero, Option.some.injEq] at h
    exact Or.inr ⟨by omega, h.symm⟩

/-- The engine `NewPlatformSimulator` returns is well formed. -/
theorem NewPlatformSimulator_wellFormed {capacity : Nat} {gen : Int → Nat → Nat} {clk : Clock}
    {numCreators : Int} {abnormalProb : F64} {s : PlatformSimulator} {clk' : Clock}
    (h : NewPlatformSimulator capacity gen clk numCreators abnormalProb = some (s, clk')) :
    WellFormed numCreators.toNat s := by
  refine NewPlatformSimulator_inv WellFormed ?_ ?_ h
  · intro p r
    refine ⟨rfl, rfl, rfl, rfl, rfl, rfl, ?_⟩
    intro i c hc
    simp at hc
  · intro baseTime i s clk s' clk' hI hs
    obtain ⟨creator, _, _, _, _, _, _, rfl, hid, -⟩ := initStep_eq hs
    obtain ⟨h1, h2, h3, h4, h5, h6, h7⟩ := hI
    refine ⟨by simp [h1], by simp [h2], by simp [h3], by simp [h4], by simp [h5], by simp [h6], ?_⟩
    intro j c hc
    rcases getElem?_snoc hc with hc | ⟨hj, rfl⟩
    · exact h7 j c hc
    · rw [hj, h1, hid]

/-- A drift update keeps the state well formed. -/
theorem generateCreatorUpdate_wellFormed {n : Nat} {s : PlatformSimulator} {i : Nat}
    {c : Creator} {s' : PlatformSimulator} (hI : WellFormed n s)
    (h : generateCreatorUpdate s i = some (c, s')) : WellFormed n s' := by
  obtain ⟨old, trend, hold, -, hc, hs⟩ := generateCreatorUpdate_eq h
  obtain ⟨h1, h2, h3, h4, h5, h6, h7⟩ := hI
  rw [hs]
  refine ⟨by simp [h1], h2, h3, h4, by simp [h5], h6, ?_⟩
  intro j x hx
  simp only at hx
  by_cases hij : i = j
  · subst hij
    rw [List.getElem?_set_self (List.getElem?_eq_some.mp hold).1] at hx
    have hx' : x = c := (Option.some.inj hx).symm
    rw [hx', hc]
    exact h7 i old hold
  · rw [List.getElem?_set_ne hij] at hx
    exact h7 j x hx

/-- An iteration of the loop of `GenerateContent` keeps the state well
formed. -/
theorem contentStep_wellFormed {n : Nat} {s : PlatformSimulator} {clk : Clock} {i : Nat}
    {oc : Option Content} {s' : PlatformSimulator} {clk' : Clock} (hI : WellFormed n s)
    (h : contentStep s clk i = some (oc, s', clk')) : WellFormed n s' := by
  obtain ⟨h1, h2, h3, h4, h5, h6, h7⟩ := hI
  obtain ⟨last, sp, r, -, -, hcase⟩ := contentStep_eq h
  rcases hcase with ⟨-, -, rfl, -⟩ | ⟨-, c, sg, clkg, pc, hg, -, -, -, -, rfl, -⟩
  · exact ⟨h1, h2, h3, h4, h5, h6, h7⟩
  · obtain ⟨_, _, _, _, _, _, _, _, _, _, _, _, _, _, _, _, _, _, -, -, -, -, -, -, -, -, -, -, -,
      rfl, -⟩ := generateCreatorContent_eq hg
    exact ⟨h1, by simp [h2], h3, by simp [h4], h5, h6, h7⟩

/-- An invariant of the state and of the records returned so far, kept by
every drift update, by every change of the random source and by every
iteration of content generation, holds along every run. -/
theorem run_contents_inv (Inv : PlatformSimulator → List Content → Prop)
    (hrng : ∀ s r E, Inv s E → Inv { s with rng := r } E)
    (hupd : ∀ s i c s' E, Inv s E → generateCreatorUpdate s i = some (c, s') → Inv s' E)
    (hcon : ∀ s clk i oc s' clk' E, Inv s E → contentStep s clk i = some (oc, s', clk') →
      Inv s' (E ++ oc.toList)) :
    ∀ calls s clk out s' clk' out', Inv s out.contents →
      run calls s clk out = some (s', clk', out') → Inv s' out'.contents := by
  intro calls
  induction calls with
  | nil =>
    intro s clk out s' clk' out' hI h
    simp only [run, Option.some.injEq, Prod.mk.injEq] at h
    obtain ⟨rfl, -, rfl⟩ := h
    exact hI
  | cons call calls ih =>
    intro s clk out s' clk' out' hI h
    cases call with
    | content =>
      simp only [run] at h
      split at h
      · simp at h
      · rename_i cs s1 clk1 hg
        have h1 := contentLoop_acc_inv (fun s _ acc => Inv s (out.contents ++ acc)) ?_
          s.creators.length 0 s clk [] cs s1 clk1 (by simpa using hI) hg
        · exact ih s1 clk1 { out with contents := out.contents ++ cs } s' clk' out' h1 h
        · intro s2 clk2 i oc s3 clk3 acc hI2 hstep
          have := hcon s2 clk2 i oc s3 clk3 _ hI2 hstep
          rwa [List.append_assoc] at this
    | updates =>
      simp only [run] at h
      split at h
      · simp at h
      · rename_i us s1 hg
        have h1 := updatesLoop_inv (fun s => Inv s out.contents) (fun _ => True)
          (fun s r h => hrng s r _ h) (fun s i c s' hI h => ⟨hupd s i c s' _ hI h, trivial⟩)
          s.creators.length 0 s [] us s1 hI (by simp) hg
        exact ih s1 clk { out with creators := out.creators ++ us } s' clk' out' h1.1 h

/-- What an iteration of the loop of `GenerateContent` that emits a record
does to the identifier and the post counter. -/
theorem contentStep_emit {s : PlatformSimulator} {clk : Clock} {i : Nat} {c : Content}
    {s' : PlatformSimulator} {clk' : Clock} (h : contentStep s clk i = some (some c, s', clk')) :
    ∃ creator postCount, s.creators[i]? = some creator ∧ s.contentCounts[i]? = some postCount ∧
      c.ID = "content-" ++ creator.ID ++ "-" ++ fmtInt postCount ∧ c.CreatorID = creator.ID ∧
      s'.contentCounts = s.contentCounts.set i (wrap64 (postCount + 1)) ∧
      s'.contentCounts[i]? = some (wrap64 (postCount + 1)) := by
  obtain ⟨last, sp, r, -, -, hcase⟩ := contentStep_eq h
  rcases hcase with ⟨-, hoc, -, -⟩ | ⟨-, c1, sg, clkg, pc, hg, hpc, hlen, -, hoc, rfl, -⟩
  · exact Option.noConfusion hoc
  · obtain ⟨creator, postCount, _, _, _, _, _, _, _, _, _, _, _, _, _, _, _, _, hcr, hcnt, -, -,
      -, -, -, -, -, -, hc, rfl, -⟩ := generateCreatorContent_eq hg
    have e : c = c1 := Option.some.inj hoc
    subst e
    simp only at hpc hcr hcnt hlen
    have e2 : postCount = pc := Option.some.inj (hcnt.symm.trans hpc)
    subst e2
    refine ⟨creator, postCount, hcr, hcnt, by rw [hc], by rw [hc], rfl, ?_⟩
    simp only
    exact List.getElem?_set_self hlen

theorem pow2_eq_zpow (e : Int) : pow2 e = (2 : ℚ) ^ e := by
  unfold pow2
  split
  · rename_i h
    have : e = (e.toNat : Int) := (Int.toNat_of_nonneg h).symm
    conv_rhs => rw [this]
    rw [zpow_natCast]
    push_cast
    rfl
  · rename_i h
    have : e = -((-e).toNat : Int) := by
      rw [Int.toNat_of_nonneg (by omega)]
      omega
    conv_rhs => rw [this]
    rw [zpow_neg, zpow_natCast]
    push_cast
    rw [one_div]

theorem pow2_pos (e : Int) : 0 < pow2 e := by
  rw [pow2_eq_zpow]
  positivity

theorem pow2_add (a b : Int) : pow2 (a + b) = pow2 a * pow2 b := by
  simp only [pow2_eq_zpow]
  exact zpow_add₀ (by norm_num) a b

theorem pow2_mono {a b : Int} (h : a ≤ b) : pow2 a ≤ pow2 b := by
  simp only [pow2_eq_zpow]
  exact zpow_le_zpow_right₀ (by norm_num) h

/-- The halving loop computes the floor of the binary logarithm. -/
theorem log2Fuel_spec : ∀ (fuel n : Nat), 1 ≤ n → n ≤ fuel →
    2 ^ log2Fuel fuel n ≤ n ∧ n < 2 ^ (log2Fuel fuel n + 1) := by
  intro fuel
  induction fuel with
  | zero => intro n h1 h2; omega
  | succ fuel ih =>
    intro n h1 h2
    unfold log2Fuel
    split
    · rename_i hlt
      have : n = 1 := by omega
      subst this
      simp
    · rename_i hge
      obtain ⟨l, u⟩ := ih (n / 2) (by omega) (by omega)
      rw [pow_succ, pow_succ]
      constructor
      · omega
      · rw [pow_succ] at u
        omega

theorem nlog2_spec {n : Nat} (h : 1 ≤ n) : 2 ^ nlog2 n ≤ n ∧ n < 2 ^ (nlog2 n + 1) :=
  log2Fuel_spec n n h (le_refl n)

/-- The exponent `ilog2` computes brackets its (positive) argument. -/
theorem ilog2_spec {x : ℚ} (hx : 0 < x) : pow2 (ilog2 x) ≤ x ∧ x < pow2 (ilog2 x + 1) := by
  have hnum : 0 < x.num := Rat.num_pos.mpr hx
  have hden : 1 ≤ x.den := x.den_pos
  have hnat : 1 ≤ x.num.natAbs := by omega
  obtain ⟨la, ua⟩ := nlog2_spec hnat
  obtain ⟨lb, ub⟩ := nlog2_spec hden
  have hxe : x = (x.num.natAbs : ℚ) / (x.den : ℚ) := by
    have h1 : ((x.num.natAbs : ℤ) : ℚ) = (x.num : ℚ) := by
      rw [Int.natAbs_of_nonneg (le_of_lt hnum)]
    have h2 : ((x.num.natAbs : ℕ) : ℚ) = ((x.num.natAbs : ℤ) : ℚ) := (Int.cast_natCast _).symm
    rw [h2, h1]
    exact (Rat.num_div_den x).symm
  have hdq : (0 : ℚ) < (x.den : ℚ) := by exact_mod_cast hden
  have la' : (2 : ℚ) ^ (nlog2 x.num.natAbs) ≤ (x.num.natAbs : ℚ) := by exact_mod_cast la
  have ua' : (x.num.natAbs : ℚ) < (2 : ℚ) ^ (nlog2 x.num.natAbs + 1) := by exact_mod_cast ua
  have lb' : (2 : ℚ) ^ (nlog2 x.den) ≤ (x.den : ℚ) := by exact_mod_cast lb
  have ub' : (x.den : ℚ) < (2 : ℚ) ^ (nlog2 x.den + 1) := by exact_mod_cast ub
  set a := nlog2 x.num.natAbs with ha
  set b := nlog2 x.den with hb
  have hlow : pow2 ((a : Int) - (b : Int) - 1) ≤ x := by
    rw [pow2_eq_zpow, sub_sub, zpow_sub₀ (by norm_num), zpow_natCast]
    have : ((2 : ℚ) ^ ((b : Int) + 1)) = (2 : ℚ) ^ (b + 1) := by
      rw [← zpow_natCast]; push_cast; rfl
    rw [this, hxe]
    rw [div_le_div_iff₀ (by positivity) hdq]
    calc (2 : ℚ) ^ a * (x.den : ℚ) ≤ (x.num.natAbs : ℚ) * (x.den : ℚ) :=
          mul_le_mul_of_nonneg_right la' (le_of_lt hdq)
      _ ≤ (x.num.natAbs : ℚ) * (2 : ℚ) ^ (b + 1) :=
          mul_le_mul_of_nonneg_left (le_of_lt ub') (by positivity)
  have hupp : x < pow2 ((a : Int) - (b : Int) + 1) := by
    rw [pow2_eq_zpow, sub_add_eq_add_sub, zpow_sub₀ (by norm_num), zpow_natCast]
    have : ((2 : ℚ) ^ ((a : Int) + 1)) = (2 : ℚ) ^ (a + 1) := by
      rw [← zpow_natCast]; push_cast; rfl
    rw [this]
    conv_lhs => rw [hxe]
    rw [div_lt_div_iff₀ hdq (by positivity)]
    calc (x.num.natAbs : ℚ) * (2 : ℚ) ^ b ≤ (x.num.natAbs : ℚ) * (x.den : ℚ) :=
          mul_le_mul_of_nonneg_left lb' (by positivity)
      _ < (2 : ℚ) ^ (a + 1) * (x.den : ℚ) := mul_lt_mul_of_pos_right ua' hdq
  unfold ilog2
  simp only
  rw [← ha, ← hb]
  split
  · rename_i hlt
    refine ⟨hlow, ?_⟩
    rw [sub_add_cancel]
    exact hlt
  · rename_i hnlt
    exact ⟨not_lt.mp hnlt, hupp⟩

theorem pow2_lt_iff {a b : Int} : pow2 a < pow2 b ↔ a < b := by
  simp only [pow2_eq_zpow]
  exact zpow_lt_zpow_iff_right₀ (by norm_num)

theorem roundEven_cases (y : ℚ) : roundEven y = ⌊y⌋ ∨ roundEven y = ⌊y⌋ + 1 := by
  unfold roundEven
  simp only
  split
  · exact Or.inl rfl
  · split
    · exact Or.inr rfl
    · split
      · exact Or.inl rfl
      · exact Or.inr rfl

theorem roundEven_le (y : ℚ) : (roundEven y : ℚ) ≤ y + 1 / 2 := by
  have hfl : (⌊y⌋ : ℚ) ≤ y := Int.floor_le y
  unfold roundEven
  simp only
  split
  · linarith
  · rename_i h1
    split
    · rename_i h2
      push_cast
      linarith [Int.lt_floor_add_one y]
    · rename_i h2
      have hd : y - ⌊y⌋ = 1 / 2 := le_antisymm (not_lt.mp h2) (not_lt.mp h1)
      split
      · linarith
      · push_cast
        linarith

theorem roundEven_ge (y : ℚ) : y - 1 / 2 ≤ (roundEven y : ℚ) := by
  have hfl : y < (⌊y⌋ : ℚ) + 1 := Int.lt_floor_add_one y
  unfold roundEven
  simp only
  split
  · linarith
  · rename_i h1
    split
    · push_cast
      linarith
    · rename_i h2
      have hd : y - ⌊y⌋ = 1 / 2 := le_antisymm (not_lt.mp h2) (not_lt.mp h1)
      split
      · linarith
      · push_cast
        linarith

theorem roundEven_intCast (k : Int) : roundEven (k : ℚ) = k := by
  unfold roundEven
  simp

theorem roundEven_mono {y z : ℚ} (h : y ≤ z) : roundEven y ≤ roundEven z := by
  have hfloor : ⌊y⌋ ≤ ⌊z⌋ := Int.floor_mono h
  rcases lt_or_eq_of_le hfloor with hlt | heq
  · rcases roundEven_cases y with hy | hy <;> rcases roundEven_cases z with hz | hz <;> omega
  · unfold roundEven
    simp only
    rw [← heq]
    have hd : y - ⌊y⌋ ≤ z - ⌊y⌋ := by linarith
    by_cases h1 : y - ⌊y⌋ < 1 / 2
    · rw [if_pos h1]
      split
      · exact le_refl _
      · split
        · omega
        · split <;> omega
    · rw [if_neg h1]
      have h1z : ¬ z - ⌊y⌋ < 1 / 2 := by
        intro hz
        exact h1 (lt_of_le_of_lt hd hz)
      rw [if_neg h1z]
      by_cases h2 : 1 / 2 < y - ⌊y⌋
      · rw [if_pos h2, if_pos (lt_of_lt_of_le h2 hd)]
      · rw [if_neg h2]
        by_cases h3 : 1 / 2 < z - ⌊y⌋
        · rw [if_pos h3]
          split <;> omega
        · rw [if_neg h3]

/-- The exponent the rounding of `x` uses. -/
theorem rndQ_of_pos {x : ℚ} (hx : 0 < x) :
    rndQ x = (roundEven (x / pow2 (max (ilog2 x) (-1022) - 52)) : ℚ) *
      pow2 (max (ilog2 x) (-1022) - 52) := by
  unfold rndQ
  rw [if_neg (ne_of_gt hx), abs_of_pos hx]
  simp only [if_pos hx]

theorem rndQ_zero : rndQ 0 = 0 := by
  unfold rndQ
  rw [if_pos rfl]

theorem rndQ_neg (x : ℚ) : rndQ (-x) = -rndQ x := by
  rcases lt_trichotomy x 0 with h | h | h
  · unfold rndQ
    rw [if_neg (by linarith : -x ≠ 0), if_neg (ne_of_lt h), abs_neg]
    simp only [if_pos (by linarith : 0 < -x), if_neg (by linarith : ¬ 0 < x), neg_neg]
  · subst h
    simp [rndQ_zero]
  · unfold rndQ
    rw [if_neg (by linarith : -x ≠ 0), if_neg (ne_of_gt h), abs_neg]
    simp only [if_neg (by linarith : ¬ 0 < -x), if_pos h]

theorem rndQ_nonneg {x : ℚ} (hx : 0 ≤ x) : 0 ≤ rndQ x := by
  rcases eq_or_lt_of_le hx with h | h
  · rw [← h, rndQ_zero]
  · rw [rndQ_of_pos h]
    have hq := pow2_pos (max (ilog2 x) (-1022) - 52)
    have h0 : (0 : ℚ) ≤ x / pow2 (max (ilog2 x) (-1022) - 52) := div_nonneg hx (le_of_lt hq)
    have h1 : (0 : Int) ≤ roundEven (x / pow2 (max (ilog2 x) (-1022) - 52)) := by
      have := roundEven_mono h0
      rwa [show roundEven (0 : ℚ) = 0 from by simpa using roundEven_intCast 0] at this
    exact mul_nonneg (by exact_mod_cast h1) (le_of_lt hq)

/-- The quantum of the rounding of a positive number is at most the number
scaled by `2^(-52)`, or the smallest subnormal number. -/
theorem quantum_le {x : ℚ} (hx : 0 < x) :
    pow2 (max (ilog2 x) (-1022) - 52) ≤ x / 2 ^ 52 + 1 / 2 ^ 1074 := by
  rcases le_total (ilog2 x) (-1022) with h | h
  · rw [max_eq_right h]
    have : pow2 (-1022 - 52) = 1 / 2 ^ 1074 := by
      rw [pow2_eq_zpow]
      norm_num
    rw [this]
    have : (0 : ℚ) ≤ x / 2 ^ 52 := by positivity
    linarith
  · rw [max_eq_left h, sub_eq_add_neg, pow2_add]
    have h52 : pow2 (-52) = 1 / 2 ^ 52 := by
      rw [pow2_eq_zpow, show (-52 : Int) = -((52 : Nat) : Int) by norm_num, zpow_neg,
        zpow_natCast, one_div]
    rw [h52]
    have := (ilog2_spec hx).1
    have h2 : pow2 (ilog2 x) * (1 / 2 ^ 52) ≤ x * (1 / 2 ^ 52) :=
      mul_le_mul_of_nonneg_right this (by positivity)
    have h3 : (0 : ℚ) ≤ 1 / 2 ^ 1074 := by positivity
    calc pow2 (ilog2 x) * (1 / 2 ^ 52) ≤ x * (1 / 2 ^ 52) := h2
      _ = x / 2 ^ 52 := by ring
      _ ≤ x / 2 ^ 52 + 1 / 2 ^ 1074 := by linarith

/-- The rounding error, above: half a quantum. -/
theorem rndQ_le {x : ℚ} (hx : 0 ≤ x) : rndQ x ≤ x + x / 2 ^ 53 + 1 / 2 ^ 1075 := by
  rcases eq_or_lt_of_le hx with h | h
  · rw [← h, rndQ_zero]
    norm_num
  · rw [rndQ_of_pos h]
    have hq := pow2_pos (max (ilog2 x) (-1022) - 52)
    have hql := quantum_le h
    set q := pow2 (max (ilog2 x) (-1022) - 52) with hqdef
    have h1 := roundEven_le (x / q)
    have h2 : (roundEven (x / q) : ℚ) * q ≤ (x / q + 1 / 2) * q :=
      mul_le_mul_of_nonneg_right h1 (le_of_lt hq)
    have h3 : (x / q + 1 / 2) * q = x + q / 2 := by
      field_simp
      ring
    rw [h3] at h2
    have h4 : q / 2 ≤ x / 2 ^ 53 + 1 / 2 ^ 1075 := by
      have : q / 2 ≤ (x / 2 ^ 52 + 1 / 2 ^ 1074) / 2 := by linarith
      calc q / 2 ≤ (x / 2 ^ 52 + 1 / 2 ^ 1074) / 2 := this
        _ = x / 2 ^ 53 + 1 / 2 ^ 1075 := by ring
    linarith

/-- The rounding error, below: half a quantum. -/
theorem rndQ_ge {x : ℚ} (hx : 0 ≤ x) : x - x / 2 ^ 53 - 1 / 2 ^ 1075 ≤ rndQ x := by
  rcases eq_or_lt_of_le hx with h | h
  · rw [← h, rndQ_zero]
    norm_num
  · rw [rndQ_of_pos h]
    have hq := pow2_pos (max (ilog2 x) (-1022) - 52)
    have hql := quantum_le h
    set q := pow2 (max (ilog2 x) (-1022) - 52) with hqdef
    have h1 := roundEven_ge (x / q)
    have h2 : (x / q - 1 / 2) * q ≤ (roundEven (x / q) : ℚ) * q :=
      mul_le_mul_of_nonneg_right h1 (le_of_lt hq)
    have h3 : (x / q - 1 / 2) * q = x - q / 2 := by
      field_simp
      ring
    rw [h3] at h2
    have h4 : q / 2 ≤ x / 2 ^ 53 + 1 / 2 ^ 1075 := by
      have : q / 2 ≤ (x / 2 ^ 52 + 1 / 2 ^ 1074) / 2 := by linarith
      calc q / 2 ≤ (x / 2 ^ 52 + 1 / 2 ^ 1074) / 2 := this
        _ = x / 2 ^ 53 + 1 / 2 ^ 1075 := by ring
    linarith

theorem ilog2_mono {x y : ℚ} (hx : 0 < x) (h : x ≤ y) : ilog2 x ≤ ilog2 y := by
  have hy : 0 < y := lt_of_lt_of_le hx h
  have h1 := (ilog2_spec hx).1
  have h2 := (ilog2_spec hy).2
  have : pow2 (ilog2 x) < pow2 (ilog2 y + 1) := lt_of_le_of_lt (le_trans h1 h) h2
  have := pow2_lt_iff.mp this
  omega

theorem pow2_53_mul (e : Int) : (2 : ℚ) ^ 53 * pow2 (e - 52) = pow2 (e + 1) := by
  have : e + 1 = 53 + (e - 52) := by ring
  rw [this, pow2_add, pow2_eq_zpow 53]
  norm_num

theorem pow2_52_mul (e : Int) : (2 : ℚ) ^ 52 * pow2 (e - 52) = pow2 e := by
  have : e = 52 + (e - 52) := by ring
  conv_rhs => rw [this]
  rw [pow2_add, pow2_eq_zpow 52]
  norm_num

/-- Rounding is monotone on the positive numbers. -/
theorem rndQ_mono_pos {x y : ℚ} (hx : 0 < x) (h : x ≤ y) : rndQ x ≤ rndQ y := by
  have hy : 0 < y := lt_of_lt_of_le hx h
  rw [rndQ_of_pos hx, rndQ_of_pos hy]
  have hlog := ilog2_mono hx h
  have hexp : max (ilog2 x) (-1022) ≤ max (ilog2 y) (-1022) := max_le_max hlog (le_refl _)
  rcases eq_or_lt_of_le hexp with heq | hlt
  · rw [heq]
    have hq := pow2_pos (max (ilog2 y) (-1022) - 52)
    have hdiv : x / pow2 (max (ilog2 y) (-1022) - 52) ≤ y / pow2 (max (ilog2 y) (-1022) - 52) :=
      div_le_div_of_nonneg_right h (le_of_lt hq)
    exact mul_le_mul_of_nonneg_right (by exact_mod_cast roundEven_mono hdiv) (le_of_lt hq)
  · set ex := max (ilog2 x) (-1022) with hex
    set ey := max (ilog2 y) (-1022) with hey
    have hqx := pow2_pos (ex - 52)
    have hqy := pow2_pos (ey - 52)
    have hey' : ey = ilog2 y := by
      rcases le_total (ilog2 y) (-1022) with hc | hc
      · have : ey = -1022 := max_eq_right hc
        have : -1022 ≤ ex := le_max_right _ _
        omega
      · exact max_eq_left hc
    -- the rounding of `x` is at most `2 ^ (ex + 1)`
    have hxup : x < pow2 (ex + 1) :=
      lt_of_lt_of_le (ilog2_spec hx).2 (pow2_mono (by have := le_max_left (ilog2 x) (-1022); omega))
    have h1 : x / pow2 (ex - 52) ≤ ((2 ^ 53 : Int) : ℚ) := by
      rw [div_le_iff₀ hqx, show (((2 : Int) ^ 53 : Int) : ℚ) = (2 : ℚ) ^ 53 by norm_num,
        pow2_53_mul]
      exact le_of_lt hxup
    have h1' := roundEven_mono h1
    rw [roundEven_intCast] at h1'
    have hx2 : (roundEven (x / pow2 (ex - 52)) : ℚ) * pow2 (ex - 52) ≤ pow2 (ex + 1) := by
      rw [← pow2_53_mul]
      exact mul_le_mul_of_nonneg_right (by exact_mod_cast h1') (le_of_lt hqx)
    -- the rounding of `y` is at least `2 ^ ey`
    have hylow : pow2 ey ≤ y := by rw [hey']; exact (ilog2_spec hy).1
    have h2 : ((2 ^ 52 : Int) : ℚ) ≤ y / pow2 (ey - 52) := by
      rw [le_div_iff₀ hqy, show (((2 : Int) ^ 52 : Int) : ℚ) = (2 : ℚ) ^ 52 by norm_num,
        pow2_52_mul]
      exact hylow
    have h2' := roundEven_mono h2
    rw [roundEven_intCast] at h2'
    have hy2 : pow2 ey ≤ (roundEven (y / pow2 (ey - 52)) : ℚ) * pow2 (ey - 52) := by
      rw [← pow2_52_mul ey]
      exact mul_le_mul_of_nonneg_right (by exact_mod_cast h2') (le_of_lt hqy)
    calc (roundEven (x / pow2 (ex - 52)) : ℚ) * pow2 (ex - 52) ≤ pow2 (ex + 1) := hx2
      _ ≤ pow2 ey := pow2_mono (by omega)
      _ ≤ _ := hy2

/-- Rounding is monotone. -/
theorem rndQ_mono {x y : ℚ} (h : x ≤ y) : rndQ x ≤ rndQ y := by
  rcases lt_trichotomy 0 x with hx | hx | hx
  · exact rndQ_mono_pos hx h
  · rw [← hx, rndQ_zero]
    exact rndQ_nonneg (by linarith)
  · rcases le_or_lt 0 y with hy | hy
    · have h1 : rndQ x ≤ 0 := by
        have := rndQ_nonneg (le_of_lt (neg_pos.mpr hx))
        rw [rndQ_neg] at this
        linarith
      exact le_trans h1 (rndQ_nonneg hy)
    · have := rndQ_mono_pos (neg_pos.mpr hy) (neg_le_neg h)
      rw [rndQ_neg, rndQ_neg] at this
      linarith

theorem maxFinite_ge : (2 : ℚ) ^ 101 ≤ maxFinite := by decide!

/-- The rounding of a number between 0 and `2^100` is finite. -/
theorem round64_of_nonneg {x : ℚ} (h0 : 0 ≤ x) (h1 : x ≤ 2 ^ 100) :
    round64 x = F64.fin (rndQ x) := by
  have hr0 := rndQ_nonneg h0
  have hr1 := rndQ_le h0
  have hmax := maxFinite_ge
  have hsmall : x / 2 ^ 53 + 1 / 2 ^ 1075 ≤ 2 ^ 100 := by
    have : x / 2 ^ 53 ≤ 2 ^ 100 / 2 ^ 53 := div_le_div_of_nonneg_right h1 (by positivity)
    have h2 : (2 : ℚ) ^ 100 / 2 ^ 53 + 1 / 2 ^ 1075 ≤ 2 ^ 100 := by norm_num
    linarith
  have hle : rndQ x ≤ maxFinite := by
    have : (2 : ℚ) ^ 100 + 2 ^ 100 = 2 ^ 101 := by norm_num
    linarith
  unfold round64
  simp only
  rw [if_neg (not_lt.mpr hle), if_neg (by linarith)]

theorem unitFloat_nonneg (k : Nat) : 0 ≤ unitFloat k := by
  unfold unitFloat
  exact div_nonneg (rndQ_nonneg (by positivity)) (by positivity)

/-- A draw of `Float64` is below 1: at most `1 - 2^(-53)`. -/
theorem unitFloat_le {k : Nat} (hk : k < 2 ^ 63 - 512) :
    unitFloat k ≤ 9007199254740991 / 9007199254740992 := by
  have h1 : ((k : ℚ)) ≤ (((2 ^ 63 - 513 : Nat)) : ℚ) := by
    exact_mod_cast (by omega : k ≤ 2 ^ 63 - 513)
  have h2 := rndQ_mono h1
  have h3 : unitFloat (2 ^ 63 - 513) = 9007199254740991 / 9007199254740992 := by decide!
  unfold unitFloat at h3 ⊢
  rw [← h3]
  exact div_le_div_of_nonneg_right h2 (by positivity)

theorem lit_tenth : lit (1 / 10) = F64.fin (3602879701896397 / 36028797018963968) := by decide!

theorem lit_fifth : lit (2 / 10) = F64.fin (3602879701896397 / 18014398509481984) := by decide!

/-- The fraction of views that become likes, `0.1 + u * 0.2` for a draw `u`:
a number from 0.1 to below 0.3. -/
theorem likeFraction_range {k : Nat} (hk : k < 2 ^ 63 - 512) :
    ∃ frac : ℚ, F64.add (lit (1 / 10)) (F64.mul (F64.fin (unitFloat k)) (lit (2 / 10))) =
        F64.fin frac ∧ 1 / 10 ≤ frac ∧ frac < 3 / 10 := by
  have hu0 := unitFloat_nonneg k
  have hu1 := unitFloat_le hk
  set u := unitFloat k with hu
  rw [lit_tenth, lit_fifth]
  have hprod0 : 0 ≤ u * (3602879701896397 / 18014398509481984) := by positivity
  have hprod1 : u * (3602879701896397 / 18014398509481984) ≤
      9007199254740991 / 9007199254740992 * (3602879701896397 / 18014398509481984) :=
    mul_le_mul_of_nonneg_right hu1 (by norm_num)
  have hmul : F64.mul (F64.fin u) (F64.fin (3602879701896397 / 18014398509481984)) =
      F64.fin (rndQ (u * (3602879701896397 / 18014398509481984))) :=
    round64_of_nonneg hprod0 (le_trans hprod1 (by norm_num))
  rw [hmul]
  have ha0 := rndQ_nonneg hprod0
  have ha1 := rndQ_mono hprod1
  set a := rndQ (u * (3602879701896397 / 18014398509481984)) with ha
  have hsum0 : (0 : ℚ) ≤ 3602879701896397 / 36028797018963968 + a := by positivity
  have hsumlo : (3602879701896397 / 36028797018963968 : ℚ) ≤
      3602879701896397 / 36028797018963968 + a := by linarith
  have hsumhi : 3602879701896397 / 36028797018963968 + a ≤
      3602879701896397 / 36028797018963968 +
        rndQ (9007199254740991 / 9007199254740992 * (3602879701896397 / 18014398509481984)) := by
    linarith
  have hamax : rndQ (9007199254740991 / 9007199254740992 *
      (3602879701896397 / 18014398509481984)) ≤ 1 := by decide!
  have hadd : F64.add (F64.fin (3602879701896397 / 36028797018963968)) (F64.fin a) =
      F64.fin (rndQ (3602879701896397 / 36028797018963968 + a)) :=
    round64_of_nonneg hsum0 (by
      have : (3602879701896397 / 36028797018963968 : ℚ) + 1 ≤ 2 ^ 100 := by norm_num
      linarith)
  rw [hadd]
  refine ⟨_, rfl, ?_, ?_⟩
  · have h1 := rndQ_mono hsumlo
    have h2 : (1 / 10 : ℚ) ≤ rndQ (3602879701896397 / 36028797018963968) := by decide!
    linarith
  · have h1 := rndQ_mono hsumhi
    have h2 : rndQ (3602879701896397 / 36028797018963968 +
        rndQ (9007199254740991 / 9007199254740992 * (3602879701896397 / 18014398509481984))) <
        3 / 10 := by decide!
    linarith

theorem i2f_of_nonneg {n : Int} (h0 : 0 ≤ n) (h1 : n < 2 ^ 63) :
    i2f n = F64.fin (rndQ n) ∧ 0 ≤ rndQ (n : ℚ) ∧
      rndQ (n : ℚ) ≤ n + n / 2 ^ 53 + 1 / 2 ^ 1075 := by
  have hq0 : (0 : ℚ) ≤ n := by exact_mod_cast h0
  have hq1 : (n : ℚ) ≤ 2 ^ 100 := by
    have : (n : ℚ) ≤ 2 ^ 63 := by exact_mod_cast le_of_lt h1
    have : (2 : ℚ) ^ 63 ≤ 2 ^ 100 := by norm_num
    linarith
  exact ⟨round64_of_nonneg hq0 hq1, rndQ_nonneg hq0, rndQ_le hq0⟩

theorem f2i_fin_le {w : ℚ} {b : Int} (hw : w < b) (hb : 0 < b) :
    f2i (F64.fin w) < b := by
  unfold f2i
  simp only
  split
  · unfold truncQ
    split
    · exact Int.floor_lt.mpr hw
    · rename_i hneg
      have h1 : (0 : ℚ) ≤ -w := by linarith
      have h2 : (0 : Int) ≤ ⌊-w⌋ := Int.floor_nonneg.mpr h1
      omega
  · omega

/-- The like count is below the view count. -/
theorem likeCount_lt {view : Int} (h0 : 1 ≤ view) (h1 : view < 2 ^ 63) {frac : ℚ}
    (hf0 : 0 ≤ frac) (hf1 : frac < 3 / 10) :
    f2i (F64.mul (i2f view) (F64.fin frac)) < view := by
  obtain ⟨hv, hv0, hv1⟩ := i2f_of_nonneg (by omega : 0 ≤ view) h1
  rw [hv]
  set v := rndQ (view : ℚ) with hvdef
  have hV1 : (1 : ℚ) ≤ view := by exact_mod_cast h0
  have hV2 : (view : ℚ) ≤ 2 ^ 63 := by exact_mod_cast le_of_lt h1
  have hp0 : 0 ≤ v * frac := mul_nonneg hv0 hf0
  have hp1 : v * frac ≤ v * (3 / 10) := mul_le_mul_of_nonneg_left (le_of_lt hf1) hv0
  have e1 : (view : ℚ) / 2 ^ 53 ≤ view / 1000 := by
    apply div_le_div_of_nonneg_left (by linarith) (by norm_num) (by norm_num)
  have e2 : (1 : ℚ) / 2 ^ 1075 ≤ 1 / 1000 := by
    apply div_le_div_of_nonneg_left (by norm_num) (by norm_num)
    exact le_trans (by norm_num : (1000 : ℚ) ≤ 2 ^ 10) (pow_le_pow_right₀ (by norm_num) (by norm_num))
  have hpsmall : v * frac ≤ 2 ^ 100 := by
    have : (2 : ℚ) ^ 63 * 2 ≤ 2 ^ 100 := by norm_num
    nlinarith
  have hmul : F64.mul (F64.fin v) (F64.fin frac) = F64.fin (rndQ (v * frac)) :=
    round64_of_nonneg hp0 hpsmall
  rw [hmul]
  have hw := rndQ_le hp0
  have e3 : v * frac / 2 ^ 53 ≤ v * frac / 1000 := by
    apply div_le_div_of_nonneg_left hp0 (by norm_num) (by norm_num)
  refine f2i_fin_le ?_ (by omega)
  linarith

/-- The base view count stays well inside the range of `int64`. -/
theorem baseViews_le {n : Int} (h0 : 0 ≤ n) (h1 : n < 2 ^ 63) {r : ℚ} (hr0 : 0 ≤ r)
    (hr1 : r ≤ 1 / 2) : f2i (F64.mul (i2f n) (F64.fin r)) < 2 ^ 62 + 2 ^ 12 := by
  obtain ⟨hv, hv0, hv1⟩ := i2f_of_nonneg h0 h1
  rw [hv]
  set v := rndQ (n : ℚ) with hvdef
  have hN : (n : ℚ) ≤ 2 ^ 63 := by exact_mod_cast le_of_lt h1
  have hN0 : (0 : ℚ) ≤ n := by exact_mod_cast h0
  have hp0 : 0 ≤ v * r := mul_nonneg hv0 hr0
  have hp1 : v * r ≤ v * (1 / 2) := mul_le_mul_of_nonneg_left hr1 hv0
  have e1 : (n : ℚ) / 2 ^ 53 ≤ 2 ^ 63 / 2 ^ 53 := div_le_div_of_nonneg_right hN (by positivity)
  have e2 : (1 : ℚ) / 2 ^ 1075 ≤ 1 := by
    rw [div_le_one (by positivity)]
    exact one_le_pow₀ (by norm_num)
  have e4 : (2 : ℚ) ^ 63 / 2 ^ 53 = 2 ^ 10 := by norm_num
  have hvb : v ≤ 2 ^ 63 + 2 ^ 10 + 1 := by linarith
  have hpb : v * r ≤ 2 ^ 62 + 2 ^ 9 + 1 / 2 := by
    have : ((2 : ℚ) ^ 63 + 2 ^ 10 + 1) * (1 / 2) = 2 ^ 62 + 2 ^ 9 + 1 / 2 := by norm_num
    linarith
  have hpsmall : v * r ≤ 2 ^ 100 := by
    have : (2 : ℚ) ^ 62 + 2 ^ 9 + 1 / 2 ≤ 2 ^ 100 := by norm_num
    linarith
  have hmul : F64.mul (F64.fin v) (F64.fin r) = F64.fin (rndQ (v * r)) :=
    round64_of_nonneg hp0 hpsmall
  rw [hmul]
  have hw := rndQ_le hp0
  have e3 : v * r / 2 ^ 53 ≤ (2 ^ 62 + 2 ^ 9 + 1 / 2) / 2 ^ 53 :=
    div_le_div_of_nonneg_right hpb (by positivity)
  have e5 : ((2 : ℚ) ^ 62 + 2 ^ 9 + 1 / 2) / 2 ^ 53 ≤ 2 ^ 10 := by norm_num
  refine f2i_fin_le ?_ (by norm_num)
  push_cast
  have e6 : (2 : ℚ) ^ 62 + 2 ^ 9 + 1 / 2 + 2 ^ 10 + 1 < 2 ^ 62 + 2 ^ 12 := by norm_num
  linarith

theorem wrap64_of_range {x : Int} (h0 : 0 ≤ x) (h1 : x < 2 ^ 63) : wrap64 x = x := by
  unfold wrap64
  omega

/-- Go's quotient `b / 2` is positive only for `b` from 2 on, where it is the
floor of the half. -/
theorem tdiv_two_pos {b : Int} (h : 0 < Int.tdiv b 2) : 2 ≤ b ∧ Int.tdiv b 2 = b / 2 := by
  rcases le_or_lt 0 b with hnn | hneg
  · have e : Int.tdiv b 2 = b / 2 := Int.tdiv_eq_ediv hnn (by norm_num)
    rw [e] at h
    exact ⟨by omega, e⟩
  · have h1 : Int.tdiv (-b) 2 = -(Int.tdiv b 2) := Int.neg_tdiv b 2
    have h2 : 0 ≤ Int.tdiv (-b) 2 := Int.tdiv_nonneg (by omega) (by norm_num)
    omega

/-- What the block that generates engagement computes. -/
theorem engagement_eq {n : Int} {rate : F64} {rng : Rng} {view like : Int} {rng' : Rng}
    (h : engagement n rate rng = some (view, like, rng')) :
    ∃ jitter r1, rng.Intn (Int.tdiv (f2i (F64.mul (i2f n) rate)) 2) = some (jitter, r1) ∧
      view = wrap64 (f2i (F64.mul (i2f n) rate) + jitter) ∧
      like = f2i (F64.mul (i2f view)
        (F64.add (lit (1 / 10)) (F64.mul r1.Float64.1 (lit (2 / 10))))) ∧
      rng' = r1.Float64.2 := by
  unfold engagement at h
  simp only [Option.bind_eq_bind, Option.bind_eq_some, Option.pure_def, Option.some.injEq,
    Prod.mk.injEq, Prod.exists] at h
  obtain ⟨jitter, r1, hj, hv, hl, hr⟩ := h
  refine ⟨jitter, r1, hj, hv.symm, ?_, hr.symm⟩
  rw [← hl, ← hv]

/-- In every record that `generateCreatorContent` returns for a creator with a
subscriber count in the range of a non-negative `int64` and an engagement rate
between 0 and 0.5, the like count is below the view count and the view count
is positive: the view count is `baseViews` plus a draw in `[0, baseViews/2)`,
and the like count is the truncation of the `float64` product of the view
count and a fraction that lies in `[0.10, 0.30)`. -/
theorem likes_below_views_step (s : PlatformSimulator) (clk : Clock) (i : Nat) (c : Content)
    (s' : PlatformSimulator) (clk' : Clock) (creator : Creator) (r : ℚ)
    (h : generateCreatorContent s clk i = some (c, s', clk'))
    (hcr : s.creators[i]? = some creator)
    (h0 : 0 ≤ creator.SubscriberCount) (h1 : creator.SubscriberCount < 2 ^ 63)
    (hrate : s.engagementRates[i]? = some (F64.fin r)) (hr0 : 0 ≤ r) (hr1 : r ≤ 1 / 2) :
    c.LikeCount < c.ViewCount ∧ 0 < c.ViewCount ∧
    ∃ (baseViews jitter : Int) (frac : ℚ),
      baseViews = f2i (F64.mul (i2f creator.SubscriberCount) (F64.fin r)) ∧
      0 ≤ jitter ∧ jitter < Int.tdiv baseViews 2 ∧ c.ViewCount = baseViews + jitter ∧
      1 / 10 ≤ frac ∧ frac < 3 / 10 ∧
      c.LikeCount = f2i (F64.mul (i2f c.ViewCount) (F64.fin frac)) := by
  obtain ⟨creator', postCount, k, r1, contentType, rate, viewCount, likeCount, r2, _, _, _, _, _,
    _, _, _, _, hcr', -, -, -, hrate', heng, -, -, -, -, rfl, -, -⟩ := generateCreatorContent_eq h
  have e1 : creator' = creator := Option.some.inj (hcr'.symm.trans hcr)
  have e2 : rate = F64.fin r := Option.some.inj (hrate'.symm.trans hrate)
  subst e1 e2
  simp only
  obtain ⟨jitter, r3, hj, hv, hl, -⟩ := engagement_eq heng
  obtain ⟨hpos, hj0, hj1, -⟩ := Intn_eq_some hj
  set baseViews := f2i (F64.mul (i2f creator'.SubscriberCount) (F64.fin r)) with hb
  have hbup : baseViews < 2 ^ 62 + 2 ^ 12 := baseViews_le h0 h1 hr0 hr1
  obtain ⟨hb2, hdiv⟩ := tdiv_two_pos hpos
  rw [hdiv] at hj1
  have hjb : jitter < baseViews := by omega
  have hview : viewCount = baseViews + jitter := by
    rw [hv]
    exact wrap64_of_range (by omega) (by omega)
  have hv1 : 1 ≤ viewCount := by omega
  have hv2 : viewCount < 2 ^ 63 := by omega
  obtain ⟨kk, hkk, hdraw⟩ := Float64_fst r3
  obtain ⟨frac, hfrac, hf0, hf1⟩ := likeFraction_range hkk
  rw [hdraw, hfrac] at hl
  refine ⟨?_, by omega, baseViews, jitter, frac, rfl, hj0, by rw [hdiv]; exact hj1, hview, hf0,
    hf1, hl⟩
  rw [hl]
  exact likeCount_lt hv1 hv2 (by linarith) hf1

/-- C1 (the engine is not total): after drift has lowered the subscriber count
the call `rng.Intn(baseViews/2)` is reached with `baseViews/2 = 0` and panics.
(1) Whenever `int(float64(subscribers) * rate)` is below 2 the engagement
block panics.  (2) With one creator, all random draws 0 and a clock advancing
one day per reading, `NewPlatformSimulator` followed by 19 calls of
`GenerateCreatorUpdates` succeeds and leaves the creator with 39 subscribers
(from 100) at engagement rate 0.05, so that `baseViews = int(1.95) = 1`; the
call of `GenerateContent` that follows panics. -/
theorem C1_panic_after_drift :
    (∀ (n : Int) (rate : F64) (rng : Rng), f2i (F64.mul (i2f n) rate) < 2 →
      engagement n rate rng = none) ∧
    (demo 1 (List.replicate 19 Call.updates)).isSome = true ∧
    (demo 1 (List.replicate 19 Call.updates)).map
      (fun p => p.1.creators.map Creator.SubscriberCount) = some [39] ∧
    f2i (F64.mul (i2f 39) (lit (5 / 100))) = 1 ∧
    ((demo 1 (List.replicate 19 Call.updates)).bind
      fun p => GenerateContent p.1 p.2.1).isNone = true := by
  refine ⟨?_, by decide!, by decide!, by decide!, by decide!⟩
  intro n rate rng h
  unfold engagement
  have hdiv : Int.tdiv (f2i (F64.mul (i2f n) rate)) 2 ≤ 0 := by
    by_contra hpos
    have := (tdiv_two_pos (not_le.mp hpos)).1
    omega
  simp only [Rng.Intn, if_pos hdiv, Option.bind_eq_bind, Option.none_bind]

/-- C5 at a concrete input: category "fitness", kind "image", and a random
source whose draws are 3, 4, 5, 6. -/
theorem C5_generateTags_witness :
    "fitness" ∈ CreatorCategories ∧ "image" ∈ ContentTypes ∧
    ∃ tags rng', generateTags "fitness" "image" { src := fun k => k + 3, pos := 0 } =
        some (tags, rng') ∧
      "fitness" ∈ tags ∧ "image" ∈ tags ∧ tags.Nodup ∧ 2 ≤ tags.length ∧ tags.length ≤ 5 :=
  ⟨by decide, by decide,
    C5_generateTags "fitness" "image" { src := fun k => k + 3, pos := 0 } (by decide) (by decide)⟩

/-- C8 at a concrete input: `demoState` has activity level 0.2, hence a base
interval of 38 hours; at the first reading of `dayClock` no time has elapsed
since the last post, and `GenerateContent` returns the empty sequence and
leaves the state as it is. -/
theorem C8_hard_floor_veto_witness :
    demoState.activityLevels[0]? = some (lit (2 / 10)) ∧ demoState.lastPostTimes[0]? = some 0 ∧
    baseInterval (lit (2 / 10)) = 38 * Hour ∧
    GenerateContent demoState dayClock = some ([], demoState, (dayClock.since 0).2) :=
  ⟨rfl, rfl, by decide!,
    (C8_hard_floor_veto demoState dayClock 0 (lit (2 / 10)) 0 rfl rfl).2.2.2 (by decide!) rfl rfl⟩

/-- C9 at a concrete input: the record `demoState` yields is of kind "image"
and its media URL ends in ".jpg". -/
theorem C9_media_url_witness :
    ∃ c s' clk', generateCreatorContent demoState dayClock 0 = some (c, s', clk') ∧
      c.ContentType ∈ ContentTypes ∧
      (c.ContentType = "text" → c.MediaURL = "") ∧
      (c.ContentType = "image" ∨ c.ContentType = "gallery" →
        c.MediaURL ≠ "" ∧ ∃ p, c.MediaURL = p ++ ".jpg") ∧
      (c.ContentType = "video" ∨ c.ContentType = "live" →
        c.MediaURL ≠ "" ∧ ∃ p, c.MediaURL = p ++ ".mp4") := by
  obtain ⟨⟨c, s', clk'⟩, h⟩ := Option.isSome_iff_exists.mp
    (show (generateCreatorContent demoState dayClock 0).isSome = true by decide!)
  exact ⟨c, s', clk', h, C9_media_url demoState dayClock 0 c s' clk' h⟩

/-- C10 at a concrete input: the record `demoState` yields. -/
theorem C10_price_witness :
    ∃ c s' clk', generateCreatorContent demoState dayClock 0 = some (c, s', clk') ∧
      (c.IsLocked = false → c.Price = F64.fin 0) ∧
      (c.IsLocked = true →
        (∃ n : Int, 5 ≤ n ∧ n ≤ 29 ∧ c.Price = F64.add (i2f n) (lit (99 / 100))) ∧
        F64.le (lit (599 / 100)) c.Price = true ∧ F64.le c.Price (lit (2999 / 100)) = true ∧
        ∃ q : ℚ, c.Price = F64.fin q ∧ 599 / 100 ≤ q ∧ q ≤ 2999 / 100) := by
  obtain ⟨⟨c, s', clk'⟩, h⟩ := Option.isSome_iff_exists.mp
    (show (generateCreatorContent demoState dayClock 0).isSome = true by decide!)
  exact ⟨c, s', clk', h, C10_price demoState dayClock 0 c s' clk' h⟩

/-- The run `demo 2 demoCalls` completes: it returns four records and two
snapshots. -/
theorem demo_run :
    ∃ s clk s' clk' out,
      NewPlatformSimulator demoCapacity zeroGen dayClock 2 (F64.fin 0) = some (s, clk) ∧
      run demoCalls s clk { contents := [], creators := [] } = some (s', clk', out) ∧
      out.contents.length = 4 ∧ out.creators.length = 2 := by
  obtain ⟨⟨s', clk', out⟩, h⟩ := Option.isSome_iff_exists.mp
    (show (demo 2 demoCalls).isSome = true by decide!)
  have hlen : (demo 2 demoCalls).map (fun p => (p.2.2.contents.length, p.2.2.creators.length)) =
      some (4, 2) := by decide!
  rw [h] at hlen
  simp only [Option.map_some', Option.some.injEq, Prod.mk.injEq] at hlen
  unfold demo at h
  obtain ⟨⟨s, clk⟩, h1, h2⟩ := Option.bind_eq_some.mp h
  exact ⟨s, clk, s', clk', out, h1, h2, hlen.1, hlen.2⟩

/-- C3 at a concrete run: the two snapshots returned and the two creators
stored have subscriber counts of at least 0. -/
theorem C3_subscriber_count_nonneg_witness :
    ∃ s clk s' clk' out,
      NewPlatformSimulator demoCapacity zeroGen dayClock 2 (F64.fin 0) = some (s, clk) ∧
      run demoCalls s clk { contents := [], creators := [] } = some (s', clk', out) ∧
      out.creators.length = 2 ∧
      (∀ c ∈ s'.creators, 0 ≤ c.SubscriberCount) ∧ ∀ c ∈ out.creators, 0 ≤ c.SubscriberCount := by
  obtain ⟨s, clk, s', clk', out, h1, h2, -, h4⟩ := demo_run
  exact ⟨s, clk, s', clk', out, h1, h2, h4,
    C3_subscriber_count_nonneg.2.2.2 _ _ _ _ _ _ _ _ _ _ _ h1 h2⟩

/-- C4 at a concrete run: the two snapshots returned and the two creators
stored have monthly prices in range. -/
theorem C4_monthly_price_range_witness :
    ∃ s clk s' clk' out,
      NewPlatformSimulator demoCapacity zeroGen dayClock 2 (F64.fin 0) = some (s, clk) ∧
      run demoCalls s clk { contents := [], creators := [] } = some (s', clk', out) ∧
      out.creators.length = 2 ∧
      (∀ c ∈ s'.creators, priceInRange c.MonthlyPrice) ∧
      ∀ c ∈ out.creators, priceInRange c.MonthlyPrice := by
  obtain ⟨s, clk, s', clk', out, h1, h2, -, h4⟩ := demo_run
  exact ⟨s, clk, s', clk', out, h1, h2, h4,
    C4_monthly_price_range.2.2.2 _ _ _ _ _ _ _ _ _ _ _ h1 h2⟩

theorem f2i_range (x : F64) : -(2 ^ 63) ≤ f2i x ∧ f2i x < 2 ^ 63 := by
  cases x with
  | fin q =>
    unfold f2i
    simp only
    split
    · assumption
    · norm_num
  | pinf => unfold f2i; norm_num
  | ninf => unfold f2i; norm_num
  | nan => unfold f2i; norm_num

theorem driftSubscribers_lt (n : Int) (trend : F64) : driftSubscribers n trend < 2 ^ 63 := by
  unfold driftSubscribers
  simp only
  split
  · norm_num
  · exact (f2i_range _).2

theorem lit_rate_lo : lit (5 / 100) = F64.fin (3602879701896397 / 72057594037927936) := by
  decide!

theorem lit_rate_step : lit (15 / 100) = F64.fin (5404319552844595 / 36028797018963968) := by
  decide!

theorem lit_rate_hi : lit (20 / 100) = F64.fin (3602879701896397 / 18014398509481984) := by
  decide!

/-- The engagement rate `u * 0.15 + 0.05` that `NewPlatformSimulator` assigns
for a draw `u`: a `float64` from the constant 0.05 to the constant 0.20. -/
theorem initialRate_range {k : Nat} (hk : k < 2 ^ 63 - 512) :
    ∃ r : ℚ, F64.add (F64.mul (F64.fin (unitFloat k)) (lit (15 / 100))) (lit (5 / 100)) =
        F64.fin r ∧ 3602879701896397 / 72057594037927936 ≤ r ∧
      r ≤ 3602879701896397 / 18014398509481984 := by
  have hu0 := unitFloat_nonneg k
  have hu1 := unitFloat_le hk
  set u := unitFloat k with hu
  rw [lit_rate_lo, lit_rate_step]
  have hprod0 : 0 ≤ u * (5404319552844595 / 36028797018963968) := by positivity
  have hprod1 : u * (5404319552844595 / 36028797018963968) ≤
      9007199254740991 / 9007199254740992 * (5404319552844595 / 36028797018963968) :=
    mul_le_mul_of_nonneg_right hu1 (by norm_num)
  have hmul : F64.mul (F64.fin u) (F64.fin (5404319552844595 / 36028797018963968)) =
      F64.fin (rndQ (u * (5404319552844595 / 36028797018963968))) :=
    round64_of_nonneg hprod0 (le_trans hprod1 (by norm_num))
  rw [hmul]
  have ha0 := rndQ_nonneg hprod0
  have ha1 := rndQ_mono hprod1
  set a := rndQ (u * (5404319552844595 / 36028797018963968)) with ha
  have hamax : rndQ (9007199254740991 / 9007199254740992 *
      (5404319552844595 / 36028797018963968)) ≤ 1 := by decide!
  have hsum0 : (0 : ℚ) ≤ a + 3602879701896397 / 72057594037927936 := by positivity
  have hadd : F64.add (F64.fin a) (F64.fin (3602879701896397 / 72057594037927936)) =
      F64.fin (rndQ (a + 3602879701896397 / 72057594037927936)) :=
    round64_of_nonneg hsum0 (by
      have : (1 : ℚ) + 3602879701896397 / 72057594037927936 ≤ 2 ^ 100 := by norm_num
      linarith)
  rw [hadd]
  refine ⟨_, rfl, ?_, ?_⟩
  · have h1 : (3602879701896397 / 72057594037927936 : ℚ) ≤
        a + 3602879701896397 / 72057594037927936 := by linarith
    have h2 := rndQ_mono h1
    have h3 : rndQ (3602879701896397 / 72057594037927936) =
        3602879701896397 / 72057594037927936 := by decide!
    linarith
  · have h1 : a + 3602879701896397 / 72057594037927936 ≤
        rndQ (9007199254740991 / 9007199254740992 * (5404319552844595 / 36028797018963968)) +
          3602879701896397 / 72057594037927936 := by linarith
    have h2 := rndQ_mono h1
    have h3 : rndQ (rndQ (9007199254740991 / 9007199254740992 *
        (5404319552844595 / 36028797018963968)) + 3602879701896397 / 72057594037927936) ≤
        3602879701896397 / 18014398509481984 := by decide!
    linarith

theorem NewPlatformSimulator_engagementInv {capacity : Nat} {gen : Int → Nat → Nat} {clk : Clock}
    {numCreators : Int} {abnormalProb : F64} {s : PlatformSimulator} {clk' : Clock}
    (h : NewPlatformSimulator capacity gen clk numCreators abnormalProb = some (s, clk')) :
    EngagementInv s := by
  refine NewPlatformSimulator_inv (fun _ s => EngagementInv s) ?_ ?_ h
  · intro p r
    exact ⟨by simp, by simp⟩
  · intro baseTime i s clk s' clk' hI hs
    obtain ⟨creator, _, _, _, _, rate, _, rfl, -, ⟨n, hn0, hn1, hn⟩, -, -, -, -, ⟨k, hk, hrate⟩,
      -⟩ := initStep_eq hs
    constructor
    · intro c hc
      rcases List.mem_append.mp hc with hc | hc
      · exact hI.1 c hc
      · rw [List.mem_singleton.mp hc, hn]
        constructor
        · omega
        · have : (10100 : Int) < 2 ^ 63 := by norm_num
          omega
    · intro x hx
      rcases List.mem_append.mp hx with hx | hx
      · exact hI.2 x hx
      · rw [List.mem_singleton.mp hx, hrate]
        obtain ⟨r, hr, hr0, hr1⟩ := initialRate_range hk
        refine ⟨r, hr, ?_, ?_⟩
        · have : (0 : ℚ) ≤ 3602879701896397 / 72057594037927936 := by norm_num
          linarith
        · have : (3602879701896397 / 18014398509481984 : ℚ) ≤ 1 / 2 := by norm_num
          linarith

/-- C2: like count below view count, view count positive.  (1) In every
record that `generateCreatorContent` returns for a creator with a subscriber
count in the range of a non-negative `int64` and an engagement rate between 0
and 0.5, `LikeCount < ViewCount` and `ViewCount > 0`: the view count is
`baseViews` plus a draw in `[0, baseViews/2)`, and the like count is the
truncation of the `float64` product of the view count and a fraction in
`[0.10, 0.30)`.  (2) Every engine that `NewPlatformSimulator` returns is in
such a state and stays in it, so along every run of the engine every record
returned has `LikeCount < ViewCount` and `ViewCount > 0`. -/
theorem C2_likes_below_views :
    (∀ (s : PlatformSimulator) (clk : Clock) (i : Nat) (c : Content) (s' : PlatformSimulator)
        (clk' : Clock) (creator : Creator) (r : ℚ),
      generateCreatorContent s clk i = some (c, s', clk') →
      s.creators[i]? = some creator →
      0 ≤ creator.SubscriberCount → creator.SubscriberCount < 2 ^ 63 →
      s.engagementRates[i]? = some (F64.fin r) → 0 ≤ r → r ≤ 1 / 2 →
      c.LikeCount < c.ViewCount ∧ 0 < c.ViewCount ∧
      ∃ (baseViews jitter : Int) (frac : ℚ),
        baseViews = f2i (F64.mul (i2f creator.SubscriberCount) (F64.fin r)) ∧
        0 ≤ jitter ∧ jitter < Int.tdiv baseViews 2 ∧ c.ViewCount = baseViews + jitter ∧
        1 / 10 ≤ frac ∧ frac < 3 / 10 ∧
        c.LikeCount = f2i (F64.mul (i2f c.ViewCount) (F64.fin frac))) ∧
    (∀ capacity gen clk numCreators abnormalProb s clk' calls s' clk'' out,
      NewPlatformSimulator capacity gen clk numCreators abnormalProb = some (s, clk') →
      run calls s clk' { contents := [], creators := [] } = some (s', clk'', out) →
      ∀ c ∈ out.contents, c.LikeCount < c.ViewCount ∧ 0 < c.ViewCount) := by
  refine ⟨fun s clk i c s' clk' creator r h hcr h0 h1 hrate hr0 hr1 =>
    likes_below_views_step s clk i c s' clk' creator r h hcr h0 h1 hrate hr0 hr1, ?_⟩
  intro capacity gen clk numCreators abnormalProb s clk' calls s' clk'' out h hr
  have hI := NewPlatformSimulator_engagementInv h
  have := run_inv EngagementInv (fun _ => True)
    (fun c => c.LikeCount < c.ViewCount ∧ 0 < c.ViewCount) (fun _ _ h => h) ?_ ?_ calls s clk'
    { contents := [], creators := [] } s' clk'' out hI (by simp) (by simp) hr
  · exact this.2.2
  · intro s i c s1 hI hu
    refine ⟨?_, trivial⟩
    obtain ⟨old, trend, hold, -, hc, hs⟩ := generateCreatorUpdate_eq hu
    rw [hs]
    refine ⟨?_, hI.2⟩
    intro x hx
    rcases mem_set_cases hx with rfl | hx
    · rw [hc]
      exact ⟨driftSubscribers_nonneg _ _, driftSubscribers_lt _ _⟩
    · exact hI.1 x hx
  · intro s clk i oc s1 clk1 hI hstep
    obtain ⟨hf1, -, -, hf4, -⟩ := contentStep_frame hstep
    refine ⟨⟨by rw [hf1]; exact hI.1, by rw [hf4]; exact hI.2⟩, ?_⟩
    intro c hoc
    subst hoc
    obtain ⟨last, sp, r, -, -, hcase⟩ := contentStep_eq hstep
    rcases hcase with ⟨-, hoc, -, -⟩ | ⟨-, c1, sg, clkg, pc, hg, -, -, -, hoc, -, -⟩
    · exact Option.noConfusion hoc
    · have e : c = c1 := Option.some.inj hoc
      subst e
      obtain ⟨creator, _, _, _, _, rate, _, _, _, _, _, _, _, _, _, _, _, _, hcr, -, -, -, hrate,
        -⟩ := generateCreatorContent_eq hg
      simp only at hcr hrate
      obtain ⟨hc0, hc1⟩ := hI.1 creator (List.getElem?_mem hcr)
      obtain ⟨q, rfl, hq0, hq1⟩ := hI.2 rate (List.getElem?_mem hrate)
      have key := likes_below_views_step _ _ _ _ _ _ creator q hg hcr hc0 hc1 hrate hq0 hq1
      exact ⟨key.1, key.2.1⟩

/-- C2 at a concrete run: the four records of the run `demo 2 demoCalls` have
fewer likes than views and a positive view count. -/
theorem C2_likes_below_views_witness :
    ∃ s clk s' clk' out,
      NewPlatformSimulator demoCapacity zeroGen dayClock 2 (F64.fin 0) = some (s, clk) ∧
      run demoCalls s clk { contents := [], creators := [] } = some (s', clk', out) ∧
      out.contents.length = 4 ∧
      ∀ c ∈ out.contents, c.LikeCount < c.ViewCount ∧ 0 < c.ViewCount := by
  obtain ⟨s, clk, s', clk', out, h1, h2, h3, -⟩ := demo_run
  exact ⟨s, clk, s', clk', out, h1, h2, h3,
    C2_likes_below_views.2 _ _ _ _ _ _ _ _ _ _ _ h1 h2⟩

/-- Known values of binary64 arithmetic: the constant 0.1 is
`0x3FB999999999999A`, the sum `0.1 + 0.2` is `0.30000000000000004`, above the
constant 0.3, integers up to `2^53` are exact and `2^53 + 1` rounds to even. -/
theorem round64_examples :
    lit (1 / 10) = F64.fin (3602879701896397 / 2 ^ 55) ∧
    F64.add (lit (1 / 10)) (lit (2 / 10)) = F64.fin (5404319552844596 / 2 ^ 54) ∧
    F64.lt (lit (3 / 10)) (F64.add (lit (1 / 10)) (lit (2 / 10))) = true ∧
    i2f (2 ^ 53) = F64.fin (2 ^ 53) ∧ i2f (2 ^ 53 + 1) = F64.fin (2 ^ 53) ∧
    i2f (2 ^ 53 + 3) = F64.fin (2 ^ 53 + 4) ∧
    F64.mul (lit (2 ^ 1000)) (lit (2 ^ 1000)) = F64.pinf := by
  decide!

/-- The quotient `float64(k) / (1 << 63)` of a 63-bit integer `k` is 1 exactly
from `2^63 - 512` on: these are the integers `Float64` draws again for. -/
theorem unitFloat_eq_one_iff {k : Nat} (hk : k < 2 ^ 63) :
    unitFloat k = 1 ↔ 2 ^ 63 - 512 ≤ k := by
  constructor
  · intro h
    by_contra hlt
    have := unitFloat_le (not_le.mp hlt)
    rw [h] at this
    norm_num at this
  · intro h
    have h1 : (((2 ^ 63 - 512 : Nat)) : ℚ) ≤ (k : ℚ) := by exact_mod_cast h
    have h2 : (k : ℚ) ≤ (((2 ^ 63 - 1 : Nat)) : ℚ) := by
      exact_mod_cast (by omega : k ≤ 2 ^ 63 - 1)
    have lo : unitFloat (2 ^ 63 - 512) = 1 := by decide!
    have hi : unitFloat (2 ^ 63 - 1) = 1 := by decide!
    unfold unitFloat at lo hi ⊢
    have m1 := div_le_div_of_nonneg_right (rndQ_mono h1) (by positivity : (0 : ℚ) ≤ 2 ^ 63)
    have m2 := div_le_div_of_nonneg_right (rndQ_mono h2) (by positivity : (0 : ℚ) ≤ 2 ^ 63)
    rw [lo] at m1
    rw [hi] at m2
    exact le_antisymm m2 m1

theorem lit_level_step : lit (8 / 10) = F64.fin (3602879701896397 / 4503599627370496) := by
  decide!

theorem lit_one : lit 1 = F64.fin 1 := by decide!

/-- The activity level `u * 0.8 + 0.2` that `NewPlatformSimulator` assigns for
a draw `u`: a `float64` from the constant 0.2 to 1. -/
theorem initialLevel_range {k : Nat} (hk : k < 2 ^ 63 - 512) :
    ∃ a : ℚ, F64.add (F64.mul (F64.fin (unitFloat k)) (lit (8 / 10))) (lit (2 / 10)) =
        F64.fin a ∧ 3602879701896397 / 18014398509481984 ≤ a ∧ a ≤ 1 := by
  have hu0 := unitFloat_nonneg k
  have hu1 := unitFloat_le hk
  set u := unitFloat k with hu
  rw [lit_level_step, lit_fifth]
  have hprod0 : 0 ≤ u * (3602879701896397 / 4503599627370496) := by positivity
  have hprod1 : u * (3602879701896397 / 4503599627370496) ≤
      9007199254740991 / 9007199254740992 * (3602879701896397 / 4503599627370496) :=
    mul_le_mul_of_nonneg_right hu1 (by norm_num)
  have hmul : F64.mul (F64.fin u) (F64.fin (3602879701896397 / 4503599627370496)) =
      F64.fin (rndQ (u * (3602879701896397 / 4503599627370496))) :=
    round64_of_nonneg hprod0 (le_trans hprod1 (by norm_num))
  rw [hmul]
  have ha0 := rndQ_nonneg hprod0
  have ha1 := rndQ_mono hprod1
  set a := rndQ (u * (3602879701896397 / 4503599627370496)) with ha
  have hamax : rndQ (9007199254740991 / 9007199254740992 *
      (3602879701896397 / 4503599627370496)) ≤ 1 := by decide!
  have hsum0 : (0 : ℚ) ≤ a + 3602879701896397 / 18014398509481984 := by positivity
  have hadd : F64.add (F64.fin a) (F64.fin (3602879701896397 / 18014398509481984)) =
      F64.fin (rndQ (a + 3602879701896397 / 18014398509481984)) :=
    round64_of_nonneg hsum0 (by
      have : (1 : ℚ) + 3602879701896397 / 18014398509481984 ≤ 2 ^ 100 := by norm_num
      linarith)
  rw [hadd]
  refine ⟨_, rfl, ?_, ?_⟩
  · have h1 : (3602879701896397 / 18014398509481984 : ℚ) ≤
        a + 3602879701896397 / 18014398509481984 := by linarith
    have h2 := rndQ_mono h1
    have h3 : rndQ (3602879701896397 / 18014398509481984) =
        3602879701896397 / 18014398509481984 := by decide!
    linarith
  · have h1 : a + 3602879701896397 / 18014398509481984 ≤
        rndQ (9007199254740991 / 9007199254740992 * (3602879701896397 / 4503599627370496)) +
          3602879701896397 / 18014398509481984 := by linarith
    have h2 := rndQ_mono h1
    have h3 : rndQ (rndQ (9007199254740991 / 9007199254740992 *
        (3602879701896397 / 4503599627370496)) + 3602879701896397 / 18014398509481984) ≤
        1 := by decide!
    linarith

/-- The activity levels and engagement rates `NewPlatformSimulator` assigns
are in range, one of each for each creator. -/
theorem NewPlatformSimulator_ranges {capacity : Nat} {gen : Int → Nat → Nat} {clk : Clock}
    {numCreators : Int} {abnormalProb : F64} {s : PlatformSimulator} {clk' : Clock}
    (h : NewPlatformSimulator capacity gen clk numCreators abnormalProb = some (s, clk')) :
    (∀ a ∈ s.activityLevels, levelInRange a) ∧ (∀ r ∈ s.engagementRates, rateInRange r) := by
  refine NewPlatformSimulator_inv
    (fun _ s => (∀ a ∈ s.activityLevels, levelInRange a) ∧
      (∀ r ∈ s.engagementRates, rateInRange r)) ?_ ?_ h
  · intro p r
    exact ⟨by simp, by simp⟩
  · intro baseTime i s clk s' clk' hI hs
    obtain ⟨creator, _, level, _, _, rate, _, rfl, -, -, -, -, ⟨k1, hk1, hlevel⟩, -,
      ⟨k2, hk2, hrate⟩, -⟩ := initStep_eq hs
    constructor
    · intro x hx
      rcases List.mem_append.mp hx with hx | hx
      · exact hI.1 x hx
      · rw [List.mem_singleton.mp hx, hlevel]
        obtain ⟨a, ha, ha0, ha1⟩ := initialLevel_range hk1
        rw [ha]
        unfold levelInRange
        rw [lit_fifth, lit_one]
        simp only [F64.le, decide_eq_true_eq]
        exact ⟨ha0, ha1⟩
    · intro x hx
      rcases List.mem_append.mp hx with hx | hx
      · exact hI.2 x hx
      · rw [List.mem_singleton.mp hx, hrate]
        obtain ⟨r, hr, hr0, hr1⟩ := initialRate_range hk2
        rw [hr]
        unfold rateInRange
        rw [lit_rate_lo, lit_rate_hi]
        simp only [F64.le, decide_eq_true_eq]
        exact ⟨hr0, hr1⟩

/-- What a drift update leaves as it is. -/
theorem generateCreatorUpdate_frame {s : PlatformSimulator} {i : Nat} {c : Creator}
    {s' : PlatformSimulator} (h : generateCreatorUpdate s i = some (c, s')) :
    s'.activityLevels = s.activityLevels ∧ s'.engagementRates = s.engagementRates ∧
    s'.creators.length = s.creators.length ∧ s'.contentCounts = s.contentCounts ∧
    s'.lastPostTimes = s.lastPostTimes ∧ s'.abnormalActivityProb = s.abnormalActivityProb := by
  obtain ⟨old, trend, -, -, -, hs⟩ := generateCreatorUpdate_eq h
  rw [hs]
  exact ⟨rfl, rfl, by simp, rfl, rfl, rfl⟩

theorem contentStep_sameLevels {s0 s : PlatformSimulator} {clk : Clock} {i : Nat}
    {oc : Option Content} {s' : PlatformSimulator} {clk' : Clock} (hI : SameLevels s0 s)
    (h : contentStep s clk i = some (oc, s', clk')) : SameLevels s0 s' := by
  obtain ⟨h1, -, h3, h4, -⟩ := contentStep_frame h
  exact ⟨by rw [h3]; exact hI.1, by rw [h4]; exact hI.2.1, by rw [h1]; exact hI.2.2⟩

theorem generateCreatorUpdate_sameLevels {s0 s : PlatformSimulator} {i : Nat} {c : Creator}
    {s' : PlatformSimulator} (hI : SameLevels s0 s)
    (h : generateCreatorUpdate s i = some (c, s')) : SameLevels s0 s' := by
  obtain ⟨h1, h2, h3, -⟩ := generateCreatorUpdate_frame h
  exact ⟨by rw [h1]; exact hI.1, by rw [h2]; exact hI.2.1, by rw [h3]; exact hI.2.2⟩

/-- C13: activity level and engagement rate never change after
initialization.  (1) A completed `GenerateContent` and (2) a completed
`GenerateCreatorUpdates` leave every activity level, every engagement rate and
the number of creators as they are, for every state, random source and clock.
(3) `NewPlatformSimulator` assigns activity levels between the `float64`
constants 0.2 and 1.0 and engagement rates between the `float64` constants
0.05 and 0.20.  (4) Along every run from `NewPlatformSimulator` the activity
levels, the engagement rates and the number of creators are those of the
engine as it was returned, hence in these ranges. -/
theorem C13_levels_and_rates_fixed :
    (∀ s clk cs s' clk', GenerateContent s clk = some (cs, s', clk') →
      s'.activityLevels = s.activityLevels ∧ s'.engagementRates = s.engagementRates ∧
      s'.creators.length = s.creators.length) ∧
    (∀ s us s', GenerateCreatorUpdates s = some (us, s') →
      s'.activityLevels = s.activityLevels ∧ s'.engagementRates = s.engagementRates ∧
      s'.creators.length = s.creators.length) ∧
    (∀ capacity gen clk numCreators abnormalProb s clk',
      NewPlatformSimulator capacity gen clk numCreators abnormalProb = some (s, clk') →
      (∀ a ∈ s.activityLevels, levelInRange a) ∧ (∀ r ∈ s.engagementRates, rateInRange r) ∧
      s.activityLevels.length = numCreators.toNat ∧
      s.engagementRates.length = numCreators.toNat) ∧
    (∀ capacity gen clk numCreators abnormalProb s clk' calls s' clk'' out,
      NewPlatformSimulator capacity gen clk numCreators abnormalProb = some (s, clk') →
      run calls s clk' { contents := [], creators := [] } = some (s', clk'', out) →
      s'.activityLevels = s.activityLevels ∧ s'.engagementRates = s.engagementRates ∧
      s'.creators.length = s.creators.length ∧
      (∀ a ∈ s'.activityLevels, levelInRange a) ∧ ∀ r ∈ s'.engagementRates, rateInRange r) := by
  refine ⟨?_, ?_, ?_, ?_⟩
  · intro s clk cs s' clk' h
    exact (contentLoop_inv (SameLevels s) (fun _ => True)
      (fun s1 clk1 i oc s2 clk2 hI hstep => ⟨contentStep_sameLevels hI hstep, fun _ _ => trivial⟩)
      s.creators.length 0 s clk [] cs s' clk' ⟨rfl, rfl, rfl⟩ (by simp) h).1
  · intro s us s' h
    exact (updatesLoop_inv (SameLevels s) (fun _ => True) (fun s1 r hI => hI)
      (fun s1 i c s2 hI hu => ⟨generateCreatorUpdate_sameLevels hI hu, trivial⟩)
      s.creators.length 0 s [] us s' ⟨rfl, rfl, rfl⟩ (by simp) h).1
  · intro capacity gen clk numCreators abnormalProb s clk' h
    obtain ⟨-, -, h3, -, -, h6, -⟩ := NewPlatformSimulator_wellFormed h
    exact ⟨(NewPlatformSimulator_ranges h).1, (NewPlatformSimulator_ranges h).2, h3, h6⟩
  · intro capacity gen clk numCreators abnormalProb s clk' calls s' clk'' out h hr
    have hsame := (run_inv (SameLevels s) (fun _ => True) (fun _ => True) (fun s1 r hI => hI)
      (fun s1 i c s2 hI hu => ⟨generateCreatorUpdate_sameLevels hI hu, trivial⟩)
      (fun s1 clk1 i oc s2 clk2 hI hstep => ⟨contentStep_sameLevels hI hstep, fun _ _ => trivial⟩)
      calls s clk' { contents := [], creators := [] } s' clk'' out ⟨rfl, rfl, rfl⟩ (by simp)
      (by simp) hr).1
    obtain ⟨e1, e2, e3⟩ := hsame
    refine ⟨e1, e2, e3, ?_, ?_⟩
    · rw [e1]; exact (NewPlatformSimulator_ranges h).1
    · rw [e2]; exact (NewPlatformSimulator_ranges h).2

/-- C13 at a concrete run: the run `demo 2 demoCalls` leaves the two activity
levels and the two engagement rates as they were, and in range. -/
theorem C13_levels_and_rates_fixed_witness :
    ∃ s clk s' clk' out,
      NewPlatformSimulator demoCapacity zeroGen dayClock 2 (F64.fin 0) = some (s, clk) ∧
      run demoCalls s clk { contents := [], creators := [] } = some (s', clk', out) ∧
      s.activityLevels.length = 2 ∧
      s'.activityLevels = s.activityLevels ∧ s'.engagementRates = s.engagementRates ∧
      s'.creators.length = s.creators.length ∧
      (∀ a ∈ s'.activityLevels, levelInRange a) ∧ ∀ r ∈ s'.engagementRates, rateInRange r := by
  obtain ⟨s, clk, s', clk', out, h1, h2, -, -⟩ := demo_run
  exact ⟨s, clk, s', clk', out, h1, h2,
    (C13_levels_and_rates_fixed.2.2.1 _ _ _ _ _ _ _ h1).2.2.1,
    C13_levels_and_rates_fixed.2.2.2 _ _ _ _ _ _ _ _ _ _ _ h1 h2⟩

theorem lit_two : lit 2 = F64.fin 2 := by decide!

theorem lit_fortysix : lit 46 = F64.fin 46 := by decide!

theorem truncQ_of_nonneg {q : ℚ} (h : 0 ≤ q) : truncQ q = ⌊q⌋ := by
  unfold truncQ
  rw [if_pos h]

/-- For an activity level from the constant 0.2 to 1 the base interval is a
whole number of hours, from 2 to 38. -/
theorem baseInterval_whole_hours {q : ℚ} (h0 : 3602879701896397 / 18014398509481984 ≤ q)
    (h1 : q ≤ 1) : ∃ h : Int, 2 ≤ h ∧ h ≤ 38 ∧ baseInterval (F64.fin q) = h * Hour := by
  unfold baseInterval
  rw [lit_one, lit_two, lit_fortysix]
  have hd0 : (0 : ℚ) ≤ 1 - q := by linarith
  have hd1 : 1 - q ≤ 1 - 3602879701896397 / 18014398509481984 := by linarith
  have hsub : F64.sub (F64.fin 1) (F64.fin q) = F64.fin (rndQ (1 - q)) := by
    show round64 (1 + -q) = F64.fin (rndQ (1 - q))
    rw [← sub_eq_add_neg]
    exact round64_of_nonneg hd0 (le_trans hd1 (by norm_num))
  rw [hsub]
  have ha0 := rndQ_nonneg hd0
  have ha1 := rndQ_mono hd1
  have hamax : rndQ (1 - 3602879701896397 / 18014398509481984) ≤ 1 := by decide!
  set a := rndQ (1 - q) with ha
  have hp0 : (0 : ℚ) ≤ a * 46 := by positivity
  have hp1 : a * 46 ≤ rndQ (1 - 3602879701896397 / 18014398509481984) * 46 := by linarith
  have hmul : F64.mul (F64.fin a) (F64.fin 46) = F64.fin (rndQ (a * 46)) :=
    round64_of_nonneg hp0 (by
      have : (1 : ℚ) * 46 ≤ 2 ^ 100 := by norm_num
      linarith)
  rw [hmul]
  have hb0 := rndQ_nonneg hp0
  have hb1 := rndQ_mono hp1
  have hbmax : rndQ (rndQ (1 - 3602879701896397 / 18014398509481984) * 46) ≤ 37 := by decide!
  set b := rndQ (a * 46) with hb
  have hs0 : (2 : ℚ) ≤ 2 + b := by linarith
  have hs1 : 2 + b ≤ 2 + rndQ (rndQ (1 - 3602879701896397 / 18014398509481984) * 46) := by
    linarith
  have hadd : F64.add (F64.fin 2) (F64.fin b) = F64.fin (rndQ (2 + b)) :=
    round64_of_nonneg (by linarith) (by
      have : (2 : ℚ) + 37 ≤ 2 ^ 100 := by norm_num
      linarith)
  rw [hadd]
  have hc0 := rndQ_mono hs0
  have hc1 := rndQ_mono hs1
  have htwo : rndQ 2 = 2 := by decide!
  have hcmax : rndQ (2 + rndQ (rndQ (1 - 3602879701896397 / 18014398509481984) * 46)) < 39 := by
    decide!
  set c := rndQ (2 + b) with hc
  have hcnn : (0 : ℚ) ≤ c := by linarith
  have hfl0 : (2 : Int) ≤ ⌊c⌋ := Int.le_floor.mpr (by push_cast; linarith)
  have hfl1 : ⌊c⌋ < 39 := Int.floor_lt.mpr (by push_cast; linarith)
  have hf : f2i (F64.fin c) = ⌊c⌋ := by
    unfold f2i
    simp only [truncQ_of_nonneg hcnn]
    rw [if_pos]
    constructor <;> omega
  rw [hf]
  refine ⟨⌊c⌋, hfl0, by omega, ?_⟩
  apply wrap64_of_range
  · unfold Hour; omega
  · unfold Hour; omega

/-- C14: the base interval of `shouldCreatorPost` is NOT the interpolation
`2h + (1 - level) * 46h`: the conversion `time.Duration(...)` truncates the
number of hours to an integer before the multiplication by `time.Hour`.
(1) At activity level 0.2 (the `float64` constant, which `NewPlatformSimulator`
assigns on a draw of 0) the base interval is 38 hours, the interpolation 38.8
hours; (2) at level 0.99 it is 2 hours, the interpolation 2.46 hours.  (3) For
every activity level from the constant 0.2 to 1 the base interval is a whole
number of hours from 2 to 38.  (4) Seen from outside: a creator of level 0.2
whose last post is 19 hours old is not vetoed (the answer is `true` when the
draws are 0), although half the interpolated interval is 19.4 hours. -/
theorem C14_base_interval_whole_hours :
    (baseInterval (lit (2 / 10)) = 38 * Hour ∧
      linearInterval (2 / 10) = 139680000000000 ∧
      (baseInterval (lit (2 / 10)) : ℚ) ≠ linearInterval (2 / 10)) ∧
    (baseInterval (lit (99 / 100)) = 2 * Hour ∧
      linearInterval (99 / 100) = 8856000000000 ∧
      (baseInterval (lit (99 / 100)) : ℚ) ≠ linearInterval (99 / 100)) ∧
    (∀ q : ℚ, 3602879701896397 / 18014398509481984 ≤ q → q ≤ 1 →
      ∃ h : Int, 2 ≤ h ∧ h ≤ 38 ∧ baseInterval (F64.fin q) = h * Hour) ∧
    ((shouldCreatorPost demoState 0 (19 * Hour)).map (fun p => p.1) = some true ∧
      ((19 * Hour : Int) : ℚ) < linearInterval (2 / 10) / 2) := by
  refine ⟨⟨by decide!, by decide!, by decide!⟩, ⟨by decide!, by decide!, by decide!⟩, ?_,
    by decide!, by decide!⟩
  intro q h0 h1
  exact baseInterval_whole_hours h0 h1

/-- A configuration that `Load` returns has passed every check. -/
theorem Load_ok {env : String → Option String} {atoi : String → Option Int}
    {parseFloat : String → Option F64} {cfg : Config}
    (h : Load env atoi parseFloat = Except.ok cfg) :
    cfg.NumCreators = getEnvAsInt env atoi "NUM_CREATORS" 10 ∧
    cfg.AbnormalProbability =
      getEnvAsFloat env parseFloat "ABNORMAL_PROBABILITY" (lit (8 / 10)) ∧
    0 < cfg.NumCreators ∧ 100 ≤ cfg.IntervalMs ∧
    F64.lt cfg.AbnormalProbability (lit 0) = false ∧
    F64.gt cfg.AbnormalProbability (lit 1) = false := by
  unfold Load at h
  simp only at h
  split at h
  · simp at h
  · rename_i h1
    split at h
    · simp at h
    · rename_i h2
      split at h
      · simp at h
      · rename_i h3
        split at h
        · simp at h
        · split at h
          · simp at h
          · simp only [Except.ok.injEq] at h
            subst h
            simp only [Bool.or_eq_true, not_or, Bool.not_eq_true] at h3
            exact ⟨rfl, rfl, not_le.mp h1, not_lt.mp h2, h3.1, h3.2⟩

/-- The engine `NewPlatformSimulator` returns stores the probability it was
given. -/
theorem NewPlatformSimulator_prob {capacity : Nat} {gen : Int → Nat → Nat} {clk : Clock}
    {numCreators : Int} {abnormalProb : F64} {s : PlatformSimulator} {clk' : Clock}
    (h : NewPlatformSimulator capacity gen clk numCreators abnormalProb = some (s, clk')) :
    s.abnormalActivityProb = abnormalProb := by
  obtain ⟨-, hl⟩ := NewPlatformSimulator_eq h
  exact initLoop_inv _ (fun _ s => s.abnormalActivityProb = abnormalProb)
    (fun i s clk s' clk' hI hs => by
      obtain ⟨_, _, _, _, _, _, _, rfl, -⟩ := initStep_eq hs
      exact hI) _ 0 _ _ _ _ rfl hl

/-- What `Load` rejects: a population size of 0 or less, and then (the
interval being in range) a probability below 0 or above 1. -/
theorem Load_rejects (env : String → Option String) (atoi : String → Option Int)
    (parseFloat : String → Option F64) :
    (getEnvAsInt env atoi "NUM_CREATORS" 10 ≤ 0 →
      Load env atoi parseFloat = Except.error "NUM_CREATORS must be greater than 0") ∧
    (0 < getEnvAsInt env atoi "NUM_CREATORS" 10 →
      100 ≤ getEnvAsInt env atoi "INTERVAL_MS" 1000 →
      (F64.lt (getEnvAsFloat env parseFloat "ABNORMAL_PROBABILITY" (lit (8 / 10))) (lit 0) = true ∨
        F64.gt (getEnvAsFloat env parseFloat "ABNORMAL_PROBABILITY" (lit (8 / 10))) (lit 1) = true) →
      Load env atoi parseFloat = Except.error "ABNORMAL_PROBABILITY must be between 0 and 1") := by
  constructor
  · intro h
    unfold Load
    simp only [if_pos h]
  · intro h1 h2 h3
    unfold Load
    simp only [if_neg (not_le.mpr h1), if_neg (not_lt.mpr h2)]
    rw [if_pos]
    simpa only [Bool.or_eq_true] using h3

/-- Increments that wrap around compose. -/
theorem wrap64_succ (x : Int) : wrap64 (wrap64 x + 1) = wrap64 (x + 1) := by
  unfold wrap64
  omega

/-- Fewer than `2^64` increments do not lead back to the same counter. -/
theorem wrap64_add_ne {k : Int} {t : Nat} (h0 : 0 < t) (h1 : t < 2 ^ 64) :
    wrap64 (k + t) ≠ k := by
  unfold wrap64
  omega

theorem contentStep_contentInv {n : Nat} {s : PlatformSimulator} {clk : Clock} {i : Nat}
    {oc : Option Content} {s' : PlatformSimulator} {clk' : Clock} {E : List Content}
    (hI : ContentInv n s E) (h : contentStep s clk i = some (oc, s', clk')) :
    ContentInv n s' (E ++ oc.toList) := by
  intro hlen
  rw [List.length_append] at hlen
  obtain ⟨hwf, hnd, hE⟩ := hI (by omega)
  have hwf' := contentStep_wellFormed hwf h
  cases oc with
  | none =>
    obtain ⟨last, sp, r, -, -, hcase⟩ := contentStep_eq h
    rcases hcase with ⟨-, -, rfl, -⟩ | ⟨-, c1, sg, clkg, pc, hg, -, -, -, hoc, -, -⟩
    · simp only [Option.toList, List.append_nil]
      exact ⟨hwf', hnd, hE⟩
    · exact Option.noConfusion hoc
  | some c =>
    obtain ⟨creator, postCount, hcr, hcnt, hid, -, hset, hnew⟩ := contentStep_emit h
    have hcid : creator.ID = "creator-" ++ fmtNat i := hwf.2.2.2.2.2.2 i creator hcr
    rw [hcid] at hid
    simp only [Option.toList, List.length_singleton] at hlen ⊢
    refine ⟨hwf', ?_, ?_⟩
    · rw [List.map_append, List.nodup_append]
      refine ⟨hnd, by simp, ?_⟩
      intro a ha hb
      simp only [List.map_cons, List.map_nil, List.mem_singleton] at hb
      obtain ⟨e, he, hea⟩ := List.mem_map.mp ha
      obtain ⟨j, k, t, hj, hjc, ht0, ht1⟩ := hE e he
      rw [← hea, hj, hid] at hb
      obtain ⟨e1, e2⟩ := contentID_injective hb
      rw [e1, hcnt, e2] at hjc
      exact wrap64_add_ne ht0 (by omega) (Option.some.inj hjc).symm
    · intro e he
      rw [List.length_append, List.length_singleton]
      rcases List.mem_append.mp he with he | he
      · obtain ⟨j, k, t, hj, hjc, ht0, ht1⟩ := hE e he
        by_cases hij : i = j
        · subst hij
          rw [hcnt] at hjc
          have e3 : postCount = wrap64 (k + t) := Option.some.inj hjc
          refine ⟨i, k, t + 1, hj, ?_, by omega, by omega⟩
          rw [hnew, e3, wrap64_succ]
          push_cast
          rw [add_assoc]
        · refine ⟨j, k, t, hj, ?_, ht0, by omega⟩
          rw [hset, List.getElem?_set_ne hij]
          exact hjc
      · rw [List.mem_singleton] at he
        subst he
        exact ⟨i, postCount, 1, hid, by rw [hnew]; rfl, by omega, by omega⟩

/-- C6: content identifiers are unique for the lifetime of a run, up to the
`2^64` values of the post counter.  (1) An iteration of `GenerateContent` that
emits a record builds its identifier from the identifier of the creator and
the post counter of that creator as it is before the iteration, and leaves the
counter incremented by one, with the wrap-around of an `int`: by exactly one
for a counter below the largest `int`.  (2) Along every run of calls of
`GenerateContent` and `GenerateCreatorUpdates` from `NewPlatformSimulator` that
has returned at most `2^64` records, the records returned have pairwise
different identifiers, whether of one creator or of different creators. -/
theorem C6_content_ids_unique :
    (∀ s clk i c s' clk', contentStep s clk i = some (some c, s', clk') →
      ∃ creator postCount, s.creators[i]? = some creator ∧
        s.contentCounts[i]? = some postCount ∧
        c.ID = "content-" ++ creator.ID ++ "-" ++ fmtInt postCount ∧
        s'.contentCounts[i]? = some (wrap64 (postCount + 1)) ∧
        (-(2 ^ 63) ≤ postCount → postCount < 2 ^ 63 - 1 →
          s'.contentCounts[i]? = some (postCount + 1))) ∧
    (∀ capacity gen clk numCreators abnormalProb s clk' calls s' clk'' out,
      NewPlatformSimulator capacity gen clk numCreators abnormalProb = some (s, clk') →
      run calls s clk' { contents := [], creators := [] } = some (s', clk'', out) →
      out.contents.length ≤ 2 ^ 64 →
      (out.contents.map Content.ID).Nodup ∧
      ∀ (a b : Nat) (x y : Content), out.contents[a]? = some x → out.contents[b]? = some y →
        a ≠ b → x.ID ≠ y.ID) := by
  constructor
  · intro s clk i c s' clk' h
    obtain ⟨creator, postCount, h1, h2, h3, -, -, h4⟩ := contentStep_emit h
    refine ⟨creator, postCount, h1, h2, h3, h4, ?_⟩
    intro hlo hhi
    rw [h4]
    congr 1
    unfold wrap64
    omega
  · intro capacity gen clk numCreators abnormalProb s clk' calls s' clk'' out h hr hbound
    have h0 : ContentInv numCreators.toNat s [] :=
      fun _ => ⟨NewPlatformSimulator_wellFormed h, by simp, by simp⟩
    have hfin := run_contents_inv (ContentInv numCreators.toNat) ?_ ?_ ?_ calls s clk'
      { contents := [], creators := [] } s' clk'' out h0 hr hbound
    · refine ⟨hfin.2.1, ?_⟩
      intro a b x y hx hy hab he
      have hnd := hfin.2.1
      rw [List.nodup_iff_getElem?_ne_getElem?] at hnd
      have ha : a < out.contents.length := (List.getElem?_eq_some.mp hx).1
      have hb : b < out.contents.length := (List.getElem?_eq_some.mp hy).1
      rcases Nat.lt_or_gt_of_ne hab with hlt | hlt
      · refine hnd a b hlt (by simpa using hb) ?_
        rw [List.getElem?_map, List.getElem?_map, hx, hy, Option.map_some', Option.map_some', he]
      · refine hnd b a hlt (by simpa using ha) ?_
        rw [List.getElem?_map, List.getElem?_map, hx, hy, Option.map_some', Option.map_some', he]
    · intro s r E hI
      exact hI
    · intro s i c s1 E hI hu hlen
      obtain ⟨hwf, hnd, hE⟩ := hI hlen
      refine ⟨generateCreatorUpdate_wellFormed hwf hu, hnd, ?_⟩
      obtain ⟨old, trend, -, -, -, hs⟩ := generateCreatorUpdate_eq hu
      rw [hs]
      exact hE
    · intro s clk i oc s1 clk1 E hI hstep
      exact contentStep_contentInv hI hstep

/-- C6 at a concrete run: the four records returned, two of each creator,
have pairwise different identifiers. -/
theorem C6_content_ids_unique_witness :
    ∃ s clk s' clk' out,
      NewPlatformSimulator demoCapacity zeroGen dayClock 2 (F64.fin 0) = some (s, clk) ∧
      run demoCalls s clk { contents := [], creators := [] } = some (s', clk', out) ∧
      out.contents.length = 4 ∧ (out.contents.map Content.ID).Nodup := by
  obtain ⟨s, clk, s', clk', out, h1, h2, h3, -⟩ := demo_run
  exact ⟨s, clk, s', clk', out, h1, h2, h3,
    (C6_content_ids_unique.2 _ _ _ _ _ _ _ _ _ _ _ h1 h2 (by rw [h3]; norm_num)).1⟩

/-- The wrap-around of the post counter: from the largest `int` the counter
goes to the smallest, and the identifier built from it is negative. -/
theorem postCount_wraps :
    wrap64 (9223372036854775807 + 1) = -9223372036854775808 ∧
    fmtInt (wrap64 (9223372036854775807 + 1)) = "-9223372036854775808" := by
  constructor <;> decide!

/-- C7, as the code has it: for the population size 2000000000000, which is
above 0, `NewPlatformSimulator` panics in `make` (the slice of creators would
take more than `maxAlloc` bytes), whatever the memory of the machine, so that
no record is returned. -/
theorem C7_panics_beyond_make_limit :
    (0 : Int) < 2000000000000 ∧ maxAlloc < creatorSize * 2000000000000 ∧
    (NewPlatformSimulator largeCapacity zeroGen dayClock 2000000000000 (F64.fin 0)).isSome =
      false ∧
    (NewPlatformSimulator demoCapacity zeroGen dayClock 2000000000000 (F64.fin 0)).isSome =
      false := by
  refine ⟨by decide, by decide!, by decide!, by decide!⟩

/-- C7 amended: for every population size `N > 0` that `make` admits (the slice
of creators takes at most `maxAlloc` bytes) and for which the machine has
memory, and every probability, `NewPlatformSimulator` returns an engine, and
`GetCreators` called on it returns exactly `N` records; the record at index `i`
has the identifier `creator-i`, and records at different indices have
different identifiers. -/
theorem C7_initial_creators (capacity : Nat) (gen : Int → Nat → Nat) (clk : Clock)
    (numCreators : Int) (abnormalProb : F64) (hN : 0 < numCreators)
    (hsize : creatorSize * numCreators ≤ maxAlloc) (hcap : numCreators ≤ capacity) :
    ∃ s clk', NewPlatformSimulator capacity gen clk numCreators abnormalProb = some (s, clk') ∧
      ((GetCreators s).length : Int) = numCreators ∧
      (∀ i c, (GetCreators s)[i]? = some c → c.ID = "creator-" ++ fmtNat i) ∧
      (∀ (i j : Nat) (c d : Creator), (GetCreators s)[i]? = some c →
        (GetCreators s)[j]? = some d → i ≠ j → c.ID ≠ d.ID) ∧
      ((GetCreators s).map Creator.ID).Nodup := by
  obtain ⟨s, clk', h⟩ :=
    @NewPlatformSimulator_isSome capacity gen clk numCreators abnormalProb (le_of_lt hN) hsize hcap
  obtain ⟨h1, -, -, -, -, -, h7⟩ := NewPlatformSimulator_wellFormed h
  have hpair : ∀ (i j : Nat) (c d : Creator), s.creators[i]? = some c →
      s.creators[j]? = some d → i ≠ j → c.ID ≠ d.ID := by
    intro i j c d hc hd hij he
    rw [h7 i c hc, h7 j d hd] at he
    exact hij (creatorID_injective he)
  refine ⟨s, clk', h, ?_, h7, hpair, ?_⟩
  · show (s.creators.length : Int) = numCreators
    rw [h1]
    omega
  · show (s.creators.map Creator.ID).Nodup
    rw [List.nodup_iff_getElem?_ne_getElem?]
    intro i j hij hj he
    rw [List.length_map] at hj
    have hi : i < s.creators.length := by omega
    rw [List.getElem?_map, List.getElem?_map, List.getElem?_eq_getElem hi,
      List.getElem?_eq_getElem hj] at he
    simp only [Option.map_some', Option.some.injEq] at he
    exact hpair i j _ _ (List.getElem?_eq_getElem hi) (List.getElem?_eq_getElem hj)
      (by omega) he

/-- C7 amended at a concrete input: three creators, all draws 0. -/
theorem C7_initial_creators_witness :
    (0 : Int) < 3 ∧ creatorSize * 3 ≤ maxAlloc ∧ (3 : Int) ≤ demoCapacity ∧
    ∃ s clk', NewPlatformSimulator demoCapacity zeroGen dayClock 3 (F64.fin 0) = some (s, clk') ∧
      ((GetCreators s).length : Int) = 3 ∧
      (∀ i c, (GetCreators s)[i]? = some c → c.ID = "creator-" ++ fmtNat i) ∧
      (∀ (i j : Nat) (c d : Creator), (GetCreators s)[i]? = some c →
        (GetCreators s)[j]? = some d → i ≠ j → c.ID ≠ d.ID) ∧
      ((GetCreators s).map Creator.ID).Nodup :=
  ⟨by decide, by decide!, by decide!,
    C7_initial_creators demoCapacity zeroGen dayClock 3 (F64.fin 0) (by decide) (by decide!)
      (by decide!)⟩

/-- C11, as the code has it: `NewPlatformSimulator` takes population size 0
and probabilities outside `[0,1]` (2, -1 and `NaN`) and returns an engine that
the calls of `demoCalls` run on; with population size 0 the engine has no
creator. -/
theorem C11_engine_accepts_out_of_range :
    (demo 0 demoCalls).isSome = true ∧
    (NewPlatformSimulator demoCapacity zeroGen dayClock 0 (F64.fin 0)).map
      (fun p => p.1.creators.length) = some 0 ∧
    ((NewPlatformSimulator demoCapacity zeroGen dayClock 1 (F64.fin 2)).bind fun p =>
      run demoCalls p.1 p.2 { contents := [], creators := [] }).isSome = true ∧
    ((NewPlatformSimulator demoCapacity zeroGen dayClock 1 (F64.fin (-1))).bind fun p =>
      run demoCalls p.1 p.2 { contents := [], creators := [] }).isSome = true ∧
    ((NewPlatformSimulator demoCapacity zeroGen dayClock 1 F64.nan).bind fun p =>
      run demoCalls p.1 p.2 { contents := [], creators := [] }).isSome = true ∧
    F64.gt (F64.fin 2) (lit 1) = true ∧ F64.lt (F64.fin (-1)) (lit 0) = true := by
  refine ⟨by decide!, by decide!, by decide!, by decide!, by decide!, by decide!, by decide!⟩

/-- C11 amended: out-of-range parameters are rejected by `config.Load`, before
the engine is made, and not by `NewPlatformSimulator`.  (1) `Load` reports the
error "NUM_CREATORS must be greater than 0" when the population size read is 0
or less, and "ABNORMAL_PROBABILITY must be between 0 and 1" when the population
size and the interval pass and the probability read is below 0 or above 1.
(2) A configuration that `Load` returns has a population size above 0 and a
probability neither below 0 nor above 1; when `make` admits the population
size and the machine has memory for it, `NewPlatformSimulator` returns an
engine for it.  (3) `NewPlatformSimulator` checks nothing: for every
population size of 0 or more that `make` admits and the machine has memory
for, and every probability, it returns an engine with that many creators,
which stores the probability as given; (4) for a negative population size, and
for one beyond the limit of `make` or the memory of the machine, it panics.
(5) With no variable set `Load` returns the configuration with 10 creators.
(6) `Load` sets no upper limit: it returns the population size 2000000000000,
on which `NewPlatformSimulator` panics. -/
theorem C11_load_rejects_engine_accepts :
    (∀ env atoi parseFloat,
      (getEnvAsInt env atoi "NUM_CREATORS" 10 ≤ 0 →
        Load env atoi parseFloat = Except.error "NUM_CREATORS must be greater than 0") ∧
      (0 < getEnvAsInt env atoi "NUM_CREATORS" 10 →
        100 ≤ getEnvAsInt env atoi "INTERVAL_MS" 1000 →
        (F64.lt (getEnvAsFloat env parseFloat "ABNORMAL_PROBABILITY" (lit (8 / 10))) (lit 0)
            = true ∨
          F64.gt (getEnvAsFloat env parseFloat "ABNORMAL_PROBABILITY" (lit (8 / 10))) (lit 1)
            = true) →
        Load env atoi parseFloat =
          Except.error "ABNORMAL_PROBABILITY must be between 0 and 1")) ∧
    (∀ env atoi parseFloat cfg, Load env atoi parseFloat = Except.ok cfg →
      0 < cfg.NumCreators ∧ F64.lt cfg.AbnormalProbability (lit 0) = false ∧
      F64.gt cfg.AbnormalProbability (lit 1) = false ∧
      ∀ (capacity : Nat) gen clk, creatorSize * cfg.NumCreators ≤ maxAlloc →
        cfg.NumCreators ≤ capacity → ∃ s clk',
          NewPlatformSimulator capacity gen clk cfg.NumCreators cfg.AbnormalProbability =
            some (s, clk') ∧
          s.creators.length = cfg.NumCreators.toNat ∧
          s.abnormalActivityProb = cfg.AbnormalProbability) ∧
    (∀ (capacity : Nat) gen clk (numCreators : Int) abnormalProb, 0 ≤ numCreators →
      creatorSize * numCreators ≤ maxAlloc → numCreators ≤ capacity → ∃ s clk',
        NewPlatformSimulator capacity gen clk numCreators abnormalProb = some (s, clk') ∧
        s.creators.length = numCreators.toNat ∧ s.abnormalActivityProb = abnormalProb) ∧
    (∀ (capacity : Nat) gen clk (numCreators : Int) abnormalProb,
      (numCreators < 0 ∨ maxAlloc < creatorSize * numCreators ∨
        (capacity : Int) < numCreators) →
      NewPlatformSimulator capacity gen clk numCreators abnormalProb = none) ∧
    (Load emptyEnv (fun _ => none) (fun _ => none)).toOption.map (fun c => c.NumCreators) =
      some 10 ∧
    ((Load bigEnv bigAtoi (fun _ => none)).toOption.map (fun c => c.NumCreators) =
        some 2000000000000 ∧
      ((Load bigEnv bigAtoi (fun _ => none)).toOption.bind fun c =>
        NewPlatformSimulator largeCapacity zeroGen dayClock c.NumCreators
          c.AbnormalProbability).isSome = false) := by
  have hnew : ∀ (capacity : Nat) gen clk (numCreators : Int) abnormalProb, 0 ≤ numCreators →
      creatorSize * numCreators ≤ maxAlloc → numCreators ≤ capacity → ∃ s clk',
        NewPlatformSimulator capacity gen clk numCreators abnormalProb = some (s, clk') ∧
        s.creators.length = numCreators.toNat ∧ s.abnormalActivityProb = abnormalProb := by
    intro capacity gen clk numCreators abnormalProb hn hsize hcap
    obtain ⟨s, clk', h⟩ := NewPlatformSimulator_isSome gen clk abnormalProb hn hsize hcap
    exact ⟨s, clk', h, (NewPlatformSimulator_wellFormed h).1, NewPlatformSimulator_prob h⟩
  refine ⟨fun env atoi parseFloat => Load_rejects env atoi parseFloat, ?_, hnew, ?_, by decide!,
    by decide!, by decide!⟩
  · intro env atoi parseFloat cfg h
    obtain ⟨-, -, h3, -, h5, h6⟩ := Load_ok h
    exact ⟨h3, h5, h6, fun capacity gen clk hsize hcap =>
      hnew capacity gen clk _ _ (le_of_lt h3) hsize hcap⟩
  · intro capacity gen clk numCreators abnormalProb hn
    exact NewPlatformSimulator_eq_none gen clk abnormalProb hn

theorem AgreeOn.mono {α : Type} {lo hi lo' hi' : Nat} {f g : Nat → α} (h : AgreeOn lo hi f g)
    (hlo : lo ≤ lo') (hhi : hi' ≤ hi) : AgreeOn lo' hi' f g :=
  fun k h1 h2 => h k (le_trans hlo h1) (lt_of_lt_of_le h2 hhi)

theorem RngLocal_pure {α : Type} (a : α) : RngLocal (fun r => some (a, r)) := by
  intro r b r' h
  simp only [Option.some.injEq, Prod.mk.injEq] at h
  obtain ⟨rfl, rfl⟩ := h
  exact ⟨le_refl _, rfl, fun src2 _ => rfl⟩

theorem RngLocal_Intn (n : Int) : RngLocal (fun r => r.Intn n) := by
  intro r a r' h
  obtain ⟨hn, -, -, rfl⟩ := Intn_eq_some h
  refine ⟨Nat.le_succ _, rfl, ?_⟩
  intro src2 hA
  have e := hA r.pos (le_refl _) (Nat.lt_succ_self _)
  simp only [Rng.Intn, if_neg (not_le.mpr hn), Option.some.injEq, Prod.mk.injEq] at h ⊢
  simp only [Rng.withSrc, e, h.1, and_self]

theorem RngLocal_Float64 : RngLocal (fun r => some r.Float64) := by
  intro r a r' h
  simp only [Rng.Float64, Option.some.injEq, Prod.mk.injEq] at h
  obtain ⟨rfl, rfl⟩ := h
  refine ⟨Nat.le_succ _, rfl, ?_⟩
  intro src2 hA
  have e := hA r.pos (le_refl _) (Nat.lt_succ_self _)
  simp only [Rng.Float64, Rng.withSrc, e]

theorem RngLocal_bind {α β : Type} {f : Rng → Option (α × Rng)} {g : α → Rng → Option (β × Rng)}
    (hf : RngLocal f) (hg : ∀ a, RngLocal (g a)) :
    RngLocal (fun r => (f r).bind fun p => g p.1 p.2) := by
  intro r b r' h
  simp only [Option.bind_eq_some, Prod.exists] at h
  obtain ⟨a, r1, h1, h2⟩ := h
  obtain ⟨p1, s1, l1⟩ := hf r a r1 h1
  obtain ⟨p2, s2, l2⟩ := hg a r1 b r' h2
  refine ⟨le_trans p1 p2, s2.trans s1, ?_⟩
  intro src2 hA
  have e1 := l1 src2 (hA.mono (le_refl _) p2)
  have e2 := l2 src2 (by rw [s1]; exact hA.mono p1 (le_refl _))
  simp only [e1, Option.some_bind, e2]

theorem RngLocal_of_eq {α : Type} {f g : Rng → Option (α × Rng)} (h : ∀ r, f r = g r)
    (hg : RngLocal g) : RngLocal f := by
  have : f = g := funext h
  rw [this]
  exact hg

/-- A step that consumes no draw and may panic. -/
theorem RngLocal_option {α : Type} (o : Option α) : RngLocal (fun r => o.map fun a => (a, r)) := by
  intro r b r' h
  cases o with
  | none => simp at h
  | some a =>
    simp only [Option.map_some', Option.some.injEq, Prod.mk.injEq] at h
    obtain ⟨rfl, rfl⟩ := h
    exact ⟨le_refl _, rfl, fun src2 _ => rfl⟩

/-- The draw of an entry of a table. -/
theorem pick_local {α : Type} (xs : List α) :
    RngLocal (fun r => (r.Intn xs.length).bind fun p => (idx xs p.1).map fun a => (a, p.2)) :=
  RngLocal_bind (f := fun r => r.Intn xs.length) (g := fun k r => (idx xs k).map fun a => (a, r))
    (RngLocal_Intn _) (fun _ => RngLocal_option _)

theorem generateContentTitle_local (contentType category : String) :
    RngLocal (generateContentTitle contentType category) := by
  cases ht : titles category with
  | none =>
    refine RngLocal_of_eq ?_ (pick_local ["New Post", "Update", "Fresh Content", "Latest"])
    intro r
    simp only [generateContentTitle, ht]
    cases r.Intn _ with
    | none => rfl
    | some p =>
      obtain ⟨k, r1⟩ := p
      simp only [Option.some_bind]
      cases idx _ k <;> rfl
  | some ts =>
    refine RngLocal_of_eq ?_ (pick_local ts)
    intro r
    simp only [generateContentTitle, ht]
    cases r.Intn _ with
    | none => rfl
    | some p =>
      obtain ⟨k, r1⟩ := p
      simp only [Option.some_bind]
      cases idx _ k <;> rfl

theorem generateContentDescription_local (contentType : String) :
    RngLocal (generateContentDescription contentType) := by
  refine RngLocal_of_eq ?_ (pick_local descriptions)
  intro r
  simp only [generateContentDescription]
  cases r.Intn _ with
  | none => rfl
  | some p =>
    obtain ⟨k, r1⟩ := p
    simp only [Option.some_bind]
    cases idx _ k <;> rfl

theorem generateTagsLoop_local (n : Nat) : ∀ baseTags, RngLocal (generateTagsLoop n baseTags) := by
  induction n with
  | zero =>
    intro baseTags
    exact RngLocal_of_eq (fun r => by simp only [generateTagsLoop]) (RngLocal_pure baseTags)
  | succ n ih =>
    intro baseTags
    have key := RngLocal_bind (f := fun r => r.Intn additionalTags.length)
      (g := fun k r => ((idx additionalTags k).map fun a => (a, r)).bind fun q =>
        generateTagsLoop n
          (if baseTags.any (fun existing => existing == q.1) then baseTags
            else baseTags ++ [q.1]) q.2)
      (RngLocal_Intn _)
      (fun k => RngLocal_bind (f := fun r => (idx additionalTags k).map fun a => (a, r))
        (g := fun tag r => generateTagsLoop n
          (if baseTags.any (fun existing => existing == tag) then baseTags
            else baseTags ++ [tag]) r)
        (RngLocal_option _) (fun tag => ih _))
    refine RngLocal_of_eq ?_ key
    intro r
    simp only [generateTagsLoop]
    cases r.Intn _ with
    | none => rfl
    | some p =>
      obtain ⟨k, r1⟩ := p
      simp only [Option.some_bind]
      cases idx additionalTags k <;> rfl

theorem generateTags_local (category contentType : String) :
    RngLocal (generateTags category contentType) := by
  have key := RngLocal_bind (f := fun r => r.Intn 4)
    (g := fun (k : Int) r => generateTagsLoop k.toNat [category, contentType] r)
    (RngLocal_Intn _) (fun k => generateTagsLoop_local _ _)
  refine RngLocal_of_eq ?_ key
  intro r
  unfold generateTags
  simp only
  cases r.Intn 4 with
  | none => rfl
  | some p => rfl

theorem RngLocal_ite {α : Type} (c : Prop) [Decidable c] {f g : Rng → Option (α × Rng)}
    (hf : RngLocal f) (hg : RngLocal g) : RngLocal (fun r => if c then f r else g r) := by
  by_cases hc : c
  · simp only [if_pos hc]
    exact hf
  · simp only [if_neg hc]
    exact hg

/-- A value computed from one `Float64` draw. -/
theorem RngLocal_ofFloat64 {α : Type} (v : F64 → α) :
    RngLocal (fun r => some (v r.Float64.1, r.Float64.2)) :=
  RngLocal_bind (f := fun r => some r.Float64) (g := fun u r => some (v u, r)) RngLocal_Float64
    (fun _ => RngLocal_pure _)

theorem engagement_local (subscriberCount : Int) (engagementRate : F64) :
    RngLocal (fun r => (engagement subscriberCount engagementRate r).map
      fun q => ((q.1, q.2.1), q.2.2)) := by
  have key := RngLocal_bind
    (f := fun r => r.Intn (Int.tdiv (f2i (F64.mul (i2f subscriberCount) engagementRate)) 2))
    (g := fun jitter r => some
      ((wrap64 (f2i (F64.mul (i2f subscriberCount) engagementRate) + jitter),
        f2i (F64.mul (i2f (wrap64 (f2i (F64.mul (i2f subscriberCount) engagementRate) + jitter)))
          (F64.add (lit (1 / 10)) (F64.mul r.Float64.1 (lit (2 / 10)))))), r.Float64.2))
    (RngLocal_Intn _)
    (fun jitter => RngLocal_ofFloat64 fun u =>
      (wrap64 (f2i (F64.mul (i2f subscriberCount) engagementRate) + jitter),
        f2i (F64.mul (i2f (wrap64 (f2i (F64.mul (i2f subscriberCount) engagementRate) + jitter)))
          (F64.add (lit (1 / 10)) (F64.mul u (lit (2 / 10)))))))
  refine RngLocal_of_eq ?_ key
  intro r
  simp only [engagement, Option.bind_eq_bind, Option.pure_def]
  cases r.Intn _ with
  | none => rfl
  | some p => rfl

theorem premium_local :
    RngLocal (fun r => (premium r).map fun q => ((q.1, q.2.1), q.2.2)) := by
  have key := RngLocal_bind (f := fun r => some r.Float64)
    (g := fun u r => if F64.lt u (lit (4 / 10)) = true then
      (r.Intn 25).bind fun p =>
        some ((F64.lt u (lit (4 / 10)), F64.add (i2f (p.1 + 5)) (lit (99 / 100))), p.2)
      else some ((F64.lt u (lit (4 / 10)), F64.fin 0), r))
    RngLocal_Float64
    (fun u => RngLocal_ite _
      (RngLocal_bind (f := fun r => r.Intn 25)
        (g := fun p r => some ((F64.lt u (lit (4 / 10)), F64.add (i2f (p + 5)) (lit (99 / 100))), r))
        (RngLocal_Intn _) (fun _ => RngLocal_pure _))
      (RngLocal_pure _))
  refine RngLocal_of_eq ?_ key
  intro r
  simp only [premium, Option.bind_eq_bind, Option.pure_def, Option.some_bind]
  split
  · cases r.Float64.2.Intn 25 with
    | none => rfl
    | some p => rfl
  · rfl

theorem driftOnline_local (isOnline : Bool) : RngLocal (fun r => some (driftOnline isOnline r)) :=
  RngLocal_of_eq (fun r => by simp only [driftOnline])
    (RngLocal_ofFloat64 fun u => if F64.lt u (lit (6 / 10)) = true then !isOnline else isOnline)

theorem driftPrice_local (monthlyPrice : F64) :
    RngLocal (fun r => some (driftPrice monthlyPrice r)) := by
  have key := RngLocal_bind (f := fun r => some r.Float64)
    (g := fun u r => if F64.lt u (lit (5 / 100)) = true then
      some (clamp (F64.add monthlyPrice (F64.mul (F64.sub r.Float64.1 (lit (1 / 2))) (lit 10)))
        (lit (499 / 100)) (lit (9999 / 100)), r.Float64.2)
      else some (monthlyPrice, r))
    RngLocal_Float64
    (fun u => RngLocal_ite _
      (RngLocal_ofFloat64 fun v =>
        clamp (F64.add monthlyPrice (F64.mul (F64.sub v (lit (1 / 2))) (lit 10)))
          (lit (499 / 100)) (lit (9999 / 100)))
      (RngLocal_pure _))
  refine RngLocal_of_eq ?_ key
  intro r
  simp only [driftPrice, Option.some_bind]
  split <;> rfl

theorem driftTrend_local (trend : F64) : RngLocal (fun r => some (driftTrend trend r)) := by
  have key := RngLocal_bind (f := fun r => some r.Float64)
    (g := fun u r => if F64.lt u (lit (1 / 10)) = true then
      some (clamp (F64.add trend (F64.mul (F64.sub r.Float64.1 (lit (1 / 2))) (lit (1 / 100))))
        (F64.neg (lit (5 / 100))) (lit (5 / 100)), r.Float64.2)
      else some (trend, r))
    RngLocal_Float64
    (fun u => RngLocal_ite _
      (RngLocal_ofFloat64 fun v =>
        clamp (F64.add trend (F64.mul (F64.sub v (lit (1 / 2))) (lit (1 / 100))))
          (F64.neg (lit (5 / 100))) (lit (5 / 100)))
      (RngLocal_pure _))
  refine RngLocal_of_eq ?_ key
  intro r
  simp only [driftTrend, Option.some_bind]
  split <;> rfl

theorem shouldCreatorPost_local (s : PlatformSimulator) (creatorIndex : Nat)
    (timeSincePost : Int) :
    RngLocal (fun r => shouldCreatorPost { s with rng := r } creatorIndex timeSincePost) := by
  cases hlevel : s.activityLevels[creatorIndex]? with
  | none =>
    intro r a r' h
    simp [shouldCreatorPost, hlevel] at h
  | some activityLevel =>
    have key := RngLocal_ite (timeSincePost < Int.tdiv (baseInterval activityLevel) 2)
      (RngLocal_pure false)
      (RngLocal_bind (f := fun r => some r.Float64)
        (g := fun u r => some (F64.lt r.Float64.1
          (if F64.lt u s.abnormalActivityProb = true then
            F64.mul (F64.div (i2f timeSincePost) (i2f (baseInterval activityLevel))) (lit 5)
          else F64.div (i2f timeSincePost) (i2f (baseInterval activityLevel))), r.Float64.2))
        RngLocal_Float64
        (fun u => RngLocal_ofFloat64 fun v => F64.lt v
          (if F64.lt u s.abnormalActivityProb = true then
            F64.mul (F64.div (i2f timeSincePost) (i2f (baseInterval activityLevel))) (lit 5)
          else F64.div (i2f timeSincePost) (i2f (baseInterval activityLevel)))))
    refine RngLocal_of_eq ?_ key
    intro r
    simp only [shouldCreatorPost, hlevel, Option.bind_eq_bind, Option.pure_def, Option.some_bind]

/-- What a local computation that has returned did to the random source. -/
theorem RngLocal.step {α : Type} {f : Rng → Option (α × Rng)} (hf : RngLocal f) {r : Rng} {a : α}
    {r' : Rng} (h : f r = some (a, r')) : r.pos ≤ r'.pos ∧ r'.src = r.src :=
  ⟨(hf r a r' h).1, (hf r a r' h).2.1⟩

/-- A local computation that has returned returns the same on a stream that
agrees on an interval containing the positions consumed. -/
theorem RngLocal.transfer {α : Type} {f : Rng → Option (α × Rng)} (hf : RngLocal f) {r : Rng}
    {a : α} {r' : Rng} (h : f r = some (a, r')) {o src2 : Nat → Nat} {lo hi : Nat}
    (hsrc : r.src = o) (hlo : lo ≤ r.pos) (hhi : r'.pos ≤ hi) (hA : AgreeOn lo hi o src2) :
    f (r.withSrc src2) = some (a, r'.withSrc src2) :=
  (hf r a r' h).2.2 src2 (by rw [hsrc]; exact hA.mono hlo hhi)

theorem map_reassoc_eq_some {α β γ : Type} {o : Option (α × β × γ)} {a : α} {b : β} {c : γ} :
    o.map (fun q => ((q.1, q.2.1), q.2.2)) = some ((a, b), c) ↔ o = some (a, b, c) := by
  cases o with
  | none => simp
  | some q =>
    obtain ⟨x, y, z⟩ := q
    simp only [Option.map_some', Option.some.injEq, Prod.mk.injEq]
    tauto

/-- What `generateCreatorContent` does to the random source and the clock,
and that it depends on no draw and no reading but those it consumes. -/
theorem generateCreatorContent_local {s : PlatformSimulator} {clk : Clock} {i : Nat} {c : Content}
    {s' : PlatformSimulator} {clk' : Clock}
    (h : generateCreatorContent s clk i = some (c, s', clk')) :
    s.rng.pos ≤ s'.rng.pos ∧ s'.rng.src = s.rng.src ∧ clk.pos ≤ clk'.pos ∧
    clk'.readings = clk.readings ∧
    ∀ src2 rd2, AgreeOn s.rng.pos s'.rng.pos s.rng.src src2 →
      AgreeOn clk.pos clk'.pos clk.readings rd2 →
      generateCreatorContent (s.withSrc src2) (clk.withReadings rd2) i =
        some (c, s'.withSrc src2, clk'.withReadings rd2) := by
  obtain ⟨creator, postCount, k, r1, contentType, rate, viewCount, likeCount, r2, isLocked, price,
    r3, tags, r4, title, r5, description, r6, h1, h2, h3, h4, h5, h6, h7, h8, h9, h10, hc, hs,
    hclk⟩ := generateCreatorContent_eq h
  have h6' := map_reassoc_eq_some.mpr h6
  have h7' := map_reassoc_eq_some.mpr h7
  obtain ⟨p1, s1⟩ := (RngLocal_Intn _).step h3
  obtain ⟨p2, s2⟩ := (engagement_local _ _).step h6'
  obtain ⟨p3, s3⟩ := premium_local.step h7'
  obtain ⟨p4, s4⟩ := (generateTags_local _ _).step h8
  obtain ⟨p5, s5⟩ := (generateContentTitle_local _ _).step h9
  obtain ⟨p6, s6⟩ := (generateContentDescription_local _).step h10
  subst hs hclk
  refine ⟨by simp only; omega, by simp only [s6, s5, s4, s3, s2, s1],
    by simp only [Clock.now]; omega, by simp only [Clock.now], ?_⟩
  intro src2 rd2 hA hB
  simp only at hA
  have e1 := (RngLocal_Intn _).transfer h3 rfl (le_refl _) (by omega) hA
  have e2 := map_reassoc_eq_some.mp ((engagement_local _ _).transfer h6' s1 (by omega) (by omega) hA)
  have e3 := map_reassoc_eq_some.mp
    (premium_local.transfer h7' (s2.trans s1) (by omega) (by omega) hA)
  have e4 := (generateTags_local _ _).transfer h8 (s3.trans (s2.trans s1)) (by omega) (by omega) hA
  have e5 := (generateContentTitle_local _ _).transfer h9 (s4.trans (s3.trans (s2.trans s1)))
    (by omega) (by omega) hA
  have e6 := (generateContentDescription_local _).transfer h10
    (s5.trans (s4.trans (s3.trans (s2.trans s1)))) (by omega) (by omega) hA
  have c1 := hB clk.pos (le_refl _) (by simp only [Clock.now]; omega)
  have c2 := hB (clk.pos + 1) (by omega) (by simp only [Clock.now]; omega)
  simp only [generateCreatorContent, PlatformSimulator.withSrc, h1, h2, h5, h4, e1, e2, e3, e4, e5,
    e6, hc, Option.bind_eq_bind, Option.some_bind, Option.pure_def, Clock.now,
    Clock.withReadings, c1, c2]

/-- What one iteration of the loop of `GenerateContent` does to the random
source and the clock, and that it depends on no draw and no reading but those
it consumes. -/
theorem contentStep_local {s : PlatformSimulator} {clk : Clock} {i : Nat} {oc : Option Content}
    {s' : PlatformSimulator} {clk' : Clock} (h : contentStep s clk i = some (oc, s', clk')) :
    s.rng.pos ≤ s'.rng.pos ∧ s'.rng.src = s.rng.src ∧ clk.pos ≤ clk'.pos ∧
    clk'.readings = clk.readings ∧
    ∀ src2 rd2, AgreeOn s.rng.pos s'.rng.pos s.rng.src src2 →
      AgreeOn clk.pos clk'.pos clk.readings rd2 →
      contentStep (s.withSrc src2) (clk.withReadings rd2) i =
        some (oc, s'.withSrc src2, clk'.withReadings rd2) := by
  obtain ⟨last, shouldPost, r, h1, h2, hcase⟩ := contentStep_eq h
  have h2' : (fun r => shouldCreatorPost { s with rng := r } i (clk.since last).1) s.rng =
      some (shouldPost, r) := h2
  obtain ⟨p1, s1⟩ := (shouldCreatorPost_local s i _).step h2'
  rcases hcase with ⟨hsp, hoc, hs, hclk⟩ | ⟨hsp, c, sg, clkg, postCount, hg, hpc, hl1, hl2, hoc, hs,
    hclk⟩
  · subst hsp hoc hs hclk
    refine ⟨p1, s1, by simp only [Clock.since]; omega, by simp only [Clock.since], ?_⟩
    intro src2 rd2 hA hB
    have e2 := (shouldCreatorPost_local s i _).transfer h2' rfl (le_refl _) (le_refl _) hA
    have c1 := hB clk.pos (le_refl _) (by simp only [Clock.since]; omega)
    simp only [PlatformSimulator.withSrc, Clock.since, Clock.withReadings] at e2 ⊢
    simp only [contentStep, h1, Clock.since, c1, e2, Option.bind_eq_bind, Option.some_bind,
      Option.pure_def, Bool.false_eq_true, if_false]
  · obtain ⟨q1, q2, q3, q4, loc⟩ := generateCreatorContent_local hg
    subst hsp hoc hs hclk
    simp only at q1 q2
    refine ⟨by simp only; omega, by simp only [q2, s1],
      by simp only [Clock.now, Clock.since] at q3 ⊢; omega,
      by simp only [Clock.now, q4, Clock.since], ?_⟩
    intro src2 rd2 hA hB
    simp only [Clock.now, Clock.since] at hB q3
    simp only at hA
    have e2 := (shouldCreatorPost_local s i _).transfer h2' rfl (le_refl _) (by omega) hA
    have c1 := hB clk.pos (le_refl _) (by omega)
    have q4' : clkg.readings = clk.readings := q4
    have c3 : rd2 clkg.pos = clkg.readings clkg.pos := by
      rw [q4']
      exact hB clkg.pos (by omega) (by omega)
    have e3 := loc src2 rd2 (by simp only; rw [s1]; exact hA.mono p1 (le_refl _))
      (by simp only [Clock.since]; exact hB.mono (by omega) (by omega))
    obtain ⟨_, _, _, _, _, _, _, _, _, _, _, _, _, _, _, _, _, _, -, -, -, -, -, -, -, -, -, -, -,
      hsg, -⟩ := generateCreatorContent_eq hg
    subst hsg
    simp only [PlatformSimulator.withSrc, Clock.since, Clock.withReadings, Rng.withSrc] at e2 e3 hpc ⊢
    simp only [contentStep, h1, Clock.since, Clock.now, c1, c3, q4, e2, e3, hpc,
      Option.bind_eq_bind, Option.some_bind, Option.pure_def, if_true, upd, hl1, hl2]

theorem Local_pure {α : Type} (a : α) : Local (fun s clk => some (a, s, clk)) := by
  intro s clk b s' clk' h
  simp only [Option.some.injEq, Prod.mk.injEq] at h
  obtain ⟨rfl, rfl, rfl⟩ := h
  exact ⟨le_refl _, rfl, le_refl _, rfl, fun src2 rd2 _ _ => rfl⟩

theorem Local_bind {α β : Type}
    {f : PlatformSimulator → Clock → Option (α × PlatformSimulator × Clock)}
    {g : α → PlatformSimulator → Clock → Option (β × PlatformSimulator × Clock)}
    (hf : Local f) (hg : ∀ a, Local (g a)) :
    Local (fun s clk => (f s clk).bind fun p => g p.1 p.2.1 p.2.2) := by
  intro s clk b s' clk' h
  simp only [Option.bind_eq_some, Prod.exists] at h
  obtain ⟨a, s1, clk1, h1, h2⟩ := h
  obtain ⟨p1, e1, q1, d1, l1⟩ := hf s clk a s1 clk1 h1
  obtain ⟨p2, e2, q2, d2, l2⟩ := hg a s1 clk1 b s' clk' h2
  refine ⟨le_trans p1 p2, e2.trans e1, le_trans q1 q2, d2.trans d1, ?_⟩
  intro src2 rd2 hA hB
  have k1 := l1 src2 rd2 (hA.mono (le_refl _) p2) (hB.mono (le_refl _) q2)
  have k2 := l2 src2 rd2 (by rw [e1]; exact hA.mono p1 (le_refl _))
    (by rw [d1]; exact hB.mono q1 (le_refl _))
  simp only [k1, Option.some_bind, k2]

theorem Local_of_eq {α : Type}
    {f g : PlatformSimulator → Clock → Option (α × PlatformSimulator × Clock)}
    (h : ∀ s clk, f s clk = g s clk) (hg : Local g) : Local f := by
  have : f = g := funext fun s => funext fun clk => h s clk
  rw [this]
  exact hg

theorem Local_ite {α : Type} (c : Prop) [Decidable c]
    {f g : PlatformSimulator → Clock → Option (α × PlatformSimulator × Clock)}
    (hf : Local f) (hg : Local g) : Local (fun s clk => if c then f s clk else g s clk) := by
  by_cases hc : c
  · simp only [if_pos hc]
    exact hf
  · simp only [if_neg hc]
    exact hg

/-- The loop of `GenerateContent` is local. -/
theorem contentLoop_local (n : Nat) : ∀ (i : Nat) (content : List Content),
    Local (fun s clk => contentLoop n i s clk content) := by
  induction n with
  | zero =>
    intro i content
    exact Local_of_eq (fun s clk => by simp only [contentLoop]) (Local_pure content)
  | succ n ih =>
    intro i content
    have key := Local_bind (f := fun s clk => contentStep s clk i)
      (g := fun oc s clk => contentLoop n (i + 1) s clk
        (match oc with
          | none => content
          | some c => content ++ [c]))
      (fun s clk a s' clk' h => contentStep_local h) (fun oc => ih (i + 1) _)
    refine Local_of_eq ?_ key
    intro s clk
    simp only [contentLoop]
    cases contentStep s clk i with
    | none => rfl
    | some p =>
      obtain ⟨oc, s1, clk1⟩ := p
      cases oc <;> rfl

theorem GenerateContent_local : Local GenerateContent := by
  intro s clk a s' clk' h
  exact contentLoop_local s.creators.length 0 [] s clk a s' clk' h

/-- What `generateCreatorUpdate` does to the random source, and that it
depends on no draw but those it consumes. -/
theorem generateCreatorUpdate_local {s : PlatformSimulator} {i : Nat} {c : Creator}
    {s' : PlatformSimulator} (h : generateCreatorUpdate s i = some (c, s')) :
    s.rng.pos ≤ s'.rng.pos ∧ s'.rng.src = s.rng.src ∧
    ∀ src2, AgreeOn s.rng.pos s'.rng.pos s.rng.src src2 →
      generateCreatorUpdate (s.withSrc src2) i = some (c, s'.withSrc src2) := by
  obtain ⟨old, trend, h1, h2, hc, hs⟩ := generateCreatorUpdate_eq h
  have l1 : i < s.creators.length := (List.getElem?_eq_some.mp h1).1
  have l2 : i < s.subscriberTrends.length := (List.getElem?_eq_some.mp h2).1
  have o1 : (fun r => some (driftOnline old.IsOnline r)) s.rng =
      some ((driftOnline old.IsOnline s.rng).1, (driftOnline old.IsOnline s.rng).2) := rfl
  have o2 : (fun r => some (driftPrice old.MonthlyPrice r)) (driftOnline old.IsOnline s.rng).2 =
      some ((driftPrice old.MonthlyPrice (driftOnline old.IsOnline s.rng).2).1,
        (driftPrice old.MonthlyPrice (driftOnline old.IsOnline s.rng).2).2) := rfl
  have o3 : (fun r => some (driftTrend trend r))
      (driftPrice old.MonthlyPrice (driftOnline old.IsOnline s.rng).2).2 =
      some ((driftTrend trend (driftPrice old.MonthlyPrice (driftOnline old.IsOnline s.rng).2).2).1,
        (driftTrend trend (driftPrice old.MonthlyPrice (driftOnline old.IsOnline s.rng).2).2).2) :=
    rfl
  obtain ⟨p1, s1⟩ := (driftOnline_local _).step o1
  obtain ⟨p2, s2⟩ := (driftPrice_local _).step o2
  obtain ⟨p3, s3⟩ := (driftTrend_local _).step o3
  subst hs
  refine ⟨by simp only; omega, by simp only [s3, s2, s1], ?_⟩
  intro src2 hA
  simp only at hA
  have e1 := Option.some.inj
    ((driftOnline_local _).transfer o1 rfl (le_refl _) (by omega) hA)
  have e2 := Option.some.inj
    ((driftPrice_local _).transfer o2 s1 (by omega) (by omega) hA)
  have e3 := Option.some.inj
    ((driftTrend_local _).transfer o3 (s2.trans s1) (by omega) (le_refl _) hA)
  simp only [generateCreatorUpdate, PlatformSimulator.withSrc, h1, h2, e1, e2, e3, hc, upd, l1, l2,
    Option.bind_eq_bind, Option.some_bind, Option.pure_def, if_true]

theorem generateCreatorUpdate_Local (i : Nat) :
    Local (fun s clk => (generateCreatorUpdate s i).map fun p => (p.1, p.2, clk)) := by
  intro s clk c s' clk' h
  simp only [Option.map_eq_some', Prod.mk.injEq, Prod.exists] at h
  obtain ⟨c1, s1, h1, rfl, rfl, rfl⟩ := h
  obtain ⟨p, e, l⟩ := generateCreatorUpdate_local h1
  refine ⟨p, e, le_refl _, rfl, ?_⟩
  intro src2 rd2 hA _
  simp only [l src2 hA, Option.map_some']

/-- A draw of `Float64` from the random source of the engine. -/
theorem drawFloat64_Local :
    Local (fun s clk => some (s.rng.Float64.1, { s with rng := s.rng.Float64.2 }, clk)) := by
  intro s clk u s' clk' h
  simp only [Option.some.injEq, Prod.mk.injEq] at h
  obtain ⟨rfl, rfl, rfl⟩ := h
  refine ⟨Nat.le_succ _, rfl, le_refl _, rfl, ?_⟩
  intro src2 rd2 hA _
  have e := hA s.rng.pos (le_refl _) (Nat.lt_succ_self _)
  simp only [Rng.Float64, PlatformSimulator.withSrc, Rng.withSrc, e]

/-- The loop of `GenerateCreatorUpdates` is local. -/
theorem updatesLoop_local (n : Nat) : ∀ (i : Nat) (updates : List Creator),
    Local (fun s clk => (updatesLoop n i s updates).map fun p => (p.1, p.2, clk)) := by
  induction n with
  | zero =>
    intro i updates
    exact Local_of_eq (fun s clk => by simp only [updatesLoop, Option.map_some'])
      (Local_pure updates)
  | succ n ih =>
    intro i updates
    have key := Local_bind
      (f := fun s clk => some (s.rng.Float64.1, { s with rng := s.rng.Float64.2 }, clk))
      (g := fun u s clk => if F64.lt u (lit (2 / 10)) = true then
        ((generateCreatorUpdate s i).map fun p => (p.1, p.2, clk)).bind fun q =>
          (updatesLoop n (i + 1) q.2.1 (updates ++ [q.1])).map fun p => (p.1, p.2, q.2.2)
        else (updatesLoop n (i + 1) s updates).map fun p => (p.1, p.2, clk))
      drawFloat64_Local
      (fun u => Local_ite _
        (Local_bind (f := fun s clk => (generateCreatorUpdate s i).map fun p => (p.1, p.2, clk))
          (g := fun c s clk => (updatesLoop n (i + 1) s (updates ++ [c])).map
            fun p => (p.1, p.2, clk))
          (generateCreatorUpdate_Local i) (fun c => ih (i + 1) _))
        (ih (i + 1) updates))
    refine Local_of_eq ?_ key
    intro s clk
    simp only [updatesLoop, Option.some_bind]
    split
    · cases generateCreatorUpdate _ i with
      | none => rfl
      | some p => rfl
    · rfl

theorem GenerateCreatorUpdates_local :
    Local (fun s clk => (GenerateCreatorUpdates s).map fun p => (p.1, p.2, clk)) := by
  intro s clk a s' clk' h
  exact updatesLoop_local s.creators.length 0 [] s clk a s' clk' h

/-- A run of the engine through a list of calls is local. -/
theorem run_local (calls : List Call) : ∀ out : Emitted,
    Local (fun s clk => (run calls s clk out).map fun p => (p.2.2, p.1, p.2.1)) := by
  induction calls with
  | nil =>
    intro out
    exact Local_of_eq (fun s clk => by simp only [run, Option.map_some']) (Local_pure out)
  | cons call calls ih =>
    intro out
    cases call with
    | content =>
      have key := Local_bind (f := GenerateContent)
        (g := fun cs s clk => (run calls s clk { out with contents := out.contents ++ cs }).map
          fun p => (p.2.2, p.1, p.2.1))
        GenerateContent_local (fun cs => ih _)
      refine Local_of_eq ?_ key
      intro s clk
      simp only [run]
      cases GenerateContent s clk with
      | none => rfl
      | some p => rfl
    | updates =>
      have key := Local_bind
        (f := fun s clk => (GenerateCreatorUpdates s).map fun p => (p.1, p.2, clk))
        (g := fun us s clk => (run calls s clk { out with creators := out.creators ++ us }).map
          fun p => (p.2.2, p.1, p.2.1))
        GenerateCreatorUpdates_local (fun us => ih _)
      refine Local_of_eq ?_ key
      intro s clk
      simp only [run]
      cases GenerateCreatorUpdates s with
      | none => rfl
      | some p => rfl

theorem Float64_withSrc {r : Rng} {src2 : Nat → Nat} (e : src2 r.pos = r.src r.pos) :
    (r.withSrc src2).Float64 = (r.Float64.1, r.Float64.2.withSrc src2) := by
  simp only [Rng.Float64, Rng.withSrc, e]

/-- What one iteration of the loop of `NewPlatformSimulator` does to the
random source and the clock, and that it depends on no draw and no reading but
those it consumes. -/
theorem initStep_local {baseTime : Int} {i : Nat} {s : PlatformSimulator} {clk : Clock}
    {s' : PlatformSimulator} {clk' : Clock} (h : initStep baseTime i s clk = some (s', clk')) :
    s.rng.pos ≤ s'.rng.pos ∧ s'.rng.src = s.rng.src ∧ clk.pos ≤ clk'.pos ∧
    clk'.readings = clk.readings ∧
    ∀ src2 rd2, AgreeOn s.rng.pos s'.rng.pos s.rng.src src2 →
      AgreeOn clk.pos clk'.pos clk.readings rd2 →
      initStep baseTime i (s.withSrc src2) (clk.withReadings rd2) =
        some (s'.withSrc src2, clk'.withReadings rd2) := by
  unfold initStep at h
  simp only [Option.bind_eq_bind, Option.bind_eq_some, Option.pure_def, Option.some.injEq,
    Prod.mk.injEq, Prod.exists] at h
  obtain ⟨n1, r1, h1, n2, r2, h2, n3, r3, h3, n4, r4, h4, category, h5, n5, r5, h6, n6, r6, h7,
    hs, hclk⟩ := h
  obtain ⟨-, -, -, x1⟩ := Intn_eq_some h1
  obtain ⟨-, -, -, x2⟩ := Intn_eq_some h2
  obtain ⟨-, -, -, x3⟩ := Intn_eq_some h3
  obtain ⟨-, -, -, x4⟩ := Intn_eq_some h4
  obtain ⟨-, -, -, x5⟩ := Intn_eq_some h6
  obtain ⟨-, -, -, x6⟩ := Intn_eq_some h7
  have P1 : r1.pos = s.rng.pos + 1 ∧ r1.src = s.rng.src := by rw [x1]; exact ⟨rfl, rfl⟩
  have P2 : r2.pos = s.rng.pos + 2 ∧ r2.src = s.rng.src := by
    rw [x2]; exact ⟨by simp only [P1.1], P1.2⟩
  have P3 : r3.pos = s.rng.pos + 4 ∧ r3.src = s.rng.src := by
    rw [x3]; exact ⟨by simp only [Rng.Float64, P2.1], P2.2⟩
  have P4 : r4.pos = s.rng.pos + 6 ∧ r4.src = s.rng.src := by
    rw [x4]; exact ⟨by simp only [Rng.Float64, P3.1], P3.2⟩
  have P5 : r5.pos = s.rng.pos + 8 ∧ r5.src = s.rng.src := by
    rw [x5]; exact ⟨by simp only [Rng.Float64, P4.1], P4.2⟩
  have P6 : r6.pos = s.rng.pos + 11 ∧ r6.src = s.rng.src := by
    rw [x6]; exact ⟨by simp only [Rng.Float64, P5.1], P5.2⟩
  subst hs hclk
  refine ⟨by simp only [P6.1]; omega, P6.2, by simp only [Clock.now]; omega,
    by simp only [Clock.now], ?_⟩
  intro src2 rd2 hA hB
  simp only [P6.1] at hA
  simp only [Clock.now] at hB
  have a : ∀ j, j < 11 → src2 (s.rng.pos + j) = s.rng.src (s.rng.pos + j) :=
    fun j hj => hA _ (by omega) (by omega)
  have c1 := hB clk.pos (le_refl _) (by omega)
  have e1 := (RngLocal_Intn _).transfer h1 rfl (le_refl _) (by omega) hA
  have e2 := (RngLocal_Intn _).transfer h2 P1.2 (by omega) (by omega) hA
  have f1 : (r2.withSrc src2).Float64 = (r2.Float64.1, r2.Float64.2.withSrc src2) :=
    Float64_withSrc (by rw [P2.1, P2.2]; exact a 2 (by omega))
  have e3 := (RngLocal_Intn _).transfer h3 (o := s.rng.src) P2.2
    (show s.rng.pos ≤ r2.Float64.2.pos by simp only [Rng.Float64, P2.1]; omega)
    (show r3.pos ≤ s.rng.pos + 11 by omega) hA
  have f2 : (r3.withSrc src2).Float64 = (r3.Float64.1, r3.Float64.2.withSrc src2) :=
    Float64_withSrc (by rw [P3.1, P3.2]; exact a 4 (by omega))
  have e4 := (RngLocal_Intn _).transfer h4 (o := s.rng.src) P3.2
    (show s.rng.pos ≤ r3.Float64.2.pos by simp only [Rng.Float64, P3.1]; omega)
    (show r4.pos ≤ s.rng.pos + 11 by omega) hA
  have f3 : (r4.withSrc src2).Float64 = (r4.Float64.1, r4.Float64.2.withSrc src2) :=
    Float64_withSrc (by rw [P4.1, P4.2]; exact a 6 (by omega))
  have e5 := (RngLocal_Intn _).transfer h6 (o := s.rng.src) P4.2
    (show s.rng.pos ≤ r4.Float64.2.pos by simp only [Rng.Float64, P4.1]; omega)
    (show r5.pos ≤ s.rng.pos + 11 by omega) hA
  have f4 : (r5.withSrc src2).Float64 = (r5.Float64.1, r5.Float64.2.withSrc src2) :=
    Float64_withSrc (by rw [P5.1, P5.2]; exact a 8 (by omega))
  have f5 : (r5.Float64.2.withSrc src2).Float64 =
      (r5.Float64.2.Float64.1, r5.Float64.2.Float64.2.withSrc src2) :=
    Float64_withSrc (by
      show src2 (r5.pos + 1) = r5.src (r5.pos + 1)
      rw [P5.1, P5.2]; exact a 9 (by omega))
  have e6 := (RngLocal_Intn _).transfer h7 (o := s.rng.src) P5.2
    (show s.rng.pos ≤ r5.Float64.2.Float64.2.pos by simp only [Rng.Float64, P5.1]; omega)
    (show r6.pos ≤ s.rng.pos + 11 by omega) hA
  simp only [initStep, PlatformSimulator.withSrc, e1, e2, f1, e3, f2, e4, h5, f3, e5, f4, f5, e6,
    Clock.now, Clock.withReadings, c1, Option.bind_eq_bind, Option.some_bind, Option.pure_def]

/-- The loop of `NewPlatformSimulator` is local. -/
theorem initLoop_local (baseTime : Int) : ∀ (n i : Nat) (s : PlatformSimulator) (clk : Clock)
    (s' : PlatformSimulator) (clk' : Clock), initLoop baseTime n i s clk = some (s', clk') →
    s.rng.pos ≤ s'.rng.pos ∧ s'.rng.src = s.rng.src ∧ clk.pos ≤ clk'.pos ∧
    clk'.readings = clk.readings ∧
    ∀ src2 rd2, AgreeOn s.rng.pos s'.rng.pos s.rng.src src2 →
      AgreeOn clk.pos clk'.pos clk.readings rd2 →
      initLoop baseTime n i (s.withSrc src2) (clk.withReadings rd2) =
        some (s'.withSrc src2, clk'.withReadings rd2) := by
  intro n
  induction n with
  | zero =>
    intro i s clk s' clk' h
    simp only [initLoop, Option.some.injEq, Prod.mk.injEq] at h
    obtain ⟨rfl, rfl⟩ := h
    exact ⟨le_refl _, rfl, le_refl _, rfl, fun src2 rd2 _ _ => by simp only [initLoop]⟩
  | succ n ih =>
    intro i s clk s' clk' h
    simp only [initLoop] at h
    split at h
    · simp at h
    · rename_i s1 clk1 hstep
      obtain ⟨p1, e1, q1, d1, l1⟩ := initStep_local hstep
      obtain ⟨p2, e2, q2, d2, l2⟩ := ih (i + 1) s1 clk1 s' clk' h
      refine ⟨le_trans p1 p2, e2.trans e1, le_trans q1 q2, d2.trans d1, ?_⟩
      intro src2 rd2 hA hB
      have k1 := l1 src2 rd2 (hA.mono (le_refl _) p2) (hB.mono (le_refl _) q2)
      have k2 := l2 src2 rd2 (by rw [e1]; exact hA.mono p1 (le_refl _))
        (by rw [d1]; exact hB.mono q1 (le_refl _))
      simp only [initLoop, k1, k2]

/-- `NewPlatformSimulator` depends on the generator only through the draws it
consumes from the stream of the seed, and on the clock only through the
readings it takes. -/
theorem NewPlatformSimulator_local {capacityA : Nat} (capacityB : Nat)
    {genA : Int → Nat → Nat} (genB : Int → Nat → Nat) {clkA : Clock} (clkB : Clock)
    {numCreators : Int} {abnormalProb : F64} {s : PlatformSimulator} {clk' : Clock}
    (h : NewPlatformSimulator capacityA genA clkA numCreators abnormalProb = some (s, clk'))
    (hcap : numCreators ≤ capacityB) (hpos : clkB.pos = clkA.pos)
    (hreadings : AgreeOn clkA.pos clk'.pos clkA.readings clkB.readings)
    (hdraws : AgreeOn 0 s.rng.pos (genA (clkA.readings clkA.pos))
      (genB (clkB.readings clkB.pos))) :
    s.rng.src = genA (clkA.readings clkA.pos) ∧ clkA.pos + 2 ≤ clk'.pos ∧
    clk'.readings = clkA.readings ∧
    NewPlatformSimulator capacityB genB clkB numCreators abnormalProb =
      some (s.withSrc (genB (clkB.readings clkB.pos)), clk'.withReadings clkB.readings) := by
  obtain ⟨hn, hl⟩ := NewPlatformSimulator_eq h
  obtain ⟨hsize, -⟩ := NewPlatformSimulator_bounds h
  obtain ⟨p, e, q, d, l⟩ := initLoop_local _ _ _ _ _ _ _ hl
  simp only [Clock.now] at p e q d
  refine ⟨e, q, d, ?_⟩
  have hB : clkB = clkA.withReadings clkB.readings := by
    cases clkB
    simp only [Clock.withReadings, Clock.mk.injEq, true_and]
    exact hpos
  have c2 := hreadings (clkA.pos + 1) (by omega) (by omega)
  have k := l (genB (clkB.readings clkB.pos)) clkB.readings
    (by simp only; exact hdraws) (by simp only [Clock.now]; exact hreadings.mono (by omega) (le_refl _))
  have hno : ¬(numCreators < 0 ∨ maxAlloc < creatorSize * numCreators ∨
      (capacityB : Int) < numCreators) := by
    rintro (h1 | h1 | h1)
    · exact absurd h1 (not_lt.mpr hn)
    · exact absurd h1 (not_lt.mpr hsize)
    · exact absurd h1 (not_lt.mpr hcap)
  unfold NewPlatformSimulator
  simp only [if_neg hno]
  rw [hB]
  simp only [Clock.now, Clock.withReadings, PlatformSimulator.withSrc, Rng.withSrc, c2, hpos]
    at k ⊢
  exact k

/-- C12, as the code has it: two runs with the same seed (both clocks read 0
when the generator is seeded, and all draws are 0), the same population size,
probability and calls, whose clocks differ afterwards, return different
sequences: under `dayClock` the one creator is made at the instant -29 days and
posts once, under `hourClock` the creator is made at -30 days + 1 hour and does
not post. -/
theorem C12_same_seed_different_runs :
    dayClock.now.1 = hourClock.now.1 ∧
    zeroGen dayClock.now.1 = zeroGen hourClock.now.1 ∧
    session demoCapacity zeroGen dayClock 1 (F64.fin 0) [Call.content, Call.updates] ≠
      session demoCapacity zeroGen hourClock 1 (F64.fin 0) [Call.content, Call.updates] ∧
    (session demoCapacity zeroGen dayClock 1 (F64.fin 0) [Call.content, Call.updates]).map
      (fun r => (r.1.map (fun c => c.CreatedAt), r.2.1.length, r.2.2.length)) =
      some ([24 * Hour - 30 * (24 * Hour)], 1, 1) ∧
    (session demoCapacity zeroGen hourClock 1 (F64.fin 0) [Call.content, Call.updates]).map
      (fun r => (r.1.map (fun c => c.CreatedAt), r.2.1.length, r.2.2.length)) =
      some ([Hour - 30 * (24 * Hour)], 0, 1) := by
  have h1 : (session demoCapacity zeroGen dayClock 1 (F64.fin 0) [Call.content, Call.updates]).map
      (fun r => (r.1.map (fun c => c.CreatedAt), r.2.1.length, r.2.2.length)) =
      some ([24 * Hour - 30 * (24 * Hour)], 1, 1) := by decide!
  have h2 : (session demoCapacity zeroGen hourClock 1 (F64.fin 0) [Call.content, Call.updates]).map
      (fun r => (r.1.map (fun c => c.CreatedAt), r.2.1.length, r.2.2.length)) =
      some ([Hour - 30 * (24 * Hour)], 0, 1) := by decide!
  refine ⟨by decide!, by unfold zeroGen; rfl, ?_, h1, h2⟩
  intro h
  rw [h, h2] at h1
  exact absurd h1 (by decide!)

/-- C12 amended: a run is determined by the draws and the clock readings it
consumes.  Let a run A (`NewPlatformSimulator`, then the calls `calls`) return,
having consumed the draws before position `s'.rng.pos` of the stream of its
generator at its seed (the first reading of its clock) and the clock readings
before position `clk'.pos`.  Then every run B with the same population size,
probability and calls, on a machine with memory for the population, whose
clock gives the same readings at the positions A consumed and whose generator
gives, at its own seed, the same draws at the positions A consumed, returns
the same creators after `NewPlatformSimulator` and the same contents and
creator snapshots as A, every field and timestamp included, whatever the later
draws and readings of B are.  The code has no seed parameter: the seed is the
clock reading `time.Now().UnixNano()`, and every timestamp is a clock
reading. -/
theorem C12_determinism (capacityA capacityB : Nat) (genA genB : Int → Nat → Nat)
    (clkA clkB : Clock) (numCreators : Int) (abnormalProb : F64) (calls : List Call)
    (s : PlatformSimulator) (clk : Clock) (s' : PlatformSimulator) (clk' : Clock) (out : Emitted)
    (hinit : NewPlatformSimulator capacityA genA clkA numCreators abnormalProb = some (s, clk))
    (hrun : run calls s clk { contents := [], creators := [] } = some (s', clk', out))
    (hcap : numCreators ≤ capacityB) (hpos : clkB.pos = clkA.pos)
    (hreadings : ∀ k, clkA.pos ≤ k → k < clk'.pos → clkB.readings k = clkA.readings k)
    (hdraws : ∀ k, k < s'.rng.pos →
      genB (clkB.readings clkB.pos) k = genA (clkA.readings clkA.pos) k) :
    session capacityB genB clkB numCreators abnormalProb calls =
      session capacityA genA clkA numCreators abnormalProb calls ∧
    session capacityA genA clkA numCreators abnormalProb calls =
      some (GetCreators s, out.contents, out.creators) := by
  have hr' : (fun s clk => (run calls s clk { contents := [], creators := [] }).map
      fun p => (p.2.2, p.1, p.2.1)) s clk = some (out, s', clk') := by
    simp only [hrun, Option.map_some']
  obtain ⟨p, e, q, d, l⟩ := run_local calls _ s clk out s' clk' hr'
  obtain ⟨e0, q0, d0, hB⟩ := NewPlatformSimulator_local capacityB genB clkB hinit hcap hpos
    (fun k h1 h2 => hreadings k h1 (by omega))
    (fun k _ h2 => hdraws k (by omega))
  have k := l (genB (clkB.readings clkB.pos)) clkB.readings
    (fun k _ h2 => by rw [e0]; exact hdraws k h2)
    (fun k h1 h2 => by rw [d0]; exact hreadings k (by omega) h2)
  simp only [Option.map_eq_some', Prod.mk.injEq, Prod.exists] at k
  obtain ⟨s2, clk2, out2, hk, rfl, rfl, rfl⟩ := k
  have hA : session capacityA genA clkA numCreators abnormalProb calls =
      some (GetCreators s, out2.contents, out2.creators) := by
    simp only [session, hinit, Option.some_bind, hrun, Option.map_some']
  refine ⟨?_, hA⟩
  rw [hA]
  simp only [session, hB, Option.some_bind, hk, Option.map_some']
  rfl

/-- C12 amended at a concrete pair of runs: the run under `zeroGen` and
`dayClock` with one creator consumes 27 draws and 7 readings; the run under
`lateGen` and `lateClock`, which differ from them from these positions on,
returns the same sequences: one creator, one content, one creator snapshot. -/
theorem C12_determinism_witness :
    session largeCapacity lateGen lateClock 1 (F64.fin 0) [Call.content, Call.updates] =
      session demoCapacity zeroGen dayClock 1 (F64.fin 0) [Call.content, Call.updates] ∧
    (session demoCapacity zeroGen dayClock 1 (F64.fin 0) [Call.content, Call.updates]).map
      (fun r => (r.1.length, r.2.1.length, r.2.2.length)) = some (1, 1, 1) ∧
    lateGen 0 27 ≠ zeroGen 0 27 ∧ lateClock.readings 7 ≠ dayClock.readings 7 := by
  obtain ⟨⟨s', clk', out⟩, h⟩ := Option.isSome_iff_exists.mp
    (show ((NewPlatformSimulator demoCapacity zeroGen dayClock 1 (F64.fin 0)).bind fun p =>
      run [Call.content, Call.updates] p.1 p.2 { contents := [], creators := [] }).isSome = true
      by decide!)
  have hposn : ((NewPlatformSimulator demoCapacity zeroGen dayClock 1 (F64.fin 0)).bind fun p =>
      run [Call.content, Call.updates] p.1 p.2 { contents := [], creators := [] }).map
      (fun r => (r.1.rng.pos, r.2.1.pos)) = some (27, 7) := by decide!
  rw [h] at hposn
  simp only [Option.map_some', Option.some.injEq, Prod.mk.injEq] at hposn
  obtain ⟨⟨s, clk⟩, h1, h2⟩ := Option.bind_eq_some.mp h
  refine ⟨(C12_determinism demoCapacity largeCapacity zeroGen lateGen dayClock lateClock 1
    (F64.fin 0) [Call.content, Call.updates] s clk s' clk' out h1 h2 (by decide!) rfl ?_ ?_).1,
    by decide!, by decide, by decide!⟩
  · intro k _ hk
    rw [hposn.2] at hk
    simp only [lateClock, dayClock, if_pos hk]
  · intro k hk
    rw [hposn.1] at hk
    simp only [lateGen, zeroGen, if_pos hk]

end Simulator
